import Mathlib

/-!
Verification of the SUE (stochastic user equilibrium) traffic-assignment
solver in this repository against its natural-language specification.

The C sources are shallowly embedded:
- C `double` values are modelled by `ℝ`, except the shared bush scratch
  arrays `SPcost`, `likelihood`, `weight`, `nodeWeight`, which deliberately
  store the IEEE `INFINITY` sentinel for unreached nodes and are therefore
  modelled by `EReal` (`⊤` plays the role of `INFINITY`).
- loops become `List.foldl` over the same iteration ranges, with array
  writes as `Function.update`;
- the min-heap and FIFO queue live in `datastructures.h`, which is not part
  of the sources here; they are modelled from the specification (see the
  doc comments on `findMinHeap` and the Kahn queue below);
- the doubly-linked arc lists of `networks.c` are modelled by an explicit
  cell store, because `initializeBushes` passes a pointer of one list as
  insertion position into another list, and the resulting pointer
  behaviour is the subject of one of the claims;
- fallible code (fatal errors, null-pointer dereference) returns `Option`.
-/

namespace TapSue

/-! ### Extended-real exponential

The C code applies `exp` to values that may be `INFINITY` (and, through
`theta * (SPcost[j] - SPcost[i] - cost)`, to `-INFINITY`).  IEEE gives
`exp(+inf) = +inf` and `exp(-inf) = 0`; `expE` mirrors that on `EReal`. -/

noncomputable def expE : EReal → EReal
  | ⊥ => 0
  | ⊤ => ⊤
  | (x : ℝ) => ((Real.exp x : ℝ) : EReal)

/-! ### Data model (src/include/networks.h)

`arc_type` carries the TNTP link data plus the current flow and cost.  The
`calculateCost` function pointer is one of the three BPR evaluators of
`networks.c`, assigned by the loader according to `beta`; it is modelled by
the selector `CostFn`. -/

inductive CostFn where
  | linearBPR : CostFn
  | quarticBPR : CostFn
  | generalBPR : CostFn
deriving DecidableEq

structure Arc where
  tail : ℕ
  head : ℕ
  flow : ℝ
  cost : ℝ
  freeFlowTime : ℝ
  capacity : ℝ
  length : ℝ
  toll : ℝ
  alpha : ℝ
  beta : ℝ
  fixedCost : ℝ
  calculateCost : CostFn

/-- Network data (`network_type`).  Arcs are indexed by arc ID in
`0 ..​ numArcs-1`; `arcs` beyond that range models unused memory.  The
demand matrix is indexed origin-zone × destination-zone. -/
structure Network where
  numNodes : ℕ
  numArcs : ℕ
  numZones : ℕ
  firstThroughNode : ℕ
  arcs : ℕ → Arc
  demand : ℕ → ℕ → ℝ

/-- Forward star of a node as built by `finalizeNetwork` (networks.c:71-93):
the arcs are appended at the tail in increasing arc-ID order, so the
head-to-tail traversal enumerates the arcs with this tail in ascending ID
order. -/
def nodeForwardStar (net : Network) (i : ℕ) : List ℕ :=
  (List.range net.numArcs).filter (fun a => (net.arcs a).tail = i)

/-! ### BPR cost evaluators (src/src/networks.c:178-200)

`pow` on doubles is modelled by real `rpow` (the guard in
`generalBPRcost` keeps the base nonnegative on the branch that uses it,
exactly as the C comment explains). -/

noncomputable def generalBPRcost (arc : Arc) : ℝ :=
  if arc.flow ≤ 0 then arc.freeFlowTime + arc.fixedCost
  else arc.fixedCost +
    arc.freeFlowTime * (1 + arc.alpha * (arc.flow / arc.capacity) ^ arc.beta)

noncomputable def linearBPRcost (arc : Arc) : ℝ :=
  arc.fixedCost + arc.freeFlowTime * (1 + arc.alpha * arc.flow / arc.capacity)

noncomputable def quarticBPRcost (arc : Arc) : ℝ :=
  arc.fixedCost + arc.freeFlowTime *
    (1 + arc.alpha * ((arc.flow / arc.capacity) * (arc.flow / arc.capacity) *
                      ((arc.flow / arc.capacity) * (arc.flow / arc.capacity))))

noncomputable def evalCostFn : CostFn → Arc → ℝ
  | CostFn.linearBPR => linearBPRcost
  | CostFn.quarticBPR => quarticBPRcost
  | CostFn.generalBPR => generalBPRcost

/-- Cost refresh (networks.c:167-173): every arc's cost is recomputed from
its current flow by its selected BPR evaluator. -/
noncomputable def updateLinkCosts (net : Network) : Network :=
  { net with
    arcs := fun ij =>
      if ij < net.numArcs then
        { net.arcs ij with
          cost := evalCostFn (net.arcs ij).calculateCost (net.arcs ij) }
      else net.arcs ij }

/-- Concrete arc witnessing the behaviour of the BPR specializations at a
negative flow value: `beta = 1`, `flow = -1`, `alpha = 1`, unit capacity and
free-flow time, no fixed cost. -/
noncomputable def negFlowArc : Arc :=
  { tail := 0, head := 1, flow := -1, cost := 1, freeFlowTime := 1,
    capacity := 1, length := 0, toll := 0, alpha := 1, beta := 1,
    fixedCost := 0, calculateCost := CostFn.linearBPR }

/-! ### Flow shift and convergence measure (src/src/convexcombination.c) -/

/-- Flow shift (convexcombination.c:59-65): move every arc flow a step of
size `stepSize` toward the target. -/
noncomputable def shiftFlows (net : Network) (target : ℕ → ℝ) (stepSize : ℝ) : Network :=
  { net with
    arcs := fun ij =>
      if ij < net.numArcs then
        { net.arcs ij with
          flow := (net.arcs ij).flow + stepSize * (target ij - (net.arcs ij).flow) }
      else net.arcs ij }

/-- Average absolute flow difference (convexcombination.c:89-96). -/
noncomputable def avgFlowDiff (net : Network) (target : ℕ → ℝ) : ℝ :=
  ((List.range net.numArcs).map (fun ij => |(net.arcs ij).flow - target ij|)).sum
    / net.numArcs

/-- Stopping condition of the MSA loop (convexcombination.c:43-45): the three
sequential `if` statements that set `converged` before the `break`. -/
def msaStop (elapsedTime : ℝ) (iteration : ℕ) (diff : ℝ) : Prop :=
  3600 < elapsedTime ∨ 100 ≤ iteration ∨ diff < 1e-3

/-! ### Heap-based Dijkstra (src/src/networks.c:23-65)

The heap itself lives in `datastructures.h`, which is not among the
sources; following the specification it is modelled as the set of
inserted-but-not-yet-deleted node indices keyed by the shared `valueFn`
label array.  `insertHeap` sets the label and adds the node,
`decreaseKey` sets the label, `findMinHeap` returns a node of minimum
label (ties broken by least index, a determinization of the heap) and
`deleteMinHeap` removes it.  The `expanded` field is a history variable
recording the nodes removed so far; it does not influence the
computation. -/

structure DijkstraState where
  valueFn : ℕ → EReal
  pending : Finset ℕ
  expanded : Finset ℕ

/-- Modelled from the spec: `findMinHeap` of the min-heap in
`datastructures.h` (spec section 4.5, min-heap over node indices keyed by a
parallel value array); returns an element of minimum `valueFn` among the
pending nodes, with ties broken by least node index. -/
noncomputable def findMinHeap (s : DijkstraState) : ℕ :=
  if h : s.pending.Nonempty then
    (s.pending.filter (fun j => s.valueFn j = s.pending.inf s.valueFn)).min'
      (by
        obtain ⟨j, hj, hmin⟩ := s.pending.exists_mem_eq_inf h s.valueFn
        exact ⟨j, Finset.mem_filter.mpr ⟨hj, hmin.symm⟩⟩)
  else 0

/-- One arc relaxation of Dijkstra (networks.c:45-58), including the
centroid rule: a node `j < firstThroughNode` has its label updated but is
never inserted into the heap. -/
noncomputable def dijkstraRelax (net : Network) (curnode : ℕ) (s : DijkstraState)
    (a : ℕ) : DijkstraState :=
  let j := (net.arcs a).head
  let tempLabel := s.valueFn curnode + ((net.arcs a).cost : EReal)
  if tempLabel < s.valueFn j then
    if j < net.firstThroughNode then
      { s with valueFn := Function.update s.valueFn j tempLabel }
    else if s.valueFn j = ⊤ then
      { s with valueFn := Function.update s.valueFn j tempLabel,
               pending := insert j s.pending }
    else
      { s with valueFn := Function.update s.valueFn j tempLabel }
  else s

/-- Main Dijkstra loop (networks.c:40-60).  The fuel argument only serves
termination; `numNodes + 1` steps always suffice (each iteration removes
one pending node, and a node is inserted at most once because insertion
requires an infinite label while pending nodes keep finite labels). -/
noncomputable def dijkstraLoop (net : Network) : ℕ → DijkstraState → DijkstraState
  | 0, s => s
  | fuel + 1, s =>
    if s.pending.Nonempty then
      dijkstraLoop net fuel
        ((nodeForwardStar net (findMinHeap s)).foldl (dijkstraRelax net (findMinHeap s))
          { s with pending := s.pending.erase (findMinHeap s),
                   expanded := insert (findMinHeap s) s.expanded })
    else s

/-- Full Dijkstra state after `shortestPath` (networks.c:23-65): labels are
initialized to `INFINITY`, the origin is inserted with label 0, and the
loop runs until the heap is empty. -/
noncomputable def shortestPathState (net : Network) (origin : ℕ) : DijkstraState :=
  dijkstraLoop net (net.numNodes + 1)
    { valueFn := Function.update (fun _ => (⊤ : EReal)) origin 0,
      pending := {origin}, expanded := ∅ }

/-- Label array returned by `shortestPath` (the memcpy at networks.c:63). -/
noncomputable def shortestPath (net : Network) (origin : ℕ) : ℕ → EReal :=
  (shortestPathState net origin).valueFn

/-! ### Doubly-linked arc lists (src/src/networks.c:279-341)

`initializeBushes` passes the tail pointer of one list as the `after`
position for an insertion into a different list, so the lists must be
modelled at the pointer level: a store of cells addressed by allocation
index, shared between all lists of one origin.  A list header holds head
and tail addresses and the size counter.  Reads through invalid pointers
and the null dereference in `insertArcList` yield `none`. -/

structure Cell where
  arcId : ℕ
  prev : Option ℕ
  next : Option ℕ
deriving DecidableEq

structure AListH where
  head : Option ℕ
  tail : Option ℕ
  size : ℕ
deriving DecidableEq

/-- State of `initializeArcList` (networks.c:285-289). -/
def emptyAList : AListH := { head := none, tail := none, size := 0 }

/-- Model of `insertArcList` (networks.c:291-313).  `value` is the arc ID
stored in the new node, `after` the address of the node to insert behind
(`NULL` = insert at the head).  The new node is allocated at the end of the
store.  Returns the new store, the new header and the new node's address;
`none` models the null dereference of `newNode->next` in the branch where
`list->tail != after` but `after->next` (resp. `list->head`) is `NULL`. -/
def insertArcList (cells : List Cell) (list : AListH) (value : ℕ)
    (after : Option ℕ) : Option (List Cell × AListH × ℕ) :=
  let n := cells.length
  match after with
  | some a => do
      let ca ← cells.get? a
      let cells1 := cells ++ [{ arcId := value, prev := some a, next := ca.next }]
      if list.tail = some a then do
        let ca1 ← cells1.get? a
        some (cells1.set a { ca1 with next := some n },
              { list with tail := some n, size := list.size + 1 }, n)
      else do
        let nxt ← ca.next
        let cnxt ← cells1.get? nxt
        let cells2 := cells1.set nxt { cnxt with prev := some n }
        let ca2 ← cells2.get? a
        some (cells2.set a { ca2 with next := some n },
              { list with size := list.size + 1 }, n)
  | none =>
      let cells1 := cells ++ [{ arcId := value, prev := none, next := list.head }]
      if list.tail = none then
        some (cells1, { head := some n, tail := some n, size := list.size + 1 }, n)
      else do
        let nxt ← list.head
        let cnxt ← cells1.get? nxt
        some (cells1.set nxt { cnxt with prev := some n },
              { list with head := some n, size := list.size + 1 }, n)

/-- Head-to-tail traversal of a linked list, following `next` pointers, as
every `for (curArc = list.head; curArc != NULL; curArc = curArc->next)`
loop in the sources does.  The fuel bounds the number of steps; a corrupt
(cyclic or dangling) list yields `none`. -/
def traverseArcList (cells : List Cell) : ℕ → Option ℕ → Option (List ℕ)
  | _, none => some []
  | 0, some _ => none
  | fuel + 1, some addr => do
      let c ← cells.get? addr
      let rest ← traverseArcList cells fuel c.next
      some (c.arcId :: rest)

/-! ### Bush construction (src/src/bush.c:11-89) -/

/-- Per-origin state of the reasonable-link insertion loop
(bush.c:43-64): the shared cell store, the per-node forward and reverse
list headers, and the `numBushLinks` counter. -/
structure BushBuildState where
  cells : List Cell
  fwdLists : ℕ → AListH
  revLists : ℕ → AListH
  numLinks : ℕ

/-- One iteration of the reasonable-link loop (bush.c:51-64).  An arc is
included iff `SPcost[tail] < SPcost[head]`.  The forward-star insertion
appends after `bushForwardStar[r][i].tail`; the reverse-star insertion
passes `bushForwardStar[r][j].tail` — the forward star of the head node —
as insertion position (bush.c:62). -/
noncomputable def bushInsertArc (net : Network) (SPcost : ℕ → EReal)
    (st0 : Option BushBuildState) (ij : ℕ) : Option BushBuildState := do
  let st ← st0
  let i := (net.arcs ij).tail
  let j := (net.arcs ij).head
  if SPcost i < SPcost j then do
    let r1 ← insertArcList st.cells (st.fwdLists i) ij (st.fwdLists i).tail
    let st1 : BushBuildState :=
      { st with cells := r1.1, fwdLists := Function.update st.fwdLists i r1.2.1,
                numLinks := st.numLinks + 1 }
    let r2 ← insertArcList st1.cells (st1.revLists j) ij (st1.fwdLists j).tail
    some { st1 with cells := r2.1, revLists := Function.update st1.revLists j r2.2.1 }
  else
    some st

/-- Reasonable-link insertion loop over all arcs for one origin, starting
from freshly initialized empty lists (bush.c:44-47, 51-64). -/
noncomputable def buildBushLists (net : Network) (SPcost : ℕ → EReal) :
    Option BushBuildState :=
  (List.range net.numArcs).foldl (bushInsertArc net SPcost)
    (some { cells := [], fwdLists := fun _ => emptyAList,
            revLists := fun _ => emptyAList, numLinks := 0 })

/-- Reads out the head-to-tail contents of the per-node lists, as the later
traversals of `bushTopologicalOrder` and `dialFlows` see them. -/
def extractStars (cells : List Cell) (lists : ℕ → AListH) (n : ℕ) :
    Option (ℕ → List ℕ) :=
  (List.range n).foldl
    (fun acc i => do
      let f ← acc
      let l ← traverseArcList cells (cells.length + 1) (lists i).head
      some (Function.update f i l))
    (some (fun _ => []))

/-- Decrement of one successor during Kahn's algorithm (bush.c:145-152):
`indegree[j]--`, and `j` is enqueued when its indegree reaches zero. -/
def kahnRelax (net : Network) (st : (ℕ → ℤ) × List ℕ) (a : ℕ) : (ℕ → ℤ) × List ℕ :=
  let j := (net.arcs a).head
  let indeg := Function.update st.1 j (st.1 j - 1)
  if indeg j = 0 then (indeg, st.2 ++ [j]) else (indeg, st.2)

/-- Main loop of `bushTopologicalOrder` (bush.c:141-153).  The queue from
`datastructures.h` is modelled from the spec as a FIFO list (enqueue at the
rear, dequeue at the front).  Each dequeued node is emitted and its
forward-star successors are relaxed.  The fuel only serves termination
and is chosen large enough for all runs (one dequeue per enqueue, and at
most `numNodes + numArcs + 2` enqueues can ever happen). -/
def kahnLoop (net : Network) (fwdStar : ℕ → List ℕ) :
    ℕ → (ℕ → ℤ) → List ℕ → List ℕ → List ℕ
  | 0, _, _, out => out
  | fuel + 1, indeg, queue, out =>
    match queue with
    | [] => out
    | i :: rest =>
      let p := (fwdStar i).foldl (kahnRelax net) (indeg, rest)
      kahnLoop net fwdStar fuel p.1 p.2 (out ++ [i])

/-- Topological order of one bush (bush.c:125-160).  The indegree of a node
is the size counter of its bush reverse star; the queue is seeded with the
origin first, then every other node of indegree zero in index order.  The
emitted order is returned; if fewer than `numNodes` nodes are emitted the
source calls `fatalError` (cycle), modelled as `none`. -/
def bushTopologicalOrder (net : Network) (origin : ℕ) (fwdStar : ℕ → List ℕ)
    (revSize : ℕ → ℤ) : Option (List ℕ) :=
  let queue0 := origin ::
    (List.range net.numNodes).filter (fun i => decide (revSize i = 0 ∧ i ≠ origin))
  let out := kahnLoop net fwdStar (net.numNodes + net.numArcs + 2) revSize queue0 []
  if out.length = net.numNodes then some out else none

/-- Path counting (bush.c:67-83): `pathCount[origin] = 1`, then in
topological order each node's count is the sum of its bush predecessors'
counts; counts of zone nodes with positive demand are accumulated into
`numBushPaths`.  The `pathCount` vector is allocated uninitialized; the
model starts it at zero (every entry read is written first in well-formed
runs). -/
noncomputable def countBushPaths (net : Network) (origin : ℕ) (ord : List ℕ)
    (revStar : ℕ → List ℕ) : ℕ :=
  ((ord.drop 1).foldl
    (fun (st : (ℕ → ℕ) × ℕ) j =>
      let pc1 := Function.update st.1 j 0
      let pc2 := (revStar j).foldl
        (fun pc a => Function.update pc j (pc j + pc ((net.arcs a).tail))) pc1
      if j < net.numZones ∧ 0 < net.demand origin j then (pc2, st.2 + pc2 j)
      else (pc2, st.2))
    (Function.update (fun _ => 0) origin 1, 0)).2

/-- The bush container (src/include/bush.h, `bushes_type`).  The first six
fields are the scratch arrays shared across all origins; `SPcost`,
`likelihood`, `weight` and `nodeWeight` may hold the IEEE `INFINITY`
sentinel and are modelled in `EReal`, while `flow` and `nodeFlow` hold
finite flow quantities.  The remaining fields are the persistent
per-origin bush structures. -/
structure Bushes where
  SPcost : ℕ → EReal
  flow : ℕ → ℝ
  nodeFlow : ℕ → ℝ
  weight : ℕ → EReal
  nodeWeight : ℕ → EReal
  likelihood : ℕ → EReal
  bushOrder : ℕ → List ℕ
  bushForwardStar : ℕ → ℕ → List ℕ
  bushReverseStar : ℕ → ℕ → List ℕ
  numBushLinks : ℕ → ℕ
  numBushPaths : ℕ → ℕ

/-- Result of bush construction for a single origin. -/
structure OriginBush where
  fwd : ℕ → List ℕ
  rev : ℕ → List ℕ
  ord : List ℕ
  links : ℕ
  paths : ℕ

/-- Cost clamp at the start of `initializeBushes` (bush.c:37-41):
`cost = max(MIN_LINK_COST, freeFlowTime + fixedCost)` with
`MIN_LINK_COST = 1e-6`. -/
noncomputable def clampInitialCosts (net : Network) : Network :=
  { net with
    arcs := fun ij =>
      if ij < net.numArcs then
        { net.arcs ij with
          cost := max 1e-6 ((net.arcs ij).freeFlowTime + (net.arcs ij).fixedCost) }
      else net.arcs ij }

/-- Bush construction for one origin (the body of the loop at bush.c:42-84):
free-flow Dijkstra labels, reasonable-link insertion, topological order and
path count. -/
noncomputable def buildOriginBush (net : Network) (r : ℕ) : Option OriginBush := do
  let L := shortestPath net r
  let st ← buildBushLists net L
  let fwdT ← extractStars st.cells st.fwdLists net.numNodes
  let revT ← extractStars st.cells st.revLists net.numNodes
  let ord ← bushTopologicalOrder net r fwdT (fun i => ((st.revLists i).size : ℤ))
  some { fwd := fwdT, rev := revT, ord := ord, links := st.numLinks,
         paths := countBushPaths net r ord revT }

/-- Placeholder for origins outside `0 .. numZones-1` (their bush entries
are allocated but never filled). -/
def defaultOriginBush : OriginBush :=
  { fwd := fun _ => [], rev := fun _ => [], ord := [], links := 0, paths := 0 }

/-- Model of `initializeBushes` (bush.c:11-89).  Returns the network with
clamped costs together with the bush container, or `none` if the pointer
manipulation of the insertion loop dereferences null or the topological
order aborts.  The malloc-allocated scratch arrays are modelled as zero,
except `SPcost`, which ends up holding the Dijkstra labels of the last
origin processed. -/
noncomputable def initializeBushes (net0 : Network) : Option (Network × Bushes) := do
  let net := clampInitialCosts net0
  let obs ← (List.range net.numZones).foldl
    (fun acc r => do
      let f ← acc
      let ob ← buildOriginBush net r
      some (Function.update f r ob))
    (some (fun _ => defaultOriginBush))
  some (net,
    { SPcost := if net.numZones = 0 then fun _ => 0
                else shortestPath net (net.numZones - 1),
      flow := fun _ => 0, nodeFlow := fun _ => 0, weight := fun _ => 0,
      nodeWeight := fun _ => 0, likelihood := fun _ => 0,
      bushOrder := fun r => (obs r).ord,
      bushForwardStar := fun r => (obs r).fwd,
      bushReverseStar := fun r => (obs r).rev,
      numBushLinks := fun r => (obs r).links,
      numBushPaths := fun r => (obs r).paths })

/-! ### Dial loading (src/src/bush.c:167-287)

The four phases of `dialFlows` are modelled separately and composed.
Pointer-to-arc conversion (`ptr2arc`) is the identity here because star
lists store arc IDs directly. -/

/-- Bush shortest path (bush.c:167-186): `SPcost[origin] = 0`, then one
sweep over the topological order; each node's label starts at `INFINITY`
and is min-reduced over its bush reverse star. -/
noncomputable def bushShortestPath (net : Network) (b : Bushes) (origin : ℕ) : Bushes :=
  { b with
    SPcost :=
      ((b.bushOrder origin).drop 1).foldl
        (fun L i =>
          (b.bushReverseStar origin i).foldl
            (fun M a =>
              Function.update M i
                (min (M i) (M ((net.arcs a).tail) + ((net.arcs a).cost : EReal))))
            (Function.update L i ⊤))
        (Function.update b.SPcost origin 0) }

/-- Likelihood value of one arc (bush.c:206-210): zero when the tail is
unreached, otherwise `exp(theta * (SPcost[head] - SPcost[tail] - cost))`. -/
noncomputable def likelihoodValue (net : Network) (L : ℕ → EReal) (theta : ℝ)
    (ij : ℕ) : EReal :=
  if L ((net.arcs ij).tail) = ⊤ then 0
  else expE ((theta : EReal) *
    (L ((net.arcs ij).head) - L ((net.arcs ij).tail) - ((net.arcs ij).cost : EReal)))

/-- Step 1 of `dialFlows` (bush.c:199-212): reset every arc's scratch flow
to zero and compute every arc's likelihood. -/
noncomputable def computeLikelihoods (net : Network) (b : Bushes) (theta : ℝ) : Bushes :=
  (List.range net.numArcs).foldl
    (fun b ij =>
      { b with
        flow := Function.update b.flow ij 0,
        likelihood := Function.update b.likelihood ij
          (likelihoodValue net b.SPcost theta ij) })
    b

/-- Step 2 of `dialFlows` (bush.c:214-242): node and link weights in
topological order, starting with weight = likelihood on the origin's
forward star. -/
noncomputable def computeWeights (net : Network) (b : Bushes) (origin : ℕ) : Bushes :=
  let b1 := { b with nodeWeight := Function.update b.nodeWeight origin 1 }
  let b2 := (b1.bushForwardStar origin origin).foldl
    (fun b a => { b with weight := Function.update b.weight a (b.likelihood a) }) b1
  ((b2.bushOrder origin).drop 1).foldl
    (fun b i =>
      let bz := { b with nodeWeight := Function.update b.nodeWeight i 0 }
      let bw := (bz.bushReverseStar origin i).foldl
        (fun b a =>
          { b with nodeWeight := Function.update b.nodeWeight i (b.nodeWeight i + b.weight a) })
        bz
      (bw.bushForwardStar origin i).foldl
        (fun b a =>
          { b with weight := Function.update b.weight a (b.nodeWeight i * b.likelihood a) })
        bw)
    b2

/-- Flow written to one reverse-star arc during step 3 (bush.c:254-257 and
277-280): guarded division of the arc weight by the node weight.  The
source computes `nodeFlow[i] * (weight[ij] / nodeWeight[i])` in doubles;
on the guarded branch both weights are finite in every reachable state
(see the finiteness lemmas below), so the division is modelled by `EReal`
division converted back to `ℝ`. -/
noncomputable def dialFlowValue (b : Bushes) (i a : ℕ) : ℝ :=
  if b.nodeWeight i = 0 then 0
  else b.nodeFlow i * (b.weight a / b.nodeWeight i).toReal

/-- Step 3 of `dialFlows` (bush.c:244-283): node and link flows in reverse
topological order.  The last node is handled first without a forward-star
sweep, then the remaining nodes from position `numNodes - 2` down to 0. -/
noncomputable def computeFlows (net : Network) (b : Bushes) (origin : ℕ) : Bushes :=
  let iN := (b.bushOrder origin).getD (net.numNodes - 1) 0
  let b1 := { b with
    nodeFlow := Function.update b.nodeFlow iN
      (if iN < net.numZones then net.demand origin iN else 0) }
  let b2 := (b1.bushReverseStar origin iN).foldl
    (fun b a => { b with flow := Function.update b.flow a (dialFlowValue b iN a) }) b1
  (((b2.bushOrder origin).take (net.numNodes - 1)).reverse).foldl
    (fun b i =>
      let bd := { b with
        nodeFlow := Function.update b.nodeFlow i
          (if i < net.numZones then net.demand origin i else 0) }
      let bf := (bd.bushForwardStar origin i).foldl
        (fun b a =>
          { b with nodeFlow := Function.update b.nodeFlow i (b.nodeFlow i + b.flow a) })
        bd
      (bf.bushReverseStar origin i).foldl
        (fun b a => { b with flow := Function.update b.flow a (dialFlowValue b i a) }) bf)
    b2

/-- Model of `dialFlows` (bush.c:193-287).  The network is passed through
unchanged (the source never writes to it); the bush container is returned
with updated scratch arrays. -/
noncomputable def dialFlows (net : Network) (b : Bushes) (origin : ℕ) (theta : ℝ) :
    Network × Bushes :=
  (net, computeFlows net (computeWeights net (computeLikelihoods net
    (bushShortestPath net b origin) theta) origin) origin)

/-! ### MSA driver (src/src/convexcombination.c) -/

/-- Model of `calculateTarget` (convexcombination.c:71-83): zero the target,
then run Dial for every origin in ascending order and sum the per-origin
flows.  The network is threaded through `dialFlows` exactly as the source
passes its pointer. -/
noncomputable def calculateTarget (net : Network) (b : Bushes) (theta : ℝ) :
    (ℕ → ℝ) × Network × Bushes :=
  (List.range net.numZones).foldl
    (fun st r =>
      let db := dialFlows st.2.1 st.2.2 r theta
      (fun ij => if ij < db.1.numArcs then st.1 ij + db.2.flow ij else st.1 ij,
       db.1, db.2))
    (fun _ => 0, net, b)

/-- Model of `initializeSolution` (convexcombination.c:105-125): build the
bushes, total the bush-link and bush-path statistics, compute an initial
target and install it as the arc flows. -/
noncomputable def initializeSolution (net0 : Network) (theta : ℝ) :
    Option (Network × Bushes × ℕ × ℕ) := do
  let ib ← initializeBushes net0
  let numBushLinks := ((List.range ib.1.numZones).map ib.2.numBushLinks).sum
  let numPaths := ((List.range ib.1.numZones).map ib.2.numBushPaths).sum
  let tq := calculateTarget ib.1 ib.2 theta
  let net := { tq.2.1 with
    arcs := fun ij =>
      if ij < tq.2.1.numArcs then { tq.2.1.arcs ij with flow := tq.1 ij }
      else tq.2.1.arcs ij }
  some (net, tq.2.2, numBushLinks, numPaths)

open Classical in
/-- The `while (converged == FALSE)` loop of `SUE_MSA`
(convexcombination.c:31-50).  Wall-clock time is modelled by the oracle
`ticks`, giving the `clock()` increment observed in iteration `n`; the
source accumulates it into `elapsedTime` before testing the stop
conditions.  The returned components are the network (after the final
`updateLinkCosts`), the bush container, the iteration counter, and the
value of the local `converged` flag when the loop exits. -/
noncomputable def sueLoop (theta lambda : ℝ) (ticks : ℕ → ℝ) (net : Network)
    (b : Bushes) (iteration : ℕ) (elapsedTime : ℝ) :
    Network × Bushes × ℕ × Bool :=
  let net1 := updateLinkCosts net
  let tq := calculateTarget net1 b theta
  let diff := avgFlowDiff tq.2.1 tq.1
  let elapsed1 := elapsedTime + ticks iteration
  if msaStop elapsed1 iteration diff then (tq.2.1, tq.2.2, iteration, true)
  else sueLoop theta lambda ticks (shiftFlows tq.2.1 tq.1 lambda) tq.2.2
    (iteration + 1) elapsed1
termination_by 101 - iteration
decreasing_by
  rename_i h
  rw [msaStop] at h
  push_neg at h
  omega

/-- Model of `SUE_MSA` (convexcombination.c:15-53).  `initTick` is the
`clock()` time consumed by initialization (added to `elapsedTime` before
the loop).  The C function returns `void`; the model exposes the heap
state it leaves behind — the network with its final flows — together with
the final iteration count and the exit value of the internal `converged`
flag. -/
noncomputable def SUE_MSA (net0 : Network) (theta lambda : ℝ) (initTick : ℝ)
    (ticks : ℕ → ℝ) : Option (Network × Bushes × ℕ × Bool) := do
  let is ← initializeSolution net0 theta
  some (sueLoop theta lambda ticks is.1 is.2.1 0 initTick)

/-! ### Well-formedness predicates

The dial and topological-order theorems are stated over an arbitrary bush
state satisfying the structural invariants that bush construction
establishes: a set `B` of bush arc IDs, star lists that enumerate exactly
the bush arcs with the matching endpoint (each once), and a topological
order. -/

/-- Tails and heads of all real arcs are node indices. -/
def ArcsValid (net : Network) : Prop :=
  ∀ ij, ij < net.numArcs →
    (net.arcs ij).tail < net.numNodes ∧ (net.arcs ij).head < net.numNodes

/-- Star lists of one origin enumerate exactly the arcs of the bush arc set
`B` with the matching tail (forward) or head (reverse), each exactly
once. -/
structure StarsWF (net : Network) (fwdStar revStar : ℕ → List ℕ) (B : Finset ℕ) : Prop where
  bSub : ∀ a ∈ B, a < net.numArcs
  fwdMem : ∀ i a, a ∈ fwdStar i ↔ (a ∈ B ∧ (net.arcs a).tail = i)
  revMem : ∀ i a, a ∈ revStar i ↔ (a ∈ B ∧ (net.arcs a).head = i)
  fwdNodup : ∀ i, (fwdStar i).Nodup
  revNodup : ∀ i, (revStar i).Nodup

/-- Full per-origin bush well-formedness used by the Dial theorems:
valid arcs, well-formed stars, and a bush order that is a permutation of
the nodes, starts at the origin, and increases along every bush arc. -/
structure BushWF (net : Network) (b : Bushes) (origin : ℕ) (B : Finset ℕ) : Prop where
  arcsValid : ArcsValid net
  zonesLe : net.numZones ≤ net.numNodes
  stars : StarsWF net (b.bushForwardStar origin) (b.bushReverseStar origin) B
  ordPerm : (b.bushOrder origin).Perm (List.range net.numNodes)
  ordHead : (b.bushOrder origin).head? = some origin
  topo : ∀ a ∈ B,
    (b.bushOrder origin).indexOf ((net.arcs a).tail) <
    (b.bushOrder origin).indexOf ((net.arcs a).head)

/-! ### Concrete networks used as witnesses and counterexamples -/

/-- Arc constructor for the concrete test networks: free-flow time 1, unit
capacity, no length, toll or fixed cost, `beta = 1` (so the loader selects
`linearBPRcost`), initial flow 0 and initial cost equal to the free-flow
time, as `readOBANetwork` sets them. -/
noncomputable def mkArc (t h : ℕ) (alpha : ℝ) : Arc :=
  { tail := t, head := h, flow := 0, cost := 1, freeFlowTime := 1,
    capacity := 1, length := 0, toll := 0, alpha := alpha, beta := 1,
    fixedCost := 0, calculateCost := CostFn.linearBPR }

/-- Three-node, one-zone network on which the reverse-star insertion of
`initializeBushes` dereferences null: arc 0 runs 1 → 2 and arc 1 runs
0 → 1, so when arc 1 is inserted, the forward star of its head node 1
already contains arc 0. -/
noncomputable def net3 : Network :=
  { numNodes := 3, numArcs := 2, numZones := 1, firstThroughNode := 0,
    arcs := fun ij => if ij = 0 then mkArc 1 2 0 else mkArc 0 1 0,
    demand := fun _ _ => 0 }

/-- Two-node, two-zone network with two parallel arcs 0 → 1 (arc 0 with
`alpha = 0`, arc 1 with `alpha = 2`) and demand 1000 from zone 0 to
zone 1.  Under free-flow costs the initial stochastic loading splits the
demand evenly; after one cost update the recomputed target differs from
the loaded flows by far more than the tolerance. -/
noncomputable def netPar : Network :=
  { numNodes := 2, numArcs := 2, numZones := 2, firstThroughNode := 0,
    arcs := fun ij => if ij = 0 then mkArc 0 1 0 else mkArc 0 1 2,
    demand := fun r s => if r = 0 ∧ s = 1 then 1000 else 0 }

/-- Two-node, two-zone network whose only arc runs 1 → 0, so destination
zone 1 is unreachable from origin 0 although `demand[0][1] = 5`. -/
noncomputable def net2 : Network :=
  { numNodes := 2, numArcs := 1, numZones := 2, firstThroughNode := 0,
    arcs := fun _ => mkArc 1 0 0,
    demand := fun r s => if r = 0 ∧ s = 1 then 5 else 0 }

/-- Candidate label contributed by one reverse-star arc during the bush
shortest-path sweep: label of the tail plus current arc cost. -/
noncomputable def spCand (net : Network) (L : ℕ → EReal) (a : ℕ) : EReal :=
  L ((net.arcs a).tail) + ((net.arcs a).cost : EReal)

/-- Processing discipline of the topological sweeps: when a node is
processed, the tails of its reverse-star arcs have been processed already
(they are neither the node itself nor any node processed later). -/
def tailsEarlier (net : Network) (rev : ℕ → List ℕ) : List ℕ → Prop
  | [] => True
  | i :: rest => (∀ a ∈ rev i, (net.arcs a).tail ∉ i :: rest) ∧ tailsEarlier net rev rest

/-- Processing discipline of the reverse sweep of step 3 of `dialFlows`:
when a node is processed, the heads of its forward-star arcs have been
processed already (they are neither the node itself nor any node processed
later). -/
def headsEarlier (net : Network) (fwd : ℕ → List ℕ) : List ℕ → Prop
  | [] => True
  | i :: rest => (∀ a ∈ fwd i, (net.arcs a).head ∉ i :: rest) ∧ headsEarlier net fwd rest

/-- One-node, one-zone network with no arcs: the smallest network accepted
by the solver, used to instantiate the hypotheses of the bush-level
theorems concretely. -/
noncomputable def net1 : Network :=
  { numNodes := 1, numArcs := 0, numZones := 1, firstThroughNode := 0,
    arcs := fun _ => mkArc 0 0 0, demand := fun _ _ => 0 }

/-- Bush container matching `net1` after initialization: the only bush
order is `[0]` and every star list is empty. -/
noncomputable def unitBushes : Bushes :=
  { SPcost := fun _ => 0, flow := fun _ => 0, nodeFlow := fun _ => 0,
    weight := fun _ => 0, nodeWeight := fun _ => 0, likelihood := fun _ => 0,
    bushOrder := fun _ => [0], bushForwardStar := fun _ _ => [],
    bushReverseStar := fun _ _ => [], numBushLinks := fun _ => 0,
    numBushPaths := fun _ => 0 }

/-- All-empty bush container, used to instantiate loop-level statements. -/
noncomputable def emptyBushes : Bushes :=
  { SPcost := fun _ => 0, flow := fun _ => 0, nodeFlow := fun _ => 0,
    weight := fun _ => 0, nodeWeight := fun _ => 0, likelihood := fun _ => 0,
    bushOrder := fun _ => [], bushForwardStar := fun _ _ => [],
    bushReverseStar := fun _ _ => [], numBushLinks := fun _ => 0,
    numBushPaths := fun _ => 0 }

/-- Forward stars of the origin-0 bush of `netPar` (both arcs 0 → 1). -/
def fwd0Par : ℕ → List ℕ := Function.update (Function.update (fun _ => []) 0 [0, 1]) 1 []

/-- Reverse stars of the origin-0 bush of `netPar`.  The second insertion
passes the empty forward star of the head node as position, so the arc is
inserted at the list head and the reverse star comes out descending. -/
def rev0Par : ℕ → List ℕ := Function.update (Function.update (fun _ => []) 0 []) 1 [1, 0]

/-- Empty stars of the origin-1 bush of `netPar` (no reasonable arcs). -/
def emptyStarsPar : ℕ → List ℕ := Function.update (Function.update (fun _ => []) 0 []) 1 []

/-- Origin-0 bush of `netPar` as built by `buildOriginBush`. -/
noncomputable def OB0par : OriginBush :=
  { fwd := fwd0Par, rev := rev0Par, ord := [0, 1], links := 2,
    paths := countBushPaths netPar 0 [0, 1] rev0Par }

/-- Origin-1 bush of `netPar` as built by `buildOriginBush`. -/
noncomputable def OB1par : OriginBush :=
  { fwd := emptyStarsPar, rev := emptyStarsPar, ord := [1, 0], links := 0,
    paths := countBushPaths netPar 1 [1, 0] emptyStarsPar }

/-- Per-origin bush table of `netPar`. -/
noncomputable def obsPar : ℕ → OriginBush :=
  Function.update (Function.update (fun _ => defaultOriginBush) 0 OB0par) 1 OB1par

/-- Bush container produced by `initializeBushes` on `netPar`. -/
noncomputable def bushesPar : Bushes :=
  { SPcost := shortestPath netPar 1, flow := fun _ => 0, nodeFlow := fun _ => 0,
    weight := fun _ => 0, nodeWeight := fun _ => 0, likelihood := fun _ => 0,
    bushOrder := fun r => (obsPar r).ord, bushForwardStar := fun r => (obsPar r).fwd,
    bushReverseStar := fun r => (obsPar r).rev, numBushLinks := fun r => (obsPar r).links,
    numBushPaths := fun r => (obsPar r).paths }

/-- Network installed by `initializeSolution` on `netPar`: the arcs carry
the initial stochastic loading as their flows. -/
noncomputable def NIPar : Network :=
  { netPar with arcs := fun ij => if ij < netPar.numArcs then { netPar.arcs ij with flow := (calculateTarget netPar bushesPar 1).1 ij } else netPar.arcs ij }

/-- Bush container after the initial loading on `netPar`. -/
noncomputable def B1Par : Bushes := (calculateTarget netPar bushesPar 1).2.2

/-! ## Theorems -/

/-! ### Properties of the extended-real exponential -/

@[simp] theorem expE_bot : expE ⊥ = 0 := rfl

@[simp] theorem expE_top : expE ⊤ = ⊤ := rfl

@[simp] theorem expE_coe (x : ℝ) : expE (x : EReal) = ((Real.exp x : ℝ) : EReal) := rfl

theorem expE_ne_bot (x : EReal) : expE x ≠ ⊥ := by
  induction x using EReal.rec with
  | h_bot => simp
  | h_real a => simp
  | h_top => simp

@[simp] theorem expE_zero : expE (0 : EReal) = 1 := by
  rw [show (0 : EReal) = ((0 : ℝ) : EReal) from rfl, expE_coe, Real.exp_zero, EReal.coe_one]

/-! ### Evaluation helpers for the concrete runs -/

theorem mkArc_tail (t h : ℕ) (a : ℝ) : (mkArc t h a).tail = t := rfl

theorem mkArc_head (t h : ℕ) (a : ℝ) : (mkArc t h a).head = h := rfl

theorem mkArc_cost (t h : ℕ) (a : ℝ) : (mkArc t h a).cost = 1 := rfl

theorem net3_arcs_0 : net3.arcs 0 = mkArc 1 2 0 := rfl

theorem net3_arcs_1 : net3.arcs 1 = mkArc 0 1 0 := rfl

theorem net3_numNodes : net3.numNodes = 3 := rfl

theorem net3_numArcs : net3.numArcs = 2 := rfl

theorem net3_ftn : net3.firstThroughNode = 0 := rfl

theorem er_add_coe (x y : ℝ) : ((x : ℝ) : EReal) + ((y : ℝ) : EReal) = ((x + y : ℝ) : EReal) :=
  (EReal.coe_add x y).symm

theorem er_one_lt_top : (1 : EReal) < ⊤ := by
  rw [show (1 : EReal) = ((1 : ℝ) : EReal) from rfl]
  exact EReal.coe_lt_top 1

theorem er_zero_lt_top : (0 : EReal) < ⊤ := by
  rw [show (0 : EReal) = ((0 : ℝ) : EReal) from rfl]
  exact EReal.coe_lt_top 0

theorem er_two_lt_top : (2 : EReal) < ⊤ := by
  exact_mod_cast EReal.coe_lt_top 2

theorem findMinHeap_singleton (v : ℕ → EReal) (e : Finset ℕ) (i : ℕ) :
    findMinHeap { valueFn := v, pending := {i}, expanded := e } = i := by
  rw [findMinHeap, dif_pos (Finset.singleton_nonempty i)]
  simp only [Finset.inf_singleton]
  refine le_antisymm (Finset.min'_le _ _ ?_) (Finset.le_min' _ _ _ ?_)
  · exact Finset.mem_filter.mpr ⟨Finset.mem_singleton_self i, rfl⟩
  · intro y hy
    exact le_of_eq (Finset.mem_singleton.mp (Finset.mem_filter.mp hy).1).symm

theorem nodeForwardStar_net3_0 : nodeForwardStar net3 0 = [1] := by
  simp [nodeForwardStar, net3, mkArc, List.range_succ, List.filter]

theorem nodeForwardStar_net3_1 : nodeForwardStar net3 1 = [0] := by
  simp [nodeForwardStar, net3, mkArc, List.range_succ, List.filter]

theorem nodeForwardStar_net3_2 : nodeForwardStar net3 2 = [] := by
  simp [nodeForwardStar, net3, mkArc, List.range_succ, List.filter]

theorem net3_shortestPath_eval :
    shortestPath net3 0 0 = ((0 : ℝ) : EReal) ∧
    shortestPath net3 0 1 = ((1 : ℝ) : EReal) ∧
    shortestPath net3 0 2 = ((2 : ℝ) : EReal) := by
  have h0 : net3.numNodes = 3 := rfl
  rw [shortestPath, shortestPathState, h0]
  rw [show (3 : ℕ) + 1 = 4 from rfl]
  rw [dijkstraLoop]
  norm_num [findMinHeap_singleton, dijkstraRelax, nodeForwardStar_net3_0,
    nodeForwardStar_net3_1, nodeForwardStar_net3_2, net3_arcs_0, net3_arcs_1,
    net3_numNodes, net3_numArcs, net3_ftn, mkArc_tail, mkArc_head, mkArc_cost,
    er_add_coe, Function.update_apply, Finset.erase_singleton, EReal.coe_lt_top,
    er_one_lt_top]
  rw [show (3 : ℕ) = 2 + 1 from rfl, dijkstraLoop]
  norm_num [findMinHeap_singleton, dijkstraRelax, nodeForwardStar_net3_0,
    nodeForwardStar_net3_1, nodeForwardStar_net3_2, net3_arcs_0, net3_arcs_1,
    net3_numNodes, net3_numArcs, net3_ftn, mkArc_tail, mkArc_head, mkArc_cost,
    er_add_coe, Function.update_apply, Finset.erase_singleton, EReal.coe_lt_top,
    er_one_lt_top, er_two_lt_top]
  rw [show (2 : ℕ) = 1 + 1 from rfl, dijkstraLoop]
  norm_num [findMinHeap_singleton, dijkstraRelax, nodeForwardStar_net3_0,
    nodeForwardStar_net3_1, nodeForwardStar_net3_2, net3_arcs_0, net3_arcs_1,
    net3_numNodes, net3_numArcs, net3_ftn, mkArc_tail, mkArc_head, mkArc_cost,
    er_add_coe, Function.update_apply, Finset.erase_singleton, EReal.coe_lt_top,
    er_one_lt_top, er_two_lt_top]
  rw [dijkstraLoop]
  norm_num [Function.update_apply]
  norm_cast

theorem clampInitialCosts_eq_of (net : Network)
    (h : ∀ ij, ij < net.numArcs →
      max (1e-6 : ℝ) ((net.arcs ij).freeFlowTime + (net.arcs ij).fixedCost)
        = (net.arcs ij).cost) :
    clampInitialCosts net = net := by
  rw [clampInitialCosts]
  have harc : (fun ij => if ij < net.numArcs then
      { net.arcs ij with
        cost := max 1e-6 ((net.arcs ij).freeFlowTime + (net.arcs ij).fixedCost) }
      else net.arcs ij) = net.arcs := by
    funext ij
    rcases Nat.lt_or_ge ij net.numArcs with hij | hij
    · rw [if_pos hij, h ij hij]
    · rw [if_neg (not_lt.mpr hij)]
  rw [harc]

theorem clampInitialCosts_net3 : clampInitialCosts net3 = net3 := by
  refine clampInitialCosts_eq_of net3 ?_
  intro ij hij
  rw [net3_numArcs] at hij
  interval_cases ij <;> norm_num [net3_arcs_0, net3_arcs_1, mkArc]

theorem bushInsert_net3_step0 :
    bushInsertArc net3 (shortestPath net3 0)
      (some { cells := [], fwdLists := fun _ => emptyAList,
              revLists := fun _ => emptyAList, numLinks := 0 }) 0
    = some { cells := [⟨0, none, none⟩, ⟨0, none, none⟩],
             fwdLists := Function.update (fun _ => emptyAList) 1 ⟨some 0, some 0, 1⟩,
             revLists := Function.update (fun _ => emptyAList) 2 ⟨some 1, some 1, 1⟩,
             numLinks := 1 } := by
  obtain ⟨h0, h1, h2⟩ := net3_shortestPath_eval
  have hlt : shortestPath net3 0 1 < shortestPath net3 0 2 := by
    rw [h1, h2]
    exact_mod_cast (by norm_num : (1 : ℝ) < 2)
  rw [bushInsertArc]
  simp only [Option.bind_eq_bind, Option.some_bind, net3_arcs_0, mkArc_tail, mkArc_head]
  rw [if_pos hlt]
  simp only [insertArcList, emptyAList, Function.update_apply]
  norm_num

theorem bushInsert_net3_step1 :
    bushInsertArc net3 (shortestPath net3 0)
      (some { cells := [⟨0, none, none⟩, ⟨0, none, none⟩],
              fwdLists := Function.update (fun _ => emptyAList) 1 ⟨some 0, some 0, 1⟩,
              revLists := Function.update (fun _ => emptyAList) 2 ⟨some 1, some 1, 1⟩,
              numLinks := 1 }) 1
    = none := by
  obtain ⟨h0, h1, h2⟩ := net3_shortestPath_eval
  have hlt : shortestPath net3 0 0 < shortestPath net3 0 1 := by
    rw [h0, h1]
    exact_mod_cast (by norm_num : (0 : ℝ) < 1)
  rw [bushInsertArc]
  simp only [Option.bind_eq_bind, Option.some_bind, net3_arcs_1, mkArc_tail, mkArc_head]
  rw [if_pos hlt]
  simp only [insertArcList, emptyAList, Function.update_apply]
  norm_num
  intro h
  exact Option.noConfusion h

theorem buildBushLists_net3 : buildBushLists net3 (shortestPath net3 0) = none := by
  rw [buildBushLists, net3_numArcs, show List.range 2 = [0, 1] from rfl]
  simp only [List.foldl_cons, List.foldl_nil]
  rw [bushInsert_net3_step0, bushInsert_net3_step1]

theorem buildOriginBush_net3 : buildOriginBush net3 0 = none := by
  rw [buildOriginBush, buildBushLists_net3]
  rfl

/-- C1 evaluation: `initializeBushes` crashes on `net3`. -/
theorem initializeBushes_net3 : initializeBushes net3 = none := by
  rw [initializeBushes, clampInitialCosts_net3]
  rw [show net3.numZones = 1 from rfl, show List.range 1 = [0] from rfl]
  simp only [List.foldl_cons, List.foldl_nil, Option.bind_eq_bind, Option.some_bind]
  rw [buildOriginBush_net3]
  rfl

theorem foldl_field_eq {α : Type} {β : Type} {γ : Type} (f : α → β → α) (g : α → γ)
    (hf : ∀ a x, g (f a x) = g a) : ∀ (l : List β) (a : α), g (l.foldl f a) = g a := by
  intro l
  induction l with
  | nil => intro a; rfl
  | cons x xs ih => intro a; rw [List.foldl_cons, ih, hf]

theorem foldl_field_eq2 {α : Type} {β : Type} {γ : Type} {f : α → β → α} {g : α → γ}
    {c : γ} {l : List β} {a : α} (hf : ∀ a x, g (f a x) = g a) (ha : g a = c) :
    g (l.foldl f a) = c := by
  rw [foldl_field_eq f g hf l a, ha]

/-! ### C10: dialFlows and calculateTarget write only the scratch state -/

theorem bushShortestPath_persistent (net : Network) (b : Bushes) (origin : ℕ) :
    (bushShortestPath net b origin).bushOrder = b.bushOrder ∧
    (bushShortestPath net b origin).bushForwardStar = b.bushForwardStar ∧
    (bushShortestPath net b origin).bushReverseStar = b.bushReverseStar ∧
    (bushShortestPath net b origin).numBushLinks = b.numBushLinks ∧
    (bushShortestPath net b origin).numBushPaths = b.numBushPaths :=
  ⟨rfl, rfl, rfl, rfl, rfl⟩

theorem computeLikelihoods_persistent (net : Network) (b : Bushes) (theta : ℝ) :
    (computeLikelihoods net b theta).bushOrder = b.bushOrder ∧
    (computeLikelihoods net b theta).bushForwardStar = b.bushForwardStar ∧
    (computeLikelihoods net b theta).bushReverseStar = b.bushReverseStar ∧
    (computeLikelihoods net b theta).numBushLinks = b.numBushLinks ∧
    (computeLikelihoods net b theta).numBushPaths = b.numBushPaths := by
  rw [computeLikelihoods]
  refine ⟨?_, ?_, ?_, ?_, ?_⟩ <;>
    · apply foldl_field_eq
      intro a x
      rfl

theorem computeWeights_persistent (net : Network) (b : Bushes) (origin : ℕ) :
    (computeWeights net b origin).bushOrder = b.bushOrder ∧
    (computeWeights net b origin).bushForwardStar = b.bushForwardStar ∧
    (computeWeights net b origin).bushReverseStar = b.bushReverseStar ∧
    (computeWeights net b origin).numBushLinks = b.numBushLinks ∧
    (computeWeights net b origin).numBushPaths = b.numBushPaths := by
  rw [computeWeights]
  refine ⟨?_, ?_, ?_, ?_, ?_⟩ <;>
    · apply foldl_field_eq2
      · intro a x
        exact foldl_field_eq2 (fun a2 x2 => rfl) (foldl_field_eq2 (fun a2 x2 => rfl) rfl)
      · exact foldl_field_eq2 (fun a2 x2 => rfl) rfl

theorem computeFlows_persistent (net : Network) (b : Bushes) (origin : ℕ) :
    (computeFlows net b origin).bushOrder = b.bushOrder ∧
    (computeFlows net b origin).bushForwardStar = b.bushForwardStar ∧
    (computeFlows net b origin).bushReverseStar = b.bushReverseStar ∧
    (computeFlows net b origin).numBushLinks = b.numBushLinks ∧
    (computeFlows net b origin).numBushPaths = b.numBushPaths := by
  rw [computeFlows]
  refine ⟨?_, ?_, ?_, ?_, ?_⟩ <;>
    · apply foldl_field_eq2
      · intro a x
        exact foldl_field_eq2 (fun a2 x2 => rfl) (foldl_field_eq2 (fun a2 x2 => rfl) rfl)
      · exact foldl_field_eq2 (fun a2 x2 => rfl) rfl

theorem dialFlows_persistent (net : Network) (b : Bushes) (origin : ℕ) (theta : ℝ) :
    (dialFlows net b origin theta).1 = net ∧
    (dialFlows net b origin theta).2.bushOrder = b.bushOrder ∧
    (dialFlows net b origin theta).2.bushForwardStar = b.bushForwardStar ∧
    (dialFlows net b origin theta).2.bushReverseStar = b.bushReverseStar ∧
    (dialFlows net b origin theta).2.numBushLinks = b.numBushLinks ∧
    (dialFlows net b origin theta).2.numBushPaths = b.numBushPaths := by
  rw [dialFlows]
  obtain ⟨s1, s2, s3, s4, s5⟩ := bushShortestPath_persistent net b origin
  obtain ⟨l1, l2, l3, l4, l5⟩ :=
    computeLikelihoods_persistent net (bushShortestPath net b origin) theta
  obtain ⟨w1, w2, w3, w4, w5⟩ := computeWeights_persistent net
    (computeLikelihoods net (bushShortestPath net b origin) theta) origin
  obtain ⟨f1, f2, f3, f4, f5⟩ := computeFlows_persistent net
    (computeWeights net (computeLikelihoods net (bushShortestPath net b origin) theta) origin)
    origin
  exact ⟨rfl, by rw [f1, w1, l1, s1], by rw [f2, w2, l2, s2], by rw [f3, w3, l3, s3],
    by rw [f4, w4, l4, s4], by rw [f5, w5, l5, s5]⟩

/-- C10: `dialFlows` writes only the shared scratch arrays of the bush
container: the network (its arcs with their flow and cost fields, and the
demand matrix) is returned unchanged, as are the persistent per-origin bush
structures (`bushOrder`, `bushForwardStar`, `bushReverseStar`,
`numBushLinks`, `numBushPaths`); and `calculateTarget`, which calls
`dialFlows` once per origin, additionally writes only the target vector it
returns, likewise leaving network and persistent bush state unchanged. -/
theorem calcTarget_fold_frame (theta : ℝ) (l : List ℕ) :
    ∀ (t : ℕ → ℝ) (net : Network) (b : Bushes),
      ((l.foldl
          (fun (st : (ℕ → ℝ) × Network × Bushes) r =>
            let db := dialFlows st.2.1 st.2.2 r theta
            (fun ij => if ij < db.1.numArcs then st.1 ij + db.2.flow ij else st.1 ij,
             db.1, db.2))
          (t, net, b)).2.1 = net ∧
       (l.foldl
          (fun (st : (ℕ → ℝ) × Network × Bushes) r =>
            let db := dialFlows st.2.1 st.2.2 r theta
            (fun ij => if ij < db.1.numArcs then st.1 ij + db.2.flow ij else st.1 ij,
             db.1, db.2))
          (t, net, b)).2.2.bushOrder = b.bushOrder ∧
       (l.foldl
          (fun (st : (ℕ → ℝ) × Network × Bushes) r =>
            let db := dialFlows st.2.1 st.2.2 r theta
            (fun ij => if ij < db.1.numArcs then st.1 ij + db.2.flow ij else st.1 ij,
             db.1, db.2))
          (t, net, b)).2.2.bushForwardStar = b.bushForwardStar ∧
       (l.foldl
          (fun (st : (ℕ → ℝ) × Network × Bushes) r =>
            let db := dialFlows st.2.1 st.2.2 r theta
            (fun ij => if ij < db.1.numArcs then st.1 ij + db.2.flow ij else st.1 ij,
             db.1, db.2))
          (t, net, b)).2.2.bushReverseStar = b.bushReverseStar ∧
       (l.foldl
          (fun (st : (ℕ → ℝ) × Network × Bushes) r =>
            let db := dialFlows st.2.1 st.2.2 r theta
            (fun ij => if ij < db.1.numArcs then st.1 ij + db.2.flow ij else st.1 ij,
             db.1, db.2))
          (t, net, b)).2.2.numBushLinks = b.numBushLinks ∧
       (l.foldl
          (fun (st : (ℕ → ℝ) × Network × Bushes) r =>
            let db := dialFlows st.2.1 st.2.2 r theta
            (fun ij => if ij < db.1.numArcs then st.1 ij + db.2.flow ij else st.1 ij,
             db.1, db.2))
          (t, net, b)).2.2.numBushPaths = b.numBushPaths) := by
  induction l with
  | nil => exact fun t net b => ⟨rfl, rfl, rfl, rfl, rfl, rfl⟩
  | cons x xs ih =>
    intro t net b
    obtain ⟨p1, p2, p3, p4, p5, p6⟩ := dialFlows_persistent net b x theta
    obtain ⟨i1, i2, i3, i4, i5, i6⟩ :=
      ih (fun ij => if ij < (dialFlows net b x theta).1.numArcs
            then t ij + (dialFlows net b x theta).2.flow ij else t ij)
        (dialFlows net b x theta).1 (dialFlows net b x theta).2
    rw [List.foldl_cons]
    exact ⟨by rw [i1, p1], by rw [i2, p2], by rw [i3, p3], by rw [i4, p4],
      by rw [i5, p5], by rw [i6, p6]⟩

theorem C10_dialFlows_calculateTarget_frame (net : Network) (b : Bushes)
    (origin : ℕ) (theta : ℝ) :
    ((dialFlows net b origin theta).1 = net ∧
     (dialFlows net b origin theta).1.arcs = net.arcs ∧
     (dialFlows net b origin theta).1.demand = net.demand ∧
     (dialFlows net b origin theta).2.bushOrder = b.bushOrder ∧
     (dialFlows net b origin theta).2.bushForwardStar = b.bushForwardStar ∧
     (dialFlows net b origin theta).2.bushReverseStar = b.bushReverseStar ∧
     (dialFlows net b origin theta).2.numBushLinks = b.numBushLinks ∧
     (dialFlows net b origin theta).2.numBushPaths = b.numBushPaths) ∧
    ((calculateTarget net b theta).2.1 = net ∧
     (calculateTarget net b theta).2.2.bushOrder = b.bushOrder ∧
     (calculateTarget net b theta).2.2.bushForwardStar = b.bushForwardStar ∧
     (calculateTarget net b theta).2.2.bushReverseStar = b.bushReverseStar ∧
     (calculateTarget net b theta).2.2.numBushLinks = b.numBushLinks ∧
     (calculateTarget net b theta).2.2.numBushPaths = b.numBushPaths) := by
  obtain ⟨d1, d2, d3, d4, d5, d6⟩ := dialFlows_persistent net b origin theta
  obtain ⟨c1, c2, c3, c4, c5, c6⟩ :=
    calcTarget_fold_frame theta (List.range net.numZones) (fun _ => 0) net b
  exact ⟨⟨d1, by rw [d1], by rw [d1], d2, d3, d4, d5, d6⟩, c1, c2, c3, c4, c5, c6⟩

theorem foldl_min_congr (f g : ℕ → EReal) (l : List ℕ) (h : ∀ a ∈ l, f a = g a) :
    ∀ v, l.foldl (fun acc a => min acc (f a)) v = l.foldl (fun acc a => min acc (g a)) v := by
  induction l with
  | nil => intro v; rfl
  | cons a rest ih =>
    intro v
    rw [List.foldl_cons, List.foldl_cons, h a (List.mem_cons_self a rest)]
    exact ih (fun x hx => h x (List.mem_cons_of_mem a hx)) _

theorem foldl_min_le_init (f : ℕ → EReal) :
    ∀ (l : List ℕ) (v : EReal), l.foldl (fun acc x => min acc (f x)) v ≤ v := by
  intro l
  induction l with
  | nil => intro v; exact le_refl v
  | cons y t iht =>
    intro v
    rw [List.foldl_cons]
    exact le_trans (iht (min v (f y))) (min_le_left _ _)

theorem foldl_min_le (f : ℕ → EReal) (l : List ℕ) {a : ℕ} (ha : a ∈ l) :
    ∀ v, l.foldl (fun acc x => min acc (f x)) v ≤ f a := by
  induction l with
  | nil => exact absurd ha (List.not_mem_nil a)
  | cons x rest ih =>
    intro v
    rw [List.foldl_cons]
    rcases List.mem_cons.mp ha with h | h
    · subst h
      exact le_trans (foldl_min_le_init f rest (min v (f a))) (min_le_right _ _)
    · exact ih h _

theorem foldl_min_ne_bot (f : ℕ → EReal) (l : List ℕ)
    (h : ∀ a ∈ l, f a ≠ ⊥) : ∀ v, v ≠ ⊥ →
    l.foldl (fun acc x => min acc (f x)) v ≠ ⊥ := by
  induction l with
  | nil => intro v hv; exact hv
  | cons x rest ih =>
    intro v hv
    rw [List.foldl_cons]
    refine ih (fun a ha => h a (List.mem_cons_of_mem x ha)) _ ?_
    rcases min_cases v (f x) with ⟨he, _⟩ | ⟨he, _⟩
    · rw [he]; exact hv
    · rw [he]; exact h x (List.mem_cons_self x rest)

/-! ### Bush shortest path: sweep characterization -/

theorem spInner_eval (net : Network) (i : ℕ) (lst : List ℕ)
    (hne : ∀ a ∈ lst, (net.arcs a).tail ≠ i) :
    ∀ (L : ℕ → EReal) (v : EReal),
      lst.foldl (fun M a => Function.update M i
          (min (M i) (M ((net.arcs a).tail) + ((net.arcs a).cost : EReal))))
        (Function.update L i v)
      = Function.update L i (lst.foldl (fun acc a => min acc (spCand net L a)) v) := by
  induction lst with
  | nil => intro L v; rfl
  | cons a rest ih =>
    intro L v
    rw [List.foldl_cons, List.foldl_cons]
    have h2 : Function.update L i v ((net.arcs a).tail) = L ((net.arcs a).tail) :=
      Function.update_noteq (hne a (List.mem_cons_self a rest)) v L
    rw [Function.update_same, h2, Function.update_idem]
    exact ih (fun x hx => hne x (List.mem_cons_of_mem a hx)) L
      (min v (spCand net L a))

theorem foldl_update_apply_noteq {i j : ℕ} (hj : j ≠ i)
    (g : (ℕ → EReal) → ℕ → EReal) :
    ∀ (lst : List ℕ) (M : ℕ → EReal),
      (lst.foldl (fun M a => Function.update M i (g M a)) M) j = M j := by
  intro lst
  induction lst with
  | nil => intro M; rfl
  | cons a rest ih =>
    intro M
    rw [List.foldl_cons, ih, Function.update_noteq hj]

/-- Characterization of the bush shortest-path sweep: entries of nodes
outside the processed list are untouched, and each processed node's final
label is the minimum over its reverse star of final tail label plus cost. -/
theorem spFold_correct (net : Network) (rev : ℕ → List ℕ) :
    ∀ (nodes : List ℕ) (L : ℕ → EReal),
      nodes.Nodup → tailsEarlier net rev nodes →
      (∀ j, j ∉ nodes →
        (nodes.foldl (fun L i => (rev i).foldl (fun M a => Function.update M i
            (min (M i) (M ((net.arcs a).tail) + ((net.arcs a).cost : EReal))))
          (Function.update L i ⊤)) L) j = L j) ∧
      (∀ i ∈ nodes,
        (nodes.foldl (fun L i => (rev i).foldl (fun M a => Function.update M i
            (min (M i) (M ((net.arcs a).tail) + ((net.arcs a).cost : EReal))))
          (Function.update L i ⊤)) L) i
        = (rev i).foldl (fun acc a => min acc
            (spCand net (nodes.foldl (fun L i => (rev i).foldl
              (fun M a => Function.update M i
                (min (M i) (M ((net.arcs a).tail) + ((net.arcs a).cost : EReal))))
              (Function.update L i ⊤)) L) a)) ⊤) := by
  intro nodes
  induction nodes with
  | nil =>
    intro L _ _
    exact ⟨fun j _ => rfl, fun i hi => absurd hi (List.not_mem_nil i)⟩
  | cons i rest ih =>
    intro L hnd hte
    have hne : ∀ a ∈ rev i, (net.arcs a).tail ≠ i := by
      intro a ha
      intro hcontra
      exact hte.1 a ha (hcontra ▸ List.mem_cons_self i rest)
    have hstep : (rev i).foldl (fun M a => Function.update M i
          (min (M i) (M ((net.arcs a).tail) + ((net.arcs a).cost : EReal))))
        (Function.update L i ⊤)
        = Function.update L i ((rev i).foldl (fun acc a => min acc (spCand net L a)) ⊤) :=
      spInner_eval net i (rev i) hne L ⊤
    obtain ⟨iha, ihb⟩ := ih (Function.update L i
        ((rev i).foldl (fun acc a => min acc (spCand net L a)) ⊤))
      (List.nodup_cons.mp hnd).2 hte.2
    have hinotrest : i ∉ rest := (List.nodup_cons.mp hnd).1
    constructor
    · intro j hj
      rw [List.foldl_cons, hstep]
      have hjrest : j ∉ rest := fun hc => hj (List.mem_cons_of_mem i hc)
      have hjne : j ≠ i := fun hc => hj (hc ▸ List.mem_cons_self i rest)
      rw [iha j hjrest, Function.update_noteq hjne]
    · intro x hx
      rcases List.mem_cons.mp hx with hxi | hxrest
      · subst hxi
        rw [List.foldl_cons, hstep, iha x hinotrest, Function.update_same]
        refine foldl_min_congr _ _ _ (fun a ha => ?_) ⊤
        rw [spCand, spCand]
        have htl : (net.arcs a).tail ∉ x :: rest := hte.1 a ha
        have htlrest : (net.arcs a).tail ∉ rest :=
          fun hc => htl (List.mem_cons_of_mem x hc)
        have htlne : (net.arcs a).tail ≠ x :=
          fun hc => htl (hc ▸ List.mem_cons_self x rest)
        rw [iha _ htlrest, Function.update_noteq htlne]
      · rw [List.foldl_cons, hstep]
        exact ihb x hxrest

theorem ord_eq_cons {ord : List ℕ} {origin : ℕ} (h : ord.head? = some origin) :
    ord = origin :: ord.drop 1 := by
  cases ord with
  | nil => exact absurd h (by simp)
  | cons a t =>
    have : a = origin := by simpa using h
    rw [this, List.drop_one, List.tail_cons]

theorem tailsEarlier_of_indexOf (net : Network) (rev : ℕ → List ℕ) (ord : List ℕ)
    (hnd : ord.Nodup)
    (h : ∀ i, ∀ a ∈ rev i, ord.indexOf ((net.arcs a).tail) < ord.indexOf i) :
    ∀ post pre, ord = pre ++ post → tailsEarlier net rev post := by
  intro post
  induction post with
  | nil => intro pre _; trivial
  | cons i rest ih =>
    intro pre hord
    refine ⟨fun a ha hmem => ?_, ih (pre ++ [i]) (by rw [hord, List.append_assoc]; rfl)⟩
    have hndisj := (List.nodup_append.mp (hord ▸ hnd)).2.2
    have htail_notpre : (net.arcs a).tail ∉ pre := by
      intro hc
      exact hndisj hc hmem
    have hi_notpre : i ∉ pre := by
      intro hc
      exact hndisj hc (List.mem_cons_self i rest)
    have h1 : ord.indexOf ((net.arcs a).tail) = pre.length +
        (i :: rest).indexOf ((net.arcs a).tail) := by
      rw [hord, List.indexOf_append_of_not_mem htail_notpre]
    have h2 : ord.indexOf i = pre.length := by
      rw [hord, List.indexOf_append_of_not_mem hi_notpre, List.indexOf_cons_self]
      omega
    have := h i a ha
    omega

theorem BushWF.ordNodup {net : Network} {b : Bushes} {origin : ℕ} {B : Finset ℕ}
    (wf : BushWF net b origin B) : (b.bushOrder origin).Nodup :=
  wf.ordPerm.nodup_iff.mpr (List.nodup_range _)

theorem BushWF.revIndexOf {net : Network} {b : Bushes} {origin : ℕ} {B : Finset ℕ}
    (wf : BushWF net b origin B) :
    ∀ i, ∀ a ∈ b.bushReverseStar origin i,
      (b.bushOrder origin).indexOf ((net.arcs a).tail) <
      (b.bushOrder origin).indexOf i := by
  intro i a ha
  obtain ⟨haB, hhead⟩ := (wf.stars.revMem i a).mp ha
  have := wf.topo a haB
  rwa [hhead] at this

theorem BushWF.tailsEarlierDrop {net : Network} {b : Bushes} {origin : ℕ}
    {B : Finset ℕ} (wf : BushWF net b origin B) :
    tailsEarlier net (b.bushReverseStar origin) ((b.bushOrder origin).drop 1) :=
  tailsEarlier_of_indexOf net (b.bushReverseStar origin) (b.bushOrder origin)
    wf.ordNodup wf.revIndexOf ((b.bushOrder origin).drop 1) [origin]
    (ord_eq_cons wf.ordHead)

theorem BushWF.dropNodup {net : Network} {b : Bushes} {origin : ℕ} {B : Finset ℕ}
    (wf : BushWF net b origin B) : ((b.bushOrder origin).drop 1).Nodup := by
  have h := wf.ordNodup
  rw [ord_eq_cons wf.ordHead] at h
  exact (List.nodup_cons.mp h).2

theorem BushWF.originNotDrop {net : Network} {b : Bushes} {origin : ℕ} {B : Finset ℕ}
    (wf : BushWF net b origin B) : origin ∉ (b.bushOrder origin).drop 1 := by
  have h := wf.ordNodup
  rw [ord_eq_cons wf.ordHead] at h
  exact (List.nodup_cons.mp h).1

theorem BushWF.headInDrop {net : Network} {b : Bushes} {origin : ℕ} {B : Finset ℕ}
    (wf : BushWF net b origin B) {a : ℕ} (ha : a ∈ B) :
    (net.arcs a).head ∈ (b.bushOrder origin).drop 1 := by
  have hmem : (net.arcs a).head ∈ b.bushOrder origin := by
    rw [wf.ordPerm.mem_iff, List.mem_range]
    exact (wf.arcsValid a (wf.stars.bSub a ha)).2
  have hne : (net.arcs a).head ≠ origin := by
    intro hc
    have h0 : (b.bushOrder origin).indexOf (net.arcs a).head = 0 := by
      rw [hc, ord_eq_cons wf.ordHead, List.indexOf_cons_self]
    have := wf.topo a ha
    omega
  rw [ord_eq_cons wf.ordHead] at hmem
  rcases List.mem_cons.mp hmem with h | h
  · exact absurd h hne
  · exact h

theorem bushSP_eval (net : Network) (b : Bushes) (origin : ℕ) (B : Finset ℕ)
    (wf : BushWF net b origin B) :
    (bushShortestPath net b origin).SPcost origin = 0 ∧
    (∀ j, j ∉ b.bushOrder origin →
      (bushShortestPath net b origin).SPcost j = b.SPcost j) ∧
    (∀ i ∈ (b.bushOrder origin).drop 1,
      (bushShortestPath net b origin).SPcost i
        = (b.bushReverseStar origin i).foldl
            (fun acc a => min acc (spCand net (bushShortestPath net b origin).SPcost a)) ⊤) ∧
    (∀ a ∈ B, (bushShortestPath net b origin).SPcost ((net.arcs a).head)
        ≤ spCand net (bushShortestPath net b origin).SPcost a) := by
  obtain ⟨ha, hb⟩ := spFold_correct net (b.bushReverseStar origin)
    ((b.bushOrder origin).drop 1) (Function.update b.SPcost origin 0)
    wf.dropNodup wf.tailsEarlierDrop
  have hSP : (bushShortestPath net b origin).SPcost
      = ((b.bushOrder origin).drop 1).foldl
        (fun L i => (b.bushReverseStar origin i).foldl
          (fun M a => Function.update M i
            (min (M i) (M ((net.arcs a).tail) + ((net.arcs a).cost : EReal))))
          (Function.update L i ⊤))
        (Function.update b.SPcost origin 0) := rfl
  refine ⟨?_, ?_, ?_, ?_⟩
  · rw [hSP, ha origin wf.originNotDrop, Function.update_same]
  · intro j hj
    have hjd : j ∉ (b.bushOrder origin).drop 1 := by
      intro hc
      exact hj (List.mem_of_mem_drop hc)
    have hjo : j ≠ origin := by
      intro hc
      subst hc
      exact hj (by rw [ord_eq_cons wf.ordHead]; exact List.mem_cons_self _ _)
    rw [hSP, ha j hjd, Function.update_noteq hjo]
  · intro i hi
    rw [hSP]
    exact hb i hi
  · intro a ha2
    have hhead := wf.headInDrop ha2
    have hrevmem : a ∈ b.bushReverseStar origin ((net.arcs a).head) :=
      (wf.stars.revMem _ a).mpr ⟨ha2, rfl⟩
    rw [hSP, hb _ hhead]
    exact foldl_min_le _ _ hrevmem ⊤

theorem bushSP_ne_bot (net : Network) (b : Bushes) (origin : ℕ) (B : Finset ℕ)
    (wf : BushWF net b origin B) (hbot : ∀ i, b.SPcost i ≠ ⊥) :
    ∀ j, (bushShortestPath net b origin).SPcost j ≠ ⊥ := by
  obtain ⟨h0, hout, hfix, _⟩ := bushSP_eval net b origin B wf
  suffices h : ∀ n j, (b.bushOrder origin).indexOf j = n →
      (bushShortestPath net b origin).SPcost j ≠ ⊥ by
    exact fun j => h _ j rfl
  intro n
  induction n using Nat.strong_induction_on with
  | _ n ih =>
    intro j hj
    by_cases hmem : j ∈ b.bushOrder origin
    · rcases List.mem_cons.mp (by rwa [← ord_eq_cons wf.ordHead]) with hjo | hjd
      · rw [hjo, h0]
        exact EReal.zero_ne_bot
      · rw [hfix j hjd]
        refine foldl_min_ne_bot _ _ (fun a ha => ?_) ⊤ (by simp)
        rw [spCand]
        intro hc
        rcases EReal.add_eq_bot_iff.mp hc with hc2 | hc2
        · have hlt := wf.revIndexOf j a ha
          rw [hj] at hlt
          exact ih _ hlt _ rfl hc2
        · exact EReal.coe_ne_bot _ hc2
    · rw [hout j hmem]
      exact hbot j

/-! ### C7: likelihood computation and flow reset -/

theorem computeLikelihoods_eval (net : Network) (theta : ℝ) :
    ∀ (l : List ℕ) (b : Bushes) (y : ℕ),
      ((l.foldl (fun b ij =>
          { b with flow := Function.update b.flow ij 0,
                   likelihood := Function.update b.likelihood ij
                     (likelihoodValue net b.SPcost theta ij) }) b).flow y
        = if y ∈ l then 0 else b.flow y) ∧
      ((l.foldl (fun b ij =>
          { b with flow := Function.update b.flow ij 0,
                   likelihood := Function.update b.likelihood ij
                     (likelihoodValue net b.SPcost theta ij) }) b).likelihood y
        = if y ∈ l then likelihoodValue net b.SPcost theta y else b.likelihood y) ∧
      (l.foldl (fun b ij =>
          { b with flow := Function.update b.flow ij 0,
                   likelihood := Function.update b.likelihood ij
                     (likelihoodValue net b.SPcost theta ij) }) b).SPcost = b.SPcost := by
  intro l
  induction l with
  | nil =>
    intro b y
    simp [List.not_mem_nil]
  | cons x xs ih =>
    intro b y
    rw [List.foldl_cons]
    obtain ⟨ihf, ihl, ihs⟩ := ih
      { b with flow := Function.update b.flow x 0,
               likelihood := Function.update b.likelihood x
                 (likelihoodValue net b.SPcost theta x) } y
    refine ⟨?_, ?_, by rw [ihs]⟩
    · rw [ihf]
      by_cases hy : y ∈ xs
      · simp [hy]
      · by_cases hyx : y = x
        · subst hyx
          simp [hy, Function.update_same]
        · simp [hy, hyx, Function.update_noteq hyx]
    · rw [ihl]
      by_cases hy : y ∈ xs
      · simp [hy]
      · by_cases hyx : y = x
        · subst hyx
          simp [hy, Function.update_same]
        · simp [hy, hyx, Function.update_noteq hyx]

theorem computeLikelihoods_spec (net : Network) (b1 : Bushes) (theta : ℝ) (ij : ℕ)
    (hij : ij < net.numArcs) :
    (computeLikelihoods net b1 theta).flow ij = 0 ∧
    (computeLikelihoods net b1 theta).likelihood ij
      = likelihoodValue net b1.SPcost theta ij := by
  obtain ⟨hf, hl, _⟩ := computeLikelihoods_eval net theta (List.range net.numArcs) b1 ij
  have hmem : ij ∈ List.range net.numArcs := List.mem_range.mpr hij
  constructor
  · rw [computeLikelihoods, hf, if_pos hmem]
  · rw [computeLikelihoods, hl, if_pos hmem]

/-- C7: in step 1 of `dialFlows`, the scratch flow of every arc of the
network (bush or not) is reset to zero; the likelihood of every arc is zero
when the bush label of its tail is infinite and
`exp(theta * (SPcost[head] - SPcost[tail] - cost))` otherwise; and no NaN
arises: every likelihood differs from the model's junk value `⊥`, and for
reached tails the argument of the exponential is itself well defined
(never `⊥`, the result of the ill-formed `∞ - ∞`). -/
theorem C7_likelihood_reset (net : Network) (b : Bushes) (origin : ℕ)
    (B : Finset ℕ) (theta : ℝ) (wf : BushWF net b origin B)
    (hbot : ∀ i, b.SPcost i ≠ ⊥) (htheta : 0 < theta) :
    ∀ ij, ij < net.numArcs →
      ((computeLikelihoods net (bushShortestPath net b origin) theta).flow ij = 0) ∧
      ((computeLikelihoods net (bushShortestPath net b origin) theta).likelihood ij
        = (if (bushShortestPath net b origin).SPcost ((net.arcs ij).tail) = ⊤ then 0
           else expE ((theta : EReal) *
             ((bushShortestPath net b origin).SPcost ((net.arcs ij).head)
               - (bushShortestPath net b origin).SPcost ((net.arcs ij).tail)
               - ((net.arcs ij).cost : EReal))))) ∧
      ((bushShortestPath net b origin).SPcost ((net.arcs ij).tail) = ⊤ →
        (computeLikelihoods net (bushShortestPath net b origin) theta).likelihood ij = 0) ∧
      ((computeLikelihoods net (bushShortestPath net b origin) theta).likelihood ij ≠ ⊥) ∧
      ((bushShortestPath net b origin).SPcost ((net.arcs ij).tail) ≠ ⊤ →
        (theta : EReal) * ((bushShortestPath net b origin).SPcost ((net.arcs ij).head)
          - (bushShortestPath net b origin).SPcost ((net.arcs ij).tail)
          - ((net.arcs ij).cost : EReal)) ≠ ⊥) := by
  intro ij hij
  obtain ⟨hflow, hlike⟩ := computeLikelihoods_spec net (bushShortestPath net b origin)
    theta ij hij
  have harg : (bushShortestPath net b origin).SPcost ((net.arcs ij).tail) ≠ ⊤ →
      (theta : EReal) * ((bushShortestPath net b origin).SPcost ((net.arcs ij).head)
        - (bushShortestPath net b origin).SPcost ((net.arcs ij).tail)
        - ((net.arcs ij).cost : EReal)) ≠ ⊥ := by
    intro htail
    have hdelta : (bushShortestPath net b origin).SPcost ((net.arcs ij).head)
        - (bushShortestPath net b origin).SPcost ((net.arcs ij).tail)
        - ((net.arcs ij).cost : EReal) ≠ ⊥ := by
      intro hc
      rcases EReal.add_eq_bot_iff.mp hc with hc2 | hc2
      · rcases EReal.add_eq_bot_iff.mp hc2 with hc3 | hc3
        · exact bushSP_ne_bot net b origin B wf hbot _ hc3
        · exact htail (EReal.neg_eq_bot_iff.mp hc3)
      · exact EReal.coe_ne_top _ (EReal.neg_eq_bot_iff.mp hc2)
    revert hdelta
    generalize (bushShortestPath net b origin).SPcost ((net.arcs ij).head)
        - (bushShortestPath net b origin).SPcost ((net.arcs ij).tail)
        - ((net.arcs ij).cost : EReal) = d
    induction d using EReal.rec with
    | h_bot => exact fun hdelta => absurd rfl hdelta
    | h_real x =>
      intro _
      rw [← EReal.coe_mul]
      exact EReal.coe_ne_bot _
    | h_top =>
      intro _
      rw [EReal.coe_mul_top_of_pos htheta]
      exact top_ne_bot
  refine ⟨hflow, by rw [hlike, likelihoodValue], ?_, ?_, harg⟩
  · intro htail
    rw [hlike, likelihoodValue, if_pos htail]
  · rw [hlike, likelihoodValue]
    by_cases htail : (bushShortestPath net b origin).SPcost ((net.arcs ij).tail) = ⊤
    · rw [if_pos htail]
      exact EReal.zero_ne_bot
    · rw [if_neg htail]
      exact expE_ne_bot _

/-! ### C8: likelihood bounds on bush arcs -/

theorem expE_le_one_iff (x : EReal) : expE x ≤ 1 ↔ x ≤ 0 := by
  induction x using EReal.rec with
  | h_bot => simp
  | h_real r =>
    rw [expE_coe, show (1 : EReal) = ((1 : ℝ) : EReal) from rfl,
      EReal.coe_le_coe_iff, show (0 : EReal) = ((0 : ℝ) : EReal) from rfl,
      EReal.coe_le_coe_iff]
    exact Real.exp_le_one_iff
  | h_top =>
    constructor
    · intro h
      rw [expE_top] at h
      exact absurd (top_le_iff.mp h)
        (by rw [show (1 : EReal) = ((1 : ℝ) : EReal) from rfl]; exact EReal.coe_ne_top 1)
    · intro h
      exact absurd (top_le_iff.mp h)
        (by rw [show (0 : EReal) = ((0 : ℝ) : EReal) from rfl]; exact EReal.coe_ne_top 0)

theorem expE_eq_one_iff (x : EReal) : expE x = 1 ↔ x = 0 := by
  induction x using EReal.rec with
  | h_bot => simp
  | h_real r =>
    rw [expE_coe, show (1 : EReal) = ((1 : ℝ) : EReal) from rfl,
      EReal.coe_eq_coe_iff, show (0 : EReal) = ((0 : ℝ) : EReal) from rfl,
      EReal.coe_eq_coe_iff]
    exact Real.exp_eq_one_iff r
  | h_top =>
    rw [expE_top]
    constructor
    · intro h
      exact absurd h.symm
        (by rw [show (1 : EReal) = ((1 : ℝ) : EReal) from rfl]; exact EReal.coe_ne_top 1)
    · intro h
      exact absurd h.symm
        (by rw [show (0 : EReal) = ((0 : ℝ) : EReal) from rfl]; exact EReal.coe_ne_top 0)

theorem expE_pos_of_ne_bot {x : EReal} (hx : x ≠ ⊥) : 0 < expE x := by
  induction x using EReal.rec with
  | h_bot => exact absurd rfl hx
  | h_real r =>
    rw [expE_coe, show (0 : EReal) = ((0 : ℝ) : EReal) from rfl, EReal.coe_lt_coe_iff]
    exact Real.exp_pos r
  | h_top =>
    rw [expE_top]
    exact lt_of_lt_of_le er_zero_lt_top (le_refl ⊤)

theorem exists_coe_of_le_coe {x : EReal} {y : ℝ} (hb : x ≠ ⊥) (h : x ≤ (y : EReal)) :
    ∃ r : ℝ, x = (r : EReal) ∧ r ≤ y := by
  induction x using EReal.rec with
  | h_bot => exact absurd rfl hb
  | h_real r => exact ⟨r, rfl, EReal.coe_le_coe_iff.mp h⟩
  | h_top => exact absurd (top_le_iff.mp h) (fun hc => EReal.coe_ne_top y hc)

/-- C8: after `bushShortestPath` and the likelihood computation for origin
`r`, every bush arc's likelihood is at most 1; it equals 1 exactly when the
arc lies on a bush shortest path to its head, that is, when its tail is
reached and `SPcost[head] = SPcost[tail] + cost`; and bush arcs with
reached (finite-label) tails have likelihood in `(0, 1]`. -/
theorem C8_likelihood_bush_bound (net : Network) (b : Bushes) (origin : ℕ)
    (B : Finset ℕ) (theta : ℝ) (wf : BushWF net b origin B)
    (hbot : ∀ i, b.SPcost i ≠ ⊥) (htheta : 0 < theta)
    (L lk : ℕ → EReal) (hL : L = (bushShortestPath net b origin).SPcost)
    (hlk : lk = (computeLikelihoods net (bushShortestPath net b origin) theta).likelihood) :
    ∀ a ∈ B,
      lk a ≤ 1 ∧
      (lk a = 1 ↔ (L ((net.arcs a).tail) ≠ ⊤ ∧
        L ((net.arcs a).head) = L ((net.arcs a).tail) + ((net.arcs a).cost : EReal))) ∧
      (L ((net.arcs a).tail) ≠ ⊤ → 0 < lk a ∧ lk a ≤ 1) := by
  subst hL hlk
  intro a haB
  have hija : a < net.numArcs := wf.stars.bSub a haB
  obtain ⟨_, hlike⟩ := computeLikelihoods_spec net (bushShortestPath net b origin)
    theta a hija
  have hle := (bushSP_eval net b origin B wf).2.2.2 a haB
  have hnb := bushSP_ne_bot net b origin B wf hbot
  by_cases htail : (bushShortestPath net b origin).SPcost ((net.arcs a).tail) = ⊤
  · rw [hlike, likelihoodValue, if_pos htail]
    refine ⟨zero_le_one, ⟨fun hc => absurd hc.symm one_ne_zero, fun hc => absurd htail hc.1⟩,
      fun hc => absurd htail hc⟩
  · obtain ⟨lt, hltc, _⟩ := exists_coe_of_le_coe (hnb ((net.arcs a).tail))
      (le_of_eq (EReal.coe_toReal htail (hnb _)).symm)
    have hlecand : (bushShortestPath net b origin).SPcost ((net.arcs a).head)
        ≤ ((lt + (net.arcs a).cost : ℝ) : EReal) := by
      rw [EReal.coe_add]
      rw [spCand, hltc] at hle
      exact hle
    obtain ⟨lh, hlhc, hlh_le⟩ := exists_coe_of_le_coe (hnb ((net.arcs a).head)) hlecand
    have hdelta : (bushShortestPath net b origin).SPcost ((net.arcs a).head)
        - (bushShortestPath net b origin).SPcost ((net.arcs a).tail)
        - ((net.arcs a).cost : EReal) = ((lh - lt - (net.arcs a).cost : ℝ) : EReal) := by
      rw [hlhc, hltc, ← EReal.coe_sub, ← EReal.coe_sub]
    have hform : (computeLikelihoods net (bushShortestPath net b origin) theta).likelihood a
        = ((Real.exp (theta * (lh - lt - (net.arcs a).cost)) : ℝ) : EReal) := by
      rw [hlike, likelihoodValue, if_neg htail, hdelta, ← EReal.coe_mul, expE_coe]
    have hdle : lh - lt - (net.arcs a).cost ≤ 0 := by linarith
    refine ⟨?_, ?_, ?_⟩
    · rw [hform, show (1 : EReal) = ((1 : ℝ) : EReal) from rfl, EReal.coe_le_coe_iff,
        Real.exp_le_one_iff]
      exact mul_nonpos_of_nonneg_of_nonpos (le_of_lt htheta) hdle
    · constructor
      · intro h1
        rw [hform, show (1 : EReal) = ((1 : ℝ) : EReal) from rfl,
          EReal.coe_eq_coe_iff, Real.exp_eq_one_iff] at h1
        have hd0 : lh - lt - (net.arcs a).cost = 0 := by
          rcases mul_eq_zero.mp h1 with hc | hc
          · exact absurd hc (ne_of_gt htheta)
          · exact hc
        refine ⟨htail, ?_⟩
        rw [hlhc, hltc, ← EReal.coe_add, EReal.coe_eq_coe_iff]
        linarith
      · intro ⟨_, heq⟩
        have hd0 : lh = lt + (net.arcs a).cost := by
          rw [hlhc, hltc, ← EReal.coe_add, EReal.coe_eq_coe_iff] at heq
          exact heq
        rw [hform, hd0, show lt + (net.arcs a).cost - lt - (net.arcs a).cost = 0 by ring,
          mul_zero, Real.exp_zero, EReal.coe_one]
    · intro _
      refine ⟨?_, ?_⟩
      · rw [hform, show (0 : EReal) = ((0 : ℝ) : EReal) from rfl, EReal.coe_lt_coe_iff]
        exact Real.exp_pos _
      · rw [hform, show (1 : EReal) = ((1 : ℝ) : EReal) from rfl, EReal.coe_le_coe_iff,
          Real.exp_le_one_iff]
        exact mul_nonpos_of_nonneg_of_nonpos (le_of_lt htheta) hdle

/-! ### C6 and C3: the MSA loop -/

theorem updateLinkCosts_flow (net : Network) (ij : ℕ) :
    ((updateLinkCosts net).arcs ij).flow = (net.arcs ij).flow := by
  rw [updateLinkCosts]
  by_cases h : ij < net.numArcs
  · simp only [h, if_true]
  · simp only [h, if_false]

/-- The `converged` flag is `true` whenever the loop exits, whatever the
inputs: every exit path of the source sets `converged = TRUE` first. -/
theorem sueLoop_flag_true (theta lambda : ℝ) (ticks : ℕ → ℝ) :
    ∀ (fuel iteration : ℕ) (net : Network) (b : Bushes) (elapsed : ℝ),
      101 - iteration ≤ fuel →
      (sueLoop theta lambda ticks net b iteration elapsed).2.2.2 = true := by
  intro fuel
  induction fuel with
  | zero =>
    intro iteration net b elapsed hle
    rw [sueLoop, if_pos ?_]
    exact Or.inr (Or.inl (by omega))
  | succ n ih =>
    intro iteration net b elapsed hle
    rw [sueLoop]
    split
    · rfl
    · rename_i hstop
      rw [msaStop] at hstop
      push_neg at hstop
      exact ih (iteration + 1) _ _ _ (by omega)

/-- C6, counterexample: with elapsed time exactly 3600 s (at iteration 0,
diff 1) the source's stop condition is false although the claimed
condition "elapsed >= 3600 s or iteration >= 100 or diff < 1e-3" holds:
the source compares with strict `>`, so the claimed characterization of
when an iteration stops is false at this input. -/
theorem C6_counterexample :
    ¬ (msaStop 3600 0 1 ↔ ((3600 : ℝ) ≥ 3600 ∨ 100 ≤ 0 ∨ (1 : ℝ) < 1e-3)) := by
  rw [msaStop]
  norm_num

/-- C6 (amended): each MSA iteration stops exactly when elapsed time is
strictly greater than 3600 s, or the iteration count is at least 100, or
`diff < 1e-3`, where diff is the average absolute difference between the
current arc flows and the target; otherwise it shifts every arc's flow by
`flow += lambda * (target - flow)` and increments the iteration count. -/
theorem C6_msa_iteration (theta lambda : ℝ) (ticks : ℕ → ℝ) (net : Network)
    (b : Bushes) (iteration : ℕ) (elapsed : ℝ) (net1 : Network)
    (tq : (ℕ → ℝ) × Network × Bushes) (hnet1 : net1 = updateLinkCosts net)
    (htq : tq = calculateTarget net1 b theta) :
    (msaStop (elapsed + ticks iteration) iteration (avgFlowDiff tq.2.1 tq.1) ↔
      (3600 < elapsed + ticks iteration ∨ 100 ≤ iteration ∨
        avgFlowDiff tq.2.1 tq.1 < 1e-3)) ∧
    (avgFlowDiff tq.2.1 tq.1 = (1 / tq.2.1.numArcs) *
      ((List.range tq.2.1.numArcs).map
        (fun ij => |(tq.2.1.arcs ij).flow - tq.1 ij|)).sum) ∧
    (msaStop (elapsed + ticks iteration) iteration (avgFlowDiff tq.2.1 tq.1) →
      sueLoop theta lambda ticks net b iteration elapsed =
        (tq.2.1, tq.2.2, iteration, true)) ∧
    (¬ msaStop (elapsed + ticks iteration) iteration (avgFlowDiff tq.2.1 tq.1) →
      sueLoop theta lambda ticks net b iteration elapsed =
        sueLoop theta lambda ticks (shiftFlows tq.2.1 tq.1 lambda) tq.2.2
          (iteration + 1) (elapsed + ticks iteration)) ∧
    (∀ ij, ij < tq.2.1.numArcs →
      ((shiftFlows tq.2.1 tq.1 lambda).arcs ij).flow =
        (tq.2.1.arcs ij).flow + lambda * (tq.1 ij - (tq.2.1.arcs ij).flow)) := by
  subst hnet1 htq
  refine ⟨Iff.rfl, ?_, fun hstop => ?_, fun hstop => ?_, fun ij hij => ?_⟩
  · rw [avgFlowDiff, div_eq_mul_one_div, mul_comm]
  · rw [sueLoop, if_pos hstop]
  · rw [sueLoop]
    rw [if_neg hstop]
  · rw [shiftFlows]
    simp only [hij, if_true]

/-- Witness for `C6_msa_iteration`: at iteration 100 the stop condition
holds and the loop exits immediately with the refreshed costs and the
target state. -/
theorem C6_msa_iteration_witness :
    sueLoop 1 1 (fun _ => 0) net2 emptyBushes 100 0 =
      ((calculateTarget (updateLinkCosts net2) emptyBushes 1).2.1,
       (calculateTarget (updateLinkCosts net2) emptyBushes 1).2.2, 100, true) :=
  (C6_msa_iteration 1 1 (fun _ => 0) net2 emptyBushes 100 0
      (updateLinkCosts net2) (calculateTarget (updateLinkCosts net2) emptyBushes 1)
      rfl rfl).2.2.1 (Or.inr (Or.inl (by norm_num)))

/-- C3 (amended): `SUE_MSA` returns no value in the source (`void`); the
claim's "converged flag" can only be the local `converged` variable, and
that flag is `true` on every loop exit — the loop exits only by setting it
`true`, also when the iteration cap (100) or the time cap (3600 s) fires
with the average flow difference still at or above the tolerance.  On such
a cap exit the network still holds the flows computed by the last shift:
the stopping pass refreshes costs but does not touch flows. -/
theorem C3_converged_flag (theta lambda : ℝ) (ticks : ℕ → ℝ) (net : Network)
    (b : Bushes) (iteration : ℕ) (elapsed : ℝ) :
    (sueLoop theta lambda ticks net b iteration elapsed).2.2.2 = true ∧
    (msaStop (elapsed + ticks iteration) iteration
        (avgFlowDiff (calculateTarget (updateLinkCosts net) b theta).2.1
          (calculateTarget (updateLinkCosts net) b theta).1) →
      (sueLoop theta lambda ticks net b iteration elapsed).2.2.1 = iteration ∧
      ∀ ij, ((sueLoop theta lambda ticks net b iteration elapsed).1.arcs ij).flow
          = (net.arcs ij).flow) ∧
    (∀ (net0 : Network) (initTick : ℝ) (res : Network × Bushes × ℕ × Bool),
      SUE_MSA net0 theta lambda initTick ticks = some res → res.2.2.2 = true) := by
  refine ⟨sueLoop_flag_true theta lambda ticks (101 - iteration) iteration net b elapsed
    (le_refl _), fun hstop => ?_, fun net0 initTick res h => ?_⟩
  · rw [sueLoop, if_pos hstop]
    refine ⟨rfl, fun ij => ?_⟩
    have hc := (calcTarget_fold_frame theta (List.range (updateLinkCosts net).numZones)
      (fun _ => 0) (updateLinkCosts net) b).1
    show (((calculateTarget (updateLinkCosts net) b theta).2.1).arcs ij).flow
        = (net.arcs ij).flow
    rw [show (calculateTarget (updateLinkCosts net) b theta).2.1
        = (updateLinkCosts net) from hc, updateLinkCosts_flow]
  · rw [SUE_MSA] at h
    cases hi : initializeSolution net0 theta with
    | none => rw [hi] at h; exact Option.noConfusion h
    | some is =>
      rw [hi] at h
      simp only [Option.bind_eq_bind, Option.some_bind] at h
      rw [← Option.some.inj h]
      exact sueLoop_flag_true theta lambda ticks 101 0 is.1 is.2.1 initTick (by omega)

/-! ### C4: BPR cost evaluators -/

/-- C4, counterexample: at the concrete arc `negFlowArc` (`beta = 1`,
`flow = -1 ≤ 0`, `alpha = 1`), the specialized evaluator `linearBPRcost`
returns a different cost than `generalBPRcost` and violates the rule that
nonpositive flow yields `fixedCost + freeFlowTime`: the claim that all
three evaluators agree and obey that rule is false. -/
theorem C4_counterexample :
    negFlowArc.beta = 1 ∧ negFlowArc.flow ≤ 0 ∧
    linearBPRcost negFlowArc ≠ generalBPRcost negFlowArc ∧
    linearBPRcost negFlowArc ≠ negFlowArc.fixedCost + negFlowArc.freeFlowTime := by
  refine ⟨rfl, by norm_num [negFlowArc], ?_, ?_⟩ <;>
    simp only [linearBPRcost, generalBPRcost, negFlowArc] <;> norm_num

/-- C4 (amended): `generalBPRcost` yields `fixedCost + freeFlowTime`
whenever `flow ≤ 0`; and for nonnegative flow (the invariant maintained by
the driver) the specialized evaluators for `beta = 1` and `beta = 4`
compute exactly the general form at those exponents. -/
theorem C4_bpr_specializations (arc : Arc) (hcap : 0 < arc.capacity) :
    (arc.flow ≤ 0 → generalBPRcost arc = arc.fixedCost + arc.freeFlowTime) ∧
    (0 ≤ arc.flow → arc.beta = 1 → linearBPRcost arc = generalBPRcost arc) ∧
    (0 ≤ arc.flow → arc.beta = 4 → quarticBPRcost arc = generalBPRcost arc) := by
  refine ⟨fun h => ?_, fun hnn hb => ?_, fun hnn hb => ?_⟩
  · rw [generalBPRcost, if_pos h, add_comm]
  · rcases eq_or_lt_of_le hnn with h0 | hpos
    · rw [linearBPRcost, generalBPRcost, if_pos (le_of_eq h0.symm), ← h0]
      ring
    · rw [linearBPRcost, generalBPRcost, if_neg (not_le.mpr hpos), hb, Real.rpow_one]
      ring
  · rcases eq_or_lt_of_le hnn with h0 | hpos
    · rw [quarticBPRcost, generalBPRcost, if_pos (le_of_eq h0.symm), ← h0]
      ring
    · rw [quarticBPRcost, generalBPRcost, if_neg (not_le.mpr hpos), hb,
        show (4 : ℝ) = ((4 : ℕ) : ℝ) by norm_num, Real.rpow_natCast]
      ring

/-- Witness for `C4_bpr_specializations` at the concrete arc
`negFlowArc` (capacity 1). -/
theorem C4_bpr_specializations_witness :
    (0 : ℝ) < negFlowArc.capacity ∧
    ((negFlowArc.flow ≤ 0 →
        generalBPRcost negFlowArc = negFlowArc.fixedCost + negFlowArc.freeFlowTime) ∧
     (0 ≤ negFlowArc.flow → negFlowArc.beta = 1 →
        linearBPRcost negFlowArc = generalBPRcost negFlowArc) ∧
     (0 ≤ negFlowArc.flow → negFlowArc.beta = 4 →
        quarticBPRcost negFlowArc = generalBPRcost negFlowArc)) :=
  ⟨by norm_num [negFlowArc], C4_bpr_specializations negFlowArc (by norm_num [negFlowArc])⟩

/-! ### Dial weights (step 2): sweep characterization -/

theorem foldl_add_eq_sum (f : ℕ → EReal) :
    ∀ (lst : List ℕ) (v : EReal),
      lst.foldl (fun acc a => acc + f a) v = v + (lst.map f).sum := by
  intro lst
  induction lst with
  | nil => intro v; simp
  | cons a t ih =>
    intro v
    rw [List.foldl_cons, ih (v + f a), List.map_cons, List.sum_cons, add_assoc]

theorem wInner_eval (i : ℕ) :
    ∀ (lst : List ℕ) (c : Bushes) (v : EReal),
      lst.foldl (fun b a =>
          { b with nodeWeight := Function.update b.nodeWeight i (b.nodeWeight i + b.weight a) })
        { c with nodeWeight := Function.update c.nodeWeight i v }
      = { c with nodeWeight := Function.update c.nodeWeight i (v + (lst.map c.weight).sum) } := by
  intro lst
  induction lst with
  | nil => intro c v; simp
  | cons a t ih =>
    intro c v
    rw [List.foldl_cons]
    have hstep : (fun (b : Bushes) (x : ℕ) =>
          { b with nodeWeight := Function.update b.nodeWeight i (b.nodeWeight i + b.weight x) })
        { c with nodeWeight := Function.update c.nodeWeight i v } a
        = { c with nodeWeight := Function.update c.nodeWeight i (v + c.weight a) } := by
      show ({ c with nodeWeight := Function.update (Function.update c.nodeWeight i v) i ((Function.update c.nodeWeight i v) i + c.weight a) } : Bushes) = _
      rw [Function.update_idem, Function.update_same]
    refine (congrArg (fun s => List.foldl (fun (b : Bushes) (x : ℕ) =>
        { b with nodeWeight := Function.update b.nodeWeight i (b.nodeWeight i + b.weight x) })
        s t) hstep).trans ?_
    rw [ih c (v + c.weight a), List.map_cons, List.sum_cons, add_assoc]

theorem wFwd_eval (i : ℕ) :
    ∀ (lst : List ℕ) (c F : Bushes),
      F = lst.foldl (fun b a =>
          { b with weight := Function.update b.weight a (b.nodeWeight i * b.likelihood a) }) c →
      (F.nodeWeight = c.nodeWeight ∧ F.likelihood = c.likelihood ∧ F.SPcost = c.SPcost
        ∧ F.flow = c.flow ∧ F.nodeFlow = c.nodeFlow ∧ F.bushOrder = c.bushOrder
        ∧ F.bushForwardStar = c.bushForwardStar ∧ F.bushReverseStar = c.bushReverseStar)
      ∧ (∀ y, y ∉ lst → F.weight y = c.weight y)
      ∧ (∀ y ∈ lst, F.weight y = c.nodeWeight i * c.likelihood y) := by
  intro lst
  induction lst with
  | nil =>
    intro c F hF
    subst hF
    exact ⟨⟨rfl, rfl, rfl, rfl, rfl, rfl, rfl, rfl⟩, fun y _ => rfl,
      fun y hy => absurd hy (List.not_mem_nil y)⟩
  | cons a t ih =>
    intro c F hF
    rw [List.foldl_cons] at hF
    have hF1 : F = t.foldl (fun b x =>
        { b with weight := Function.update b.weight x (b.nodeWeight i * b.likelihood x) })
        { c with weight := Function.update c.weight a (c.nodeWeight i * c.likelihood a) } := hF
    obtain ⟨hfl, hunt, hmem⟩ := ih
      { c with weight := Function.update c.weight a (c.nodeWeight i * c.likelihood a) } F hF1
    refine ⟨⟨hfl.1, hfl.2.1, hfl.2.2.1, hfl.2.2.2.1, hfl.2.2.2.2.1, hfl.2.2.2.2.2.1,
      hfl.2.2.2.2.2.2.1, hfl.2.2.2.2.2.2.2⟩, ?_, ?_⟩
    · intro y hy
      have hyt : y ∉ t := fun hc => hy (List.mem_cons_of_mem a hc)
      have hya : y ≠ a := fun hc => hy (hc ▸ List.mem_cons_self a t)
      have h1 : F.weight y
          = Function.update c.weight a (c.nodeWeight i * c.likelihood a) y := hunt y hyt
      rw [h1, Function.update_noteq hya]
    · intro y hy
      by_cases hyt : y ∈ t
      · exact hmem y hyt
      · have hya : y = a := by
          rcases List.mem_cons.mp hy with h | h
          · exact h
          · exact absurd h hyt
        subst hya
        have h1 : F.weight y
            = Function.update c.weight y (c.nodeWeight i * c.likelihood y) y := hunt y hyt
        rw [h1, Function.update_same]

theorem wFwd0_eval :
    ∀ (lst : List ℕ) (c F : Bushes),
      F = lst.foldl (fun b a =>
          { b with weight := Function.update b.weight a (b.likelihood a) }) c →
      (F.nodeWeight = c.nodeWeight ∧ F.likelihood = c.likelihood ∧ F.SPcost = c.SPcost
        ∧ F.flow = c.flow ∧ F.nodeFlow = c.nodeFlow ∧ F.bushOrder = c.bushOrder
        ∧ F.bushForwardStar = c.bushForwardStar ∧ F.bushReverseStar = c.bushReverseStar)
      ∧ (∀ y, y ∉ lst → F.weight y = c.weight y)
      ∧ (∀ y ∈ lst, F.weight y = c.likelihood y) := by
  intro lst
  induction lst with
  | nil =>
    intro c F hF
    subst hF
    exact ⟨⟨rfl, rfl, rfl, rfl, rfl, rfl, rfl, rfl⟩, fun y _ => rfl,
      fun y hy => absurd hy (List.not_mem_nil y)⟩
  | cons a t ih =>
    intro c F hF
    rw [List.foldl_cons] at hF
    have hF1 : F = t.foldl (fun b x =>
        { b with weight := Function.update b.weight x (b.likelihood x) })
        { c with weight := Function.update c.weight a (c.likelihood a) } := hF
    obtain ⟨hfl, hunt, hmem⟩ := ih
      { c with weight := Function.update c.weight a (c.likelihood a) } F hF1
    refine ⟨⟨hfl.1, hfl.2.1, hfl.2.2.1, hfl.2.2.2.1, hfl.2.2.2.2.1, hfl.2.2.2.2.2.1,
      hfl.2.2.2.2.2.2.1, hfl.2.2.2.2.2.2.2⟩, ?_, ?_⟩
    · intro y hy
      have hyt : y ∉ t := fun hc => hy (List.mem_cons_of_mem a hc)
      have hya : y ≠ a := fun hc => hy (hc ▸ List.mem_cons_self a t)
      have h1 : F.weight y = Function.update c.weight a (c.likelihood a) y := hunt y hyt
      rw [h1, Function.update_noteq hya]
    · intro y hy
      by_cases hyt : y ∈ t
      · exact hmem y hyt
      · have hya : y = a := by
          rcases List.mem_cons.mp hy with h | h
          · exact h
          · exact absurd h hyt
        subst hya
        have h1 : F.weight y = Function.update c.weight y (c.likelihood y) y := hunt y hyt
        rw [h1, Function.update_same]

/-- Characterization of the weights sweep of step 2 of `dialFlows`: the
persistent fields and the likelihoods are untouched, node weights outside
the processed list and weights of arcs whose tail is outside it are
untouched, each processed node's final weight is the sum of its reverse
star's final arc weights, and each forward-star arc of a processed node
carries node weight times likelihood. -/
theorem weightFold_correct (net : Network) (origin : ℕ) :
    ∀ (nodes : List ℕ) (c F : Bushes),
      nodes.Nodup →
      tailsEarlier net (c.bushReverseStar origin) nodes →
      (∀ i a, a ∈ c.bushForwardStar origin i → (net.arcs a).tail = i) →
      F = nodes.foldl (fun b i =>
        let bz := { b with nodeWeight := Function.update b.nodeWeight i 0 }
        let bw := (bz.bushReverseStar origin i).foldl
          (fun b a =>
            { b with nodeWeight := Function.update b.nodeWeight i (b.nodeWeight i + b.weight a) })
          bz
        (bw.bushForwardStar origin i).foldl
          (fun b a =>
            { b with weight := Function.update b.weight a (b.nodeWeight i * b.likelihood a) })
          bw) c →
      (F.bushForwardStar = c.bushForwardStar ∧ F.bushReverseStar = c.bushReverseStar
        ∧ F.bushOrder = c.bushOrder ∧ F.likelihood = c.likelihood ∧ F.SPcost = c.SPcost
        ∧ F.flow = c.flow ∧ F.nodeFlow = c.nodeFlow)
      ∧ (∀ j, j ∉ nodes → F.nodeWeight j = c.nodeWeight j)
      ∧ (∀ y, (net.arcs y).tail ∉ nodes → F.weight y = c.weight y)
      ∧ (∀ i ∈ nodes, F.nodeWeight i = ((c.bushReverseStar origin i).map F.weight).sum)
      ∧ (∀ i ∈ nodes, ∀ a ∈ c.bushForwardStar origin i,
          F.weight a = F.nodeWeight i * F.likelihood a) := by
  intro nodes
  induction nodes with
  | nil =>
    intro c F _ _ _ hF
    subst hF
    exact ⟨⟨rfl, rfl, rfl, rfl, rfl, rfl, rfl⟩, fun j _ => rfl, fun y _ => rfl,
      fun i hi => absurd hi (List.not_mem_nil i),
      fun i hi => absurd hi (List.not_mem_nil i)⟩
  | cons i rest ih =>
    intro c F hnd hte hfwd hF
    rw [List.foldl_cons] at hF
    have hbw := wInner_eval i (c.bushReverseStar origin i) c 0
    have hF1 : F = rest.foldl (fun b i =>
        let bz := { b with nodeWeight := Function.update b.nodeWeight i 0 }
        let bw := (bz.bushReverseStar origin i).foldl
          (fun b a =>
            { b with nodeWeight := Function.update b.nodeWeight i (b.nodeWeight i + b.weight a) })
          bz
        (bw.bushForwardStar origin i).foldl
          (fun b a =>
            { b with weight := Function.update b.weight a (b.nodeWeight i * b.likelihood a) })
          bw)
        ((c.bushForwardStar origin i).foldl
          (fun b a =>
            { b with weight := Function.update b.weight a (b.nodeWeight i * b.likelihood a) })
          { c with nodeWeight := Function.update c.nodeWeight i (0 + ((c.bushReverseStar origin i).map c.weight).sum) }) := by
      rw [hF]
      refine congrArg (fun (s : Bushes) => List.foldl (fun (b : Bushes) (i : ℕ) =>
        let bz := { b with nodeWeight := Function.update b.nodeWeight i 0 }
        let bw := (bz.bushReverseStar origin i).foldl
          (fun b a =>
            { b with nodeWeight := Function.update b.nodeWeight i (b.nodeWeight i + b.weight a) })
          bz
        (bw.bushForwardStar origin i).foldl
          (fun b a =>
            { b with weight := Function.update b.weight a (b.nodeWeight i * b.likelihood a) })
          bw) s rest) ?_
      show (((c.bushReverseStar origin i).foldl
          (fun (b : Bushes) (a : ℕ) =>
            { b with nodeWeight := Function.update b.nodeWeight i (b.nodeWeight i + b.weight a) })
          { c with nodeWeight := Function.update c.nodeWeight i 0 }).bushForwardStar origin i).foldl
          (fun (b : Bushes) (a : ℕ) =>
            { b with weight := Function.update b.weight a (b.nodeWeight i * b.likelihood a) })
          ((c.bushReverseStar origin i).foldl
            (fun (b : Bushes) (a : ℕ) =>
              { b with nodeWeight := Function.update b.nodeWeight i (b.nodeWeight i + b.weight a) })
            { c with nodeWeight := Function.update c.nodeWeight i 0 }) = _
      rw [hbw]
    rw [zero_add] at hF1
    revert hF1
    generalize hc1 : (c.bushForwardStar origin i).foldl
        (fun b a =>
          { b with weight := Function.update b.weight a (b.nodeWeight i * b.likelihood a) })
        { c with nodeWeight := Function.update c.nodeWeight i ((c.bushReverseStar origin i).map c.weight).sum } = c1
    intro hF1
    obtain ⟨hfl1, hunt1, hmem1⟩ := wFwd_eval i (c.bushForwardStar origin i)
      { c with nodeWeight := Function.update c.nodeWeight i ((c.bushReverseStar origin i).map c.weight).sum }
      c1 hc1.symm
    have e1 : c1.nodeWeight
        = Function.update c.nodeWeight i ((c.bushReverseStar origin i).map c.weight).sum :=
      hfl1.1
    have e2 : c1.likelihood = c.likelihood := hfl1.2.1
    have e3 : c1.SPcost = c.SPcost := hfl1.2.2.1
    have e4 : c1.flow = c.flow := hfl1.2.2.2.1
    have e5 : c1.nodeFlow = c.nodeFlow := hfl1.2.2.2.2.1
    have e6 : c1.bushOrder = c.bushOrder := hfl1.2.2.2.2.2.1
    have e7 : c1.bushForwardStar = c.bushForwardStar := hfl1.2.2.2.2.2.2.1
    have e8 : c1.bushReverseStar = c.bushReverseStar := hfl1.2.2.2.2.2.2.2
    have hnd2 : rest.Nodup := (List.nodup_cons.mp hnd).2
    have hinotrest : i ∉ rest := (List.nodup_cons.mp hnd).1
    have hte2 : tailsEarlier net (c1.bushReverseStar origin) rest := by
      rw [e8]
      exact hte.2
    have hfwd2 : ∀ i0 a, a ∈ c1.bushForwardStar origin i0 → (net.arcs a).tail = i0 := by
      intro i0 a ha
      rw [e7] at ha
      exact hfwd i0 a ha
    obtain ⟨⟨F1, F2, F3, F4, F5, F6, F7⟩, hB, hC, hD, hE⟩ := ih c1 F hnd2 hte2 hfwd2 hF1
    have hBfull : ∀ j, j ∉ i :: rest → F.nodeWeight j = c.nodeWeight j := by
      intro j hj
      have hjrest : j ∉ rest := fun hc => hj (List.mem_cons_of_mem i hc)
      have hjne : j ≠ i := fun hc => hj (hc ▸ List.mem_cons_self i rest)
      rw [hB j hjrest, e1, Function.update_noteq hjne]
    have hCfull : ∀ y, (net.arcs y).tail ∉ i :: rest → F.weight y = c.weight y := by
      intro y hy
      have hyrest : (net.arcs y).tail ∉ rest := fun hc => hy (List.mem_cons_of_mem i hc)
      have hyne : (net.arcs y).tail ≠ i := fun hc => hy (hc ▸ List.mem_cons_self i rest)
      have hynf : y ∉ c.bushForwardStar origin i := fun hc => hyne (hfwd i y hc)
      rw [hC y hyrest]
      exact hunt1 y hynf
    have hDi : F.nodeWeight i = ((c.bushReverseStar origin i).map c.weight).sum := by
      rw [hB i hinotrest, e1, Function.update_same]
    have hDi2 : F.nodeWeight i = ((c.bushReverseStar origin i).map F.weight).sum := by
      rw [hDi]
      exact congrArg List.sum (List.map_congr_left (fun a ha => (hCfull a (hte.1 a ha)).symm))
    refine ⟨⟨F1.trans e7, F2.trans e8, F3.trans e6, F4.trans e2, F5.trans e3,
      F6.trans e4, F7.trans e5⟩, hBfull, hCfull, ?_, ?_⟩
    · intro x hx
      rcases List.mem_cons.mp hx with hxi | hxrest
      · subst hxi
        exact hDi2
      · have h1 := hD x hxrest
        rw [e8] at h1
        exact h1
    · intro x hx a ha
      rcases List.mem_cons.mp hx with hxi | hxrest
      · subst hxi
        have htaila : (net.arcs a).tail = x := hfwd x a ha
        have h1 : (net.arcs a).tail ∉ rest := by
          rw [htaila]
          exact hinotrest
        have h2 : F.weight a = c1.weight a := hC a h1
        have h3 : c1.weight a
            = Function.update c.nodeWeight x ((c.bushReverseStar origin x).map c.weight).sum x
              * c.likelihood a := hmem1 a ha
        rw [Function.update_same] at h3
        rw [h2, h3, ← hDi, ← congrFun (F4.trans e2) a]
      · have ha1 : a ∈ c1.bushForwardStar origin x := by
          rw [e7]
          exact ha
        exact hE x hxrest a ha1

/-- Evaluation of step 2 of `dialFlows` over a well-formed bush: the other
scratch arrays are untouched, the origin's node weight is 1, every other
node's weight is the sum of its reverse-star arc weights, and every bush
arc's weight is the node weight of its tail times its likelihood. -/
theorem computeWeights_eval (net : Network) (b : Bushes) (origin : ℕ) (B : Finset ℕ)
    (wf : BushWF net b origin B) :
    ((computeWeights net b origin).likelihood = b.likelihood
      ∧ (computeWeights net b origin).SPcost = b.SPcost
      ∧ (computeWeights net b origin).flow = b.flow
      ∧ (computeWeights net b origin).nodeFlow = b.nodeFlow)
    ∧ (computeWeights net b origin).nodeWeight origin = 1
    ∧ (∀ i ∈ (b.bushOrder origin).drop 1,
        (computeWeights net b origin).nodeWeight i
          = ((b.bushReverseStar origin i).map (computeWeights net b origin).weight).sum)
    ∧ (∀ a ∈ B, (computeWeights net b origin).weight a
        = (computeWeights net b origin).nodeWeight ((net.arcs a).tail)
          * (computeWeights net b origin).likelihood a) := by
  have hCW : computeWeights net b origin
      = ((((b.bushForwardStar origin origin).foldl
            (fun (b : Bushes) (a : ℕ) => { b with weight := Function.update b.weight a (b.likelihood a) })
            { b with nodeWeight := Function.update b.nodeWeight origin 1 }).bushOrder origin).drop 1).foldl
        (fun (b : Bushes) (i : ℕ) =>
          let bz := { b with nodeWeight := Function.update b.nodeWeight i 0 }
          let bw := (bz.bushReverseStar origin i).foldl
            (fun b a =>
              { b with nodeWeight := Function.update b.nodeWeight i (b.nodeWeight i + b.weight a) })
            bz
          (bw.bushForwardStar origin i).foldl
            (fun b a =>
              { b with weight := Function.update b.weight a (b.nodeWeight i * b.likelihood a) })
            bw)
        ((b.bushForwardStar origin origin).foldl
          (fun (b : Bushes) (a : ℕ) => { b with weight := Function.update b.weight a (b.likelihood a) })
          { b with nodeWeight := Function.update b.nodeWeight origin 1 }) := rfl
  obtain ⟨gfl, gunt, gmem⟩ := wFwd0_eval (b.bushForwardStar origin origin)
    { b with nodeWeight := Function.update b.nodeWeight origin 1 }
    ((b.bushForwardStar origin origin).foldl
      (fun (b : Bushes) (a : ℕ) => { b with weight := Function.update b.weight a (b.likelihood a) })
      { b with nodeWeight := Function.update b.nodeWeight origin 1 }) rfl
  have g1 : ((b.bushForwardStar origin origin).foldl
      (fun (b : Bushes) (a : ℕ) => { b with weight := Function.update b.weight a (b.likelihood a) })
      { b with nodeWeight := Function.update b.nodeWeight origin 1 }).nodeWeight
      = Function.update b.nodeWeight origin 1 := gfl.1
  have g2 : ((b.bushForwardStar origin origin).foldl
      (fun (b : Bushes) (a : ℕ) => { b with weight := Function.update b.weight a (b.likelihood a) })
      { b with nodeWeight := Function.update b.nodeWeight origin 1 }).likelihood
      = b.likelihood := gfl.2.1
  have g3 : ((b.bushForwardStar origin origin).foldl
      (fun (b : Bushes) (a : ℕ) => { b with weight := Function.update b.weight a (b.likelihood a) })
      { b with nodeWeight := Function.update b.nodeWeight origin 1 }).SPcost
      = b.SPcost := gfl.2.2.1
  have g4 : ((b.bushForwardStar origin origin).foldl
      (fun (b : Bushes) (a : ℕ) => { b with weight := Function.update b.weight a (b.likelihood a) })
      { b with nodeWeight := Function.update b.nodeWeight origin 1 }).flow
      = b.flow := gfl.2.2.2.1
  have g5 : ((b.bushForwardStar origin origin).foldl
      (fun (b : Bushes) (a : ℕ) => { b with weight := Function.update b.weight a (b.likelihood a) })
      { b with nodeWeight := Function.update b.nodeWeight origin 1 }).nodeFlow
      = b.nodeFlow := gfl.2.2.2.2.1
  have g6 : ((b.bushForwardStar origin origin).foldl
      (fun (b : Bushes) (a : ℕ) => { b with weight := Function.update b.weight a (b.likelihood a) })
      { b with nodeWeight := Function.update b.nodeWeight origin 1 }).bushOrder
      = b.bushOrder := gfl.2.2.2.2.2.1
  have g7 : ((b.bushForwardStar origin origin).foldl
      (fun (b : Bushes) (a : ℕ) => { b with weight := Function.update b.weight a (b.likelihood a) })
      { b with nodeWeight := Function.update b.nodeWeight origin 1 }).bushForwardStar
      = b.bushForwardStar := gfl.2.2.2.2.2.2.1
  have g8 : ((b.bushForwardStar origin origin).foldl
      (fun (b : Bushes) (a : ℕ) => { b with weight := Function.update b.weight a (b.likelihood a) })
      { b with nodeWeight := Function.update b.nodeWeight origin 1 }).bushReverseStar
      = b.bushReverseStar := gfl.2.2.2.2.2.2.2
  rw [g6] at hCW
  have hte2 : tailsEarlier net (((b.bushForwardStar origin origin).foldl
      (fun (b : Bushes) (a : ℕ) => { b with weight := Function.update b.weight a (b.likelihood a) })
      { b with nodeWeight := Function.update b.nodeWeight origin 1 }).bushReverseStar origin)
      ((b.bushOrder origin).drop 1) := by
    rw [g8]
    exact wf.tailsEarlierDrop
  have hfwd2 : ∀ i a, a ∈ ((b.bushForwardStar origin origin).foldl
      (fun (b : Bushes) (a : ℕ) => { b with weight := Function.update b.weight a (b.likelihood a) })
      { b with nodeWeight := Function.update b.nodeWeight origin 1 }).bushForwardStar origin i →
      (net.arcs a).tail = i := by
    intro i a ha
    rw [g7] at ha
    exact ((wf.stars.fwdMem i a).mp ha).2
  obtain ⟨⟨W1, W2, W3, W4, W5, W6, W7⟩, wB, wC, wD, wE⟩ := weightFold_correct net origin
    ((b.bushOrder origin).drop 1)
    ((b.bushForwardStar origin origin).foldl
      (fun (b : Bushes) (a : ℕ) => { b with weight := Function.update b.weight a (b.likelihood a) })
      { b with nodeWeight := Function.update b.nodeWeight origin 1 })
    (computeWeights net b origin) wf.dropNodup hte2 hfwd2 hCW
  have hlike : (computeWeights net b origin).likelihood = b.likelihood := W4.trans g2
  have hnw1 : (computeWeights net b origin).nodeWeight origin = 1 := by
    have h1 := wB origin wf.originNotDrop
    rw [g1] at h1
    rw [h1, Function.update_same]
  refine ⟨⟨hlike, W5.trans g3, W6.trans g4, W7.trans g5⟩, hnw1, ?_, ?_⟩
  · intro i hi
    have h1 := wD i hi
    rw [g8] at h1
    exact h1
  · intro a haB
    have htail_lt : (net.arcs a).tail < net.numNodes :=
      (wf.arcsValid a (wf.stars.bSub a haB)).1
    have htmem : (net.arcs a).tail ∈ b.bushOrder origin := by
      rw [wf.ordPerm.mem_iff]
      exact List.mem_range.mpr htail_lt
    rw [ord_eq_cons wf.ordHead] at htmem
    rcases List.mem_cons.mp htmem with hto | htd
    · have hafwd : a ∈ b.bushForwardStar origin origin :=
        (wf.stars.fwdMem origin a).mpr ⟨haB, hto⟩
      have h1 : (computeWeights net b origin).weight a
          = ((b.bushForwardStar origin origin).foldl
              (fun (b : Bushes) (a : ℕ) => { b with weight := Function.update b.weight a (b.likelihood a) })
              { b with nodeWeight := Function.update b.nodeWeight origin 1 }).weight a := by
        refine wC a ?_
        rw [hto]
        exact wf.originNotDrop
      have h2 : ((b.bushForwardStar origin origin).foldl
              (fun (b : Bushes) (a : ℕ) => { b with weight := Function.update b.weight a (b.likelihood a) })
              { b with nodeWeight := Function.update b.nodeWeight origin 1 }).weight a
          = b.likelihood a := gmem a hafwd
      rw [h1, h2, hto, hnw1, one_mul, ← congrFun hlike a]
    · have hafwd : a ∈ ((b.bushForwardStar origin origin).foldl
          (fun (b : Bushes) (a : ℕ) => { b with weight := Function.update b.weight a (b.likelihood a) })
          { b with nodeWeight := Function.update b.nodeWeight origin 1 }).bushForwardStar origin
            ((net.arcs a).tail) := by
        rw [g7]
        exact (wf.stars.fwdMem _ a).mpr ⟨haB, rfl⟩
      exact wE _ htd a hafwd

/-! ### Dial flows (step 3): sweep characterization -/

theorem indexOf_reverse_eq {l : List ℕ} (hnd : l.Nodup) {x : ℕ} (hx : x ∈ l) :
    l.reverse.indexOf x = l.length - 1 - l.indexOf x := by
  have hlt : l.indexOf x < l.length := List.indexOf_lt_length.mpr hx
  have h2 : l.length - 1 - l.indexOf x < l.reverse.length := by
    rw [List.length_reverse]
    omega
  have h4 := List.indexOf_getElem (List.nodup_reverse.mpr hnd) (l.length - 1 - l.indexOf x) h2
  rw [List.getElem_reverse] at h4
  have harith : l.length - 1 - (l.length - 1 - l.indexOf x) = l.indexOf x := by omega
  simp only [harith] at h4
  rw [List.getElem_indexOf hlt] at h4
  exact h4

theorem headsEarlier_of_indexOf (net : Network) (fwd : ℕ → List ℕ) (ord : List ℕ)
    (hnd : ord.Nodup)
    (h : ∀ i, ∀ a ∈ fwd i, ord.indexOf ((net.arcs a).head) < ord.indexOf i) :
    ∀ post pre, ord = pre ++ post → headsEarlier net fwd post := by
  intro post
  induction post with
  | nil => intro pre _; trivial
  | cons i rest ih =>
    intro pre hord
    refine ⟨fun a ha hmem => ?_, ih (pre ++ [i]) (by rw [hord, List.append_assoc]; rfl)⟩
    have hndisj := (List.nodup_append.mp (hord ▸ hnd)).2.2
    have hhead_notpre : (net.arcs a).head ∉ pre := by
      intro hc
      exact hndisj hc hmem
    have hi_notpre : i ∉ pre := by
      intro hc
      exact hndisj hc (List.mem_cons_self i rest)
    have h1 : ord.indexOf ((net.arcs a).head) = pre.length +
        (i :: rest).indexOf ((net.arcs a).head) := by
      rw [hord, List.indexOf_append_of_not_mem hhead_notpre]
    have h2 : ord.indexOf i = pre.length := by
      rw [hord, List.indexOf_append_of_not_mem hi_notpre, List.indexOf_cons_self]
      omega
    have := h i a ha
    omega

theorem fInner_eval (i : ℕ) :
    ∀ (lst : List ℕ) (c : Bushes) (v : ℝ),
      lst.foldl (fun b a =>
          { b with nodeFlow := Function.update b.nodeFlow i (b.nodeFlow i + b.flow a) })
        { c with nodeFlow := Function.update c.nodeFlow i v }
      = { c with nodeFlow := Function.update c.nodeFlow i (v + (lst.map c.flow).sum) } := by
  intro lst
  induction lst with
  | nil => intro c v; simp
  | cons a t ih =>
    intro c v
    rw [List.foldl_cons]
    have hstep : (fun (b : Bushes) (x : ℕ) =>
          { b with nodeFlow := Function.update b.nodeFlow i (b.nodeFlow i + b.flow x) })
        { c with nodeFlow := Function.update c.nodeFlow i v } a
        = { c with nodeFlow := Function.update c.nodeFlow i (v + c.flow a) } := by
      show ({ c with nodeFlow := Function.update (Function.update c.nodeFlow i v) i ((Function.update c.nodeFlow i v) i + c.flow a) } : Bushes) = _
      rw [Function.update_idem, Function.update_same]
    refine (congrArg (fun s => List.foldl (fun (b : Bushes) (x : ℕ) =>
        { b with nodeFlow := Function.update b.nodeFlow i (b.nodeFlow i + b.flow x) })
        s t) hstep).trans ?_
    rw [ih c (v + c.flow a), List.map_cons, List.sum_cons, add_assoc]

theorem fRev_eval (i : ℕ) :
    ∀ (lst : List ℕ) (c F : Bushes),
      F = lst.foldl (fun b a =>
          { b with flow := Function.update b.flow a (dialFlowValue b i a) }) c →
      (F.nodeWeight = c.nodeWeight ∧ F.likelihood = c.likelihood ∧ F.SPcost = c.SPcost
        ∧ F.weight = c.weight ∧ F.nodeFlow = c.nodeFlow ∧ F.bushOrder = c.bushOrder
        ∧ F.bushForwardStar = c.bushForwardStar ∧ F.bushReverseStar = c.bushReverseStar)
      ∧ (∀ y, y ∉ lst → F.flow y = c.flow y)
      ∧ (∀ y ∈ lst, F.flow y = dialFlowValue c i y) := by
  intro lst
  induction lst with
  | nil =>
    intro c F hF
    subst hF
    exact ⟨⟨rfl, rfl, rfl, rfl, rfl, rfl, rfl, rfl⟩, fun y _ => rfl,
      fun y hy => absurd hy (List.not_mem_nil y)⟩
  | cons a t ih =>
    intro c F hF
    rw [List.foldl_cons] at hF
    have hF1 : F = t.foldl (fun b x =>
        { b with flow := Function.update b.flow x (dialFlowValue b i x) })
        { c with flow := Function.update c.flow a (dialFlowValue c i a) } := hF
    obtain ⟨hfl, hunt, hmem⟩ := ih
      { c with flow := Function.update c.flow a (dialFlowValue c i a) } F hF1
    refine ⟨⟨hfl.1, hfl.2.1, hfl.2.2.1, hfl.2.2.2.1, hfl.2.2.2.2.1, hfl.2.2.2.2.2.1,
      hfl.2.2.2.2.2.2.1, hfl.2.2.2.2.2.2.2⟩, ?_, ?_⟩
    · intro y hy
      have hyt : y ∉ t := fun hc => hy (List.mem_cons_of_mem a hc)
      have hya : y ≠ a := fun hc => hy (hc ▸ List.mem_cons_self a t)
      have h1 : F.flow y = Function.update c.flow a (dialFlowValue c i a) y := hunt y hyt
      rw [h1, Function.update_noteq hya]
    · intro y hy
      by_cases hyt : y ∈ t
      · exact hmem y hyt
      · have hya : y = a := by
          rcases List.mem_cons.mp hy with h | h
          · exact h
          · exact absurd h hyt
        subst hya
        have h1 : F.flow y = Function.update c.flow y (dialFlowValue c i y) y := hunt y hyt
        rw [h1, Function.update_same]

/-- Characterization of the reverse-topological flows sweep of step 3 of
`dialFlows`: weights and likelihoods are untouched, node flows outside the
processed list and flows of arcs whose head is outside it are untouched,
each processed node's final flow is its demand plus the sum of the final
flows on its forward star, and each reverse-star arc of a processed node
carries the guarded share of the node flow. -/
theorem flowFold_correct (net : Network) (origin : ℕ) :
    ∀ (nodes : List ℕ) (c F : Bushes),
      nodes.Nodup →
      headsEarlier net (c.bushForwardStar origin) nodes →
      (∀ i a, a ∈ c.bushReverseStar origin i → (net.arcs a).head = i) →
      F = nodes.foldl (fun b i =>
        let bd := { b with nodeFlow := Function.update b.nodeFlow i (if i < net.numZones then net.demand origin i else 0) }
        let bf := (bd.bushForwardStar origin i).foldl
          (fun b a =>
            { b with nodeFlow := Function.update b.nodeFlow i (b.nodeFlow i + b.flow a) })
          bd
        (bf.bushReverseStar origin i).foldl
          (fun b a =>
            { b with flow := Function.update b.flow a (dialFlowValue b i a) })
          bf) c →
      (F.weight = c.weight ∧ F.nodeWeight = c.nodeWeight ∧ F.likelihood = c.likelihood
        ∧ F.SPcost = c.SPcost ∧ F.bushOrder = c.bushOrder
        ∧ F.bushForwardStar = c.bushForwardStar ∧ F.bushReverseStar = c.bushReverseStar)
      ∧ (∀ j, j ∉ nodes → F.nodeFlow j = c.nodeFlow j)
      ∧ (∀ y, (net.arcs y).head ∉ nodes → F.flow y = c.flow y)
      ∧ (∀ i ∈ nodes, F.nodeFlow i
          = (if i < net.numZones then net.demand origin i else 0)
            + ((c.bushForwardStar origin i).map F.flow).sum)
      ∧ (∀ i ∈ nodes, ∀ a ∈ c.bushReverseStar origin i,
          F.flow a = if c.nodeWeight i = 0 then 0
            else F.nodeFlow i * (c.weight a / c.nodeWeight i).toReal) := by
  intro nodes
  induction nodes with
  | nil =>
    intro c F _ _ _ hF
    subst hF
    exact ⟨⟨rfl, rfl, rfl, rfl, rfl, rfl, rfl⟩, fun j _ => rfl, fun y _ => rfl,
      fun i hi => absurd hi (List.not_mem_nil i),
      fun i hi => absurd hi (List.not_mem_nil i)⟩
  | cons i rest ih =>
    intro c F hnd hte hrev hF
    rw [List.foldl_cons] at hF
    have hbf := fInner_eval i (c.bushForwardStar origin i) c
      (if i < net.numZones then net.demand origin i else 0)
    have hF1 : F = rest.foldl (fun b i =>
        let bd := { b with nodeFlow := Function.update b.nodeFlow i (if i < net.numZones then net.demand origin i else 0) }
        let bf := (bd.bushForwardStar origin i).foldl
          (fun b a =>
            { b with nodeFlow := Function.update b.nodeFlow i (b.nodeFlow i + b.flow a) })
          bd
        (bf.bushReverseStar origin i).foldl
          (fun b a =>
            { b with flow := Function.update b.flow a (dialFlowValue b i a) })
          bf)
        ((c.bushReverseStar origin i).foldl
          (fun b a =>
            { b with flow := Function.update b.flow a (dialFlowValue b i a) })
          { c with nodeFlow := Function.update c.nodeFlow i ((if i < net.numZones then net.demand origin i else 0) + ((c.bushForwardStar origin i).map c.flow).sum) }) := by
      rw [hF]
      refine congrArg (fun (s : Bushes) => List.foldl (fun (b : Bushes) (i : ℕ) =>
        let bd := { b with nodeFlow := Function.update b.nodeFlow i (if i < net.numZones then net.demand origin i else 0) }
        let bf := (bd.bushForwardStar origin i).foldl
          (fun b a =>
            { b with nodeFlow := Function.update b.nodeFlow i (b.nodeFlow i + b.flow a) })
          bd
        (bf.bushReverseStar origin i).foldl
          (fun b a =>
            { b with flow := Function.update b.flow a (dialFlowValue b i a) })
          bf) s rest) ?_
      show (((c.bushForwardStar origin i).foldl
          (fun (b : Bushes) (a : ℕ) =>
            { b with nodeFlow := Function.update b.nodeFlow i (b.nodeFlow i + b.flow a) })
          { c with nodeFlow := Function.update c.nodeFlow i (if i < net.numZones then net.demand origin i else 0) }).bushReverseStar origin i).foldl
          (fun (b : Bushes) (a : ℕ) =>
            { b with flow := Function.update b.flow a (dialFlowValue b i a) })
          ((c.bushForwardStar origin i).foldl
            (fun (b : Bushes) (a : ℕ) =>
              { b with nodeFlow := Function.update b.nodeFlow i (b.nodeFlow i + b.flow a) })
            { c with nodeFlow := Function.update c.nodeFlow i (if i < net.numZones then net.demand origin i else 0) }) = _
      rw [hbf]
    revert hF1
    generalize hc1 : (c.bushReverseStar origin i).foldl
        (fun b a =>
          { b with flow := Function.update b.flow a (dialFlowValue b i a) })
        { c with nodeFlow := Function.update c.nodeFlow i ((if i < net.numZones then net.demand origin i else 0) + ((c.bushForwardStar origin i).map c.flow).sum) } = c1
    intro hF1
    obtain ⟨hfl1, hunt1, hmem1⟩ := fRev_eval i (c.bushReverseStar origin i)
      { c with nodeFlow := Function.update c.nodeFlow i ((if i < net.numZones then net.demand origin i else 0) + ((c.bushForwardStar origin i).map c.flow).sum) }
      c1 hc1.symm
    have e1 : c1.nodeWeight = c.nodeWeight := hfl1.1
    have e2 : c1.likelihood = c.likelihood := hfl1.2.1
    have e3 : c1.SPcost = c.SPcost := hfl1.2.2.1
    have e4 : c1.weight = c.weight := hfl1.2.2.2.1
    have e5 : c1.nodeFlow
        = Function.update c.nodeFlow i ((if i < net.numZones then net.demand origin i else 0) + ((c.bushForwardStar origin i).map c.flow).sum) := hfl1.2.2.2.2.1
    have e6 : c1.bushOrder = c.bushOrder := hfl1.2.2.2.2.2.1
    have e7 : c1.bushForwardStar = c.bushForwardStar := hfl1.2.2.2.2.2.2.1
    have e8 : c1.bushReverseStar = c.bushReverseStar := hfl1.2.2.2.2.2.2.2
    have hnd2 : rest.Nodup := (List.nodup_cons.mp hnd).2
    have hinotrest : i ∉ rest := (List.nodup_cons.mp hnd).1
    have hte2 : headsEarlier net (c1.bushForwardStar origin) rest := by
      rw [e7]
      exact hte.2
    have hrev2 : ∀ i0 a, a ∈ c1.bushReverseStar origin i0 → (net.arcs a).head = i0 := by
      intro i0 a ha
      rw [e8] at ha
      exact hrev i0 a ha
    obtain ⟨⟨F1, F2, F3, F4, F5, F6, F7⟩, hB, hC, hD, hE⟩ := ih c1 F hnd2 hte2 hrev2 hF1
    have hBfull : ∀ j, j ∉ i :: rest → F.nodeFlow j = c.nodeFlow j := by
      intro j hj
      have hjrest : j ∉ rest := fun hc => hj (List.mem_cons_of_mem i hc)
      have hjne : j ≠ i := fun hc => hj (hc ▸ List.mem_cons_self i rest)
      rw [hB j hjrest, e5, Function.update_noteq hjne]
    have hCfull : ∀ y, (net.arcs y).head ∉ i :: rest → F.flow y = c.flow y := by
      intro y hy
      have hyrest : (net.arcs y).head ∉ rest := fun hc => hy (List.mem_cons_of_mem i hc)
      have hyne : (net.arcs y).head ≠ i := fun hc => hy (hc ▸ List.mem_cons_self i rest)
      have hynr : y ∉ c.bushReverseStar origin i := fun hc => hyne (hrev i y hc)
      rw [hC y hyrest]
      exact hunt1 y hynr
    have hDiraw : F.nodeFlow i
        = (if i < net.numZones then net.demand origin i else 0)
          + ((c.bushForwardStar origin i).map c.flow).sum := by
      rw [hB i hinotrest, e5, Function.update_same]
    have hDi : F.nodeFlow i
        = (if i < net.numZones then net.demand origin i else 0)
          + ((c.bushForwardStar origin i).map F.flow).sum := by
      rw [hDiraw]
      refine congrArg (fun s => (if i < net.numZones then net.demand origin i else 0) + s) ?_
      exact congrArg List.sum (List.map_congr_left (fun a ha => (hCfull a (hte.1 a ha)).symm))
    refine ⟨⟨F1.trans e4, F2.trans e1, F3.trans e2, F4.trans e3, F5.trans e6,
      F6.trans e7, F7.trans e8⟩, hBfull, hCfull, ?_, ?_⟩
    · intro x hx
      rcases List.mem_cons.mp hx with hxi | hxrest
      · subst hxi
        exact hDi
      · have h1 := hD x hxrest
        rw [e7] at h1
        exact h1
    · intro x hx a ha
      rcases List.mem_cons.mp hx with hxi | hxrest
      · subst hxi
        have hheada : (net.arcs a).head = x := hrev x a ha
        have h1 : (net.arcs a).head ∉ rest := by
          rw [hheada]
          exact hinotrest
        have h2 : F.flow a = c1.flow a := hC a h1
        have h3 : c1.flow a = dialFlowValue
            { c with nodeFlow := Function.update c.nodeFlow x ((if x < net.numZones then net.demand origin x else 0) + ((c.bushForwardStar origin x).map c.flow).sum) } x a := hmem1 a ha
        have h4 : dialFlowValue
            { c with nodeFlow := Function.update c.nodeFlow x ((if x < net.numZones then net.demand origin x else 0) + ((c.bushForwardStar origin x).map c.flow).sum) } x a
            = if c.nodeWeight x = 0 then 0
              else (Function.update c.nodeFlow x ((if x < net.numZones then net.demand origin x else 0) + ((c.bushForwardStar origin x).map c.flow).sum) x) * (c.weight a / c.nodeWeight x).toReal := rfl
        rw [h2, h3, h4, Function.update_same, ← hDiraw]
      · have ha1 : a ∈ c1.bushReverseStar origin x := by
          rw [e8]
          exact ha
        have h1 := hE x hxrest a ha1
        rw [e1, e4] at h1
        exact h1

/-- Evaluation of step 3 of `dialFlows` over a well-formed bush: weights,
node weights, likelihoods and labels are untouched; every node's flow is
its demand plus the sum of the final flows of its forward star; and every
reverse-star arc of a node carries the guarded share of the node's flow. -/
theorem computeFlows_eval (net : Network) (c : Bushes) (origin : ℕ) (B : Finset ℕ)
    (wf : BushWF net c origin B) :
    ((computeFlows net c origin).weight = c.weight
      ∧ (computeFlows net c origin).nodeWeight = c.nodeWeight
      ∧ (computeFlows net c origin).likelihood = c.likelihood
      ∧ (computeFlows net c origin).SPcost = c.SPcost)
    ∧ (∀ i ∈ c.bushOrder origin,
        (computeFlows net c origin).nodeFlow i
          = (if i < net.numZones then net.demand origin i else 0)
            + ((c.bushForwardStar origin i).map (computeFlows net c origin).flow).sum)
    ∧ (∀ i ∈ c.bushOrder origin, ∀ a ∈ c.bushReverseStar origin i,
        (computeFlows net c origin).flow a
          = if c.nodeWeight i = 0 then 0
            else (computeFlows net c origin).nodeFlow i
              * (c.weight a / c.nodeWeight i).toReal) := by
  have hlen : (c.bushOrder origin).length = net.numNodes := by
    rw [wf.ordPerm.length_eq, List.length_range]
  have hpos : 1 ≤ net.numNodes := by
    by_contra hc
    have h0 : net.numNodes = 0 := by omega
    rw [h0] at hlen
    have hnil : c.bushOrder origin = [] := List.length_eq_zero.mp hlen
    have hh := wf.ordHead
    rw [hnil] at hh
    exact Option.noConfusion hh
  have hNlt : net.numNodes - 1 < (c.bushOrder origin).length := by omega
  set iN := (c.bushOrder origin).getD (net.numNodes - 1) 0 with hiNdef
  have hget : iN = (c.bushOrder origin).get ⟨net.numNodes - 1, hNlt⟩ := by
    rw [hiNdef, List.getD_eq_getElem?_getD, List.getElem?_eq_getElem hNlt, Option.getD_some,
      List.get_eq_getElem]
  have hiNmem : iN ∈ c.bushOrder origin := by
    rw [hget]
    exact List.get_mem _ _ _
  have hiNidx : (c.bushOrder origin).indexOf iN = net.numNodes - 1 := by
    rw [hget, List.get_eq_getElem]
    exact List.indexOf_getElem wf.ordNodup _ hNlt
  have hsplit : c.bushOrder origin
      = (c.bushOrder origin).take (net.numNodes - 1) ++ [iN] := by
    have h1 := List.take_append_drop (net.numNodes - 1) (c.bushOrder origin)
    have h3 : (c.bushOrder origin).drop (net.numNodes - 1 + 1) = [] :=
      List.drop_eq_nil_of_le (by omega)
    have h2 : (c.bushOrder origin).drop (net.numNodes - 1) = [iN] := by
      rw [List.drop_eq_getElem_cons hNlt, h3]
      rw [hget, List.get_eq_getElem]
    conv_lhs => rw [← h1]
    rw [h2]
  have htake_nd : ((c.bushOrder origin).take (net.numNodes - 1)).Nodup :=
    List.Nodup.sublist (List.take_sublist _ _) wf.ordNodup
  have hndsplit : ((c.bushOrder origin).take (net.numNodes - 1) ++ [iN]).Nodup := by
    rw [← hsplit]
    exact wf.ordNodup
  have hiN_nottake : iN ∉ (c.bushOrder origin).take (net.numNodes - 1) := by
    intro hc
    exact (List.nodup_append.mp hndsplit).2.2 hc (List.mem_cons_self iN [])
  have hPnd : (((c.bushOrder origin).take (net.numNodes - 1)).reverse).Nodup :=
    List.nodup_reverse.mpr htake_nd
  have hiN_notP : iN ∉ ((c.bushOrder origin).take (net.numNodes - 1)).reverse := by
    rw [List.mem_reverse]
    exact hiN_nottake
  have hRsplit : (c.bushOrder origin).reverse
      = [iN] ++ ((c.bushOrder origin).take (net.numNodes - 1)).reverse := by
    conv_lhs => rw [hsplit]
    rw [List.reverse_append]
    rfl
  have hRidx : ∀ i, ∀ a ∈ c.bushForwardStar origin i,
      (c.bushOrder origin).reverse.indexOf ((net.arcs a).head)
        < (c.bushOrder origin).reverse.indexOf i := by
    intro i a ha
    obtain ⟨haB, htl⟩ := (wf.stars.fwdMem i a).mp ha
    have htopo := wf.topo a haB
    rw [htl] at htopo
    have hhead_mem : (net.arcs a).head ∈ c.bushOrder origin := by
      rw [wf.ordPerm.mem_iff]
      exact List.mem_range.mpr (wf.arcsValid a (wf.stars.bSub a haB)).2
    have hi_mem : i ∈ c.bushOrder origin := by
      rw [← htl, wf.ordPerm.mem_iff]
      exact List.mem_range.mpr (wf.arcsValid a (wf.stars.bSub a haB)).1
    rw [indexOf_reverse_eq wf.ordNodup hhead_mem, indexOf_reverse_eq wf.ordNodup hi_mem]
    have hh := List.indexOf_lt_length.mpr hhead_mem
    omega
  have hheadsP : headsEarlier net (c.bushForwardStar origin)
      (((c.bushOrder origin).take (net.numNodes - 1)).reverse) :=
    headsEarlier_of_indexOf net (c.bushForwardStar origin) (c.bushOrder origin).reverse
      (List.nodup_reverse.mpr wf.ordNodup) hRidx
      (((c.bushOrder origin).take (net.numNodes - 1)).reverse) [iN] hRsplit
  have hfwdiN : c.bushForwardStar origin iN = [] := by
    rw [List.eq_nil_iff_forall_not_mem]
    intro a ha
    obtain ⟨haB, htl⟩ := (wf.stars.fwdMem iN a).mp ha
    have htopo := wf.topo a haB
    rw [htl, hiNidx] at htopo
    have hhead_mem : (net.arcs a).head ∈ c.bushOrder origin := by
      rw [wf.ordPerm.mem_iff]
      exact List.mem_range.mpr (wf.arcsValid a (wf.stars.bSub a haB)).2
    have hh := List.indexOf_lt_length.mpr hhead_mem
    rw [hlen] at hh
    omega
  have hCF : computeFlows net c origin
      = ((((c.bushReverseStar origin iN).foldl
            (fun (b : Bushes) (a : ℕ) => { b with flow := Function.update b.flow a (dialFlowValue b iN a) })
            { c with nodeFlow := Function.update c.nodeFlow iN (if iN < net.numZones then net.demand origin iN else 0) }).bushOrder origin).take (net.numNodes - 1)).reverse.foldl
        (fun (b : Bushes) (i : ℕ) =>
          let bd := { b with nodeFlow := Function.update b.nodeFlow i (if i < net.numZones then net.demand origin i else 0) }
          let bf := (bd.bushForwardStar origin i).foldl
            (fun b a =>
              { b with nodeFlow := Function.update b.nodeFlow i (b.nodeFlow i + b.flow a) })
            bd
          (bf.bushReverseStar origin i).foldl
            (fun b a =>
              { b with flow := Function.update b.flow a (dialFlowValue b i a) })
            bf)
        ((c.bushReverseStar origin iN).foldl
          (fun (b : Bushes) (a : ℕ) => { b with flow := Function.update b.flow a (dialFlowValue b iN a) })
          { c with nodeFlow := Function.update c.nodeFlow iN (if iN < net.numZones then net.demand origin iN else 0) }) := rfl
  obtain ⟨bfl, bunt, bmem⟩ := fRev_eval iN (c.bushReverseStar origin iN)
    { c with nodeFlow := Function.update c.nodeFlow iN (if iN < net.numZones then net.demand origin iN else 0) }
    ((c.bushReverseStar origin iN).foldl
      (fun (b : Bushes) (a : ℕ) => { b with flow := Function.update b.flow a (dialFlowValue b iN a) })
      { c with nodeFlow := Function.update c.nodeFlow iN (if iN < net.numZones then net.demand origin iN else 0) }) rfl
  have b2nw : ((c.bushReverseStar origin iN).foldl
      (fun (b : Bushes) (a : ℕ) => { b with flow := Function.update b.flow a (dialFlowValue b iN a) })
      { c with nodeFlow := Function.update c.nodeFlow iN (if iN < net.numZones then net.demand origin iN else 0) }).nodeWeight = c.nodeWeight := bfl.1
  have b2like : ((c.bushReverseStar origin iN).foldl
      (fun (b : Bushes) (a : ℕ) => { b with flow := Function.update b.flow a (dialFlowValue b iN a) })
      { c with nodeFlow := Function.update c.nodeFlow iN (if iN < net.numZones then net.demand origin iN else 0) }).likelihood = c.likelihood := bfl.2.1
  have b2sp : ((c.bushReverseStar origin iN).foldl
      (fun (b : Bushes) (a : ℕ) => { b with flow := Function.update b.flow a (dialFlowValue b iN a) })
      { c with nodeFlow := Function.update c.nodeFlow iN (if iN < net.numZones then net.demand origin iN else 0) }).SPcost = c.SPcost := bfl.2.2.1
  have b2w : ((c.bushReverseStar origin iN).foldl
      (fun (b : Bushes) (a : ℕ) => { b with flow := Function.update b.flow a (dialFlowValue b iN a) })
      { c with nodeFlow := Function.update c.nodeFlow iN (if iN < net.numZones then net.demand origin iN else 0) }).weight = c.weight := bfl.2.2.2.1
  have b2nf : ((c.bushReverseStar origin iN).foldl
      (fun (b : Bushes) (a : ℕ) => { b with flow := Function.update b.flow a (dialFlowValue b iN a) })
      { c with nodeFlow := Function.update c.nodeFlow iN (if iN < net.numZones then net.demand origin iN else 0) }).nodeFlow = Function.update c.nodeFlow iN (if iN < net.numZones then net.demand origin iN else 0) := bfl.2.2.2.2.1
  have b2ord : ((c.bushReverseStar origin iN).foldl
      (fun (b : Bushes) (a : ℕ) => { b with flow := Function.update b.flow a (dialFlowValue b iN a) })
      { c with nodeFlow := Function.update c.nodeFlow iN (if iN < net.numZones then net.demand origin iN else 0) }).bushOrder = c.bushOrder := bfl.2.2.2.2.2.1
  have b2fwd : ((c.bushReverseStar origin iN).foldl
      (fun (b : Bushes) (a : ℕ) => { b with flow := Function.update b.flow a (dialFlowValue b iN a) })
      { c with nodeFlow := Function.update c.nodeFlow iN (if iN < net.numZones then net.demand origin iN else 0) }).bushForwardStar = c.bushForwardStar := bfl.2.2.2.2.2.2.1
  have b2rev : ((c.bushReverseStar origin iN).foldl
      (fun (b : Bushes) (a : ℕ) => { b with flow := Function.update b.flow a (dialFlowValue b iN a) })
      { c with nodeFlow := Function.update c.nodeFlow iN (if iN < net.numZones then net.demand origin iN else 0) }).bushReverseStar = c.bushReverseStar := bfl.2.2.2.2.2.2.2
  rw [b2ord] at hCF
  have hheads2 : headsEarlier net (((c.bushReverseStar origin iN).foldl
      (fun (b : Bushes) (a : ℕ) => { b with flow := Function.update b.flow a (dialFlowValue b iN a) })
      { c with nodeFlow := Function.update c.nodeFlow iN (if iN < net.numZones then net.demand origin iN else 0) }).bushForwardStar origin)
      (((c.bushOrder origin).take (net.numNodes - 1)).reverse) := by
    rw [b2fwd]
    exact hheadsP
  have hrev2 : ∀ i a, a ∈ ((c.bushReverseStar origin iN).foldl
      (fun (b : Bushes) (a : ℕ) => { b with flow := Function.update b.flow a (dialFlowValue b iN a) })
      { c with nodeFlow := Function.update c.nodeFlow iN (if iN < net.numZones then net.demand origin iN else 0) }).bushReverseStar origin i →
      (net.arcs a).head = i := by
    intro i a ha
    rw [b2rev] at ha
    exact ((wf.stars.revMem i a).mp ha).2
  obtain ⟨⟨S1, S2, S3, S4, S5, S6, S7⟩, sB, sC, sD, sE⟩ := flowFold_correct net origin
    (((c.bushOrder origin).take (net.numNodes - 1)).reverse)
    ((c.bushReverseStar origin iN).foldl
      (fun (b : Bushes) (a : ℕ) => { b with flow := Function.update b.flow a (dialFlowValue b iN a) })
      { c with nodeFlow := Function.update c.nodeFlow iN (if iN < net.numZones then net.demand origin iN else 0) })
    (computeFlows net c origin) hPnd hheads2 hrev2 hCF
  have hFnfiN : (computeFlows net c origin).nodeFlow iN
      = (if iN < net.numZones then net.demand origin iN else 0) := by
    rw [sB iN hiN_notP, b2nf, Function.update_same]
  refine ⟨⟨S1.trans b2w, S2.trans b2nw, S3.trans b2like, S4.trans b2sp⟩, ?_, ?_⟩
  · intro i hi
    rw [hsplit] at hi
    rcases List.mem_append.mp hi with hitake | hiiN
    · have hiP : i ∈ ((c.bushOrder origin).take (net.numNodes - 1)).reverse :=
        List.mem_reverse.mpr hitake
      have h1 := sD i hiP
      rw [b2fwd] at h1
      exact h1
    · have hieq : i = iN := by
        rcases List.mem_cons.mp hiiN with h | h
        · exact h
        · exact absurd h (List.not_mem_nil i)
      subst hieq
      rw [hfwdiN, List.map_nil, List.sum_nil, add_zero]
      exact hFnfiN
  · intro i hi a ha
    rw [hsplit] at hi
    rcases List.mem_append.mp hi with hitake | hiiN
    · have hiP : i ∈ ((c.bushOrder origin).take (net.numNodes - 1)).reverse :=
        List.mem_reverse.mpr hitake
      have ha2 : a ∈ ((c.bushReverseStar origin iN).foldl
          (fun (b : Bushes) (a : ℕ) => { b with flow := Function.update b.flow a (dialFlowValue b iN a) })
          { c with nodeFlow := Function.update c.nodeFlow iN (if iN < net.numZones then net.demand origin iN else 0) }).bushReverseStar origin i := by
        rw [b2rev]
        exact ha
      have h1 := sE i hiP a ha2
      rw [b2nw, b2w] at h1
      exact h1
    · have hieq : i = iN := by
        rcases List.mem_cons.mp hiiN with h | h
        · exact h
        · exact absurd h (List.not_mem_nil i)
      subst hieq
      have hheada : (net.arcs a).head = iN := ((wf.stars.revMem iN a).mp ha).2
      have h1 : (computeFlows net c origin).flow a
          = ((c.bushReverseStar origin iN).foldl
              (fun (b : Bushes) (a : ℕ) => { b with flow := Function.update b.flow a (dialFlowValue b iN a) })
              { c with nodeFlow := Function.update c.nodeFlow iN (if iN < net.numZones then net.demand origin iN else 0) }).flow a := by
        refine sC a ?_
        rw [hheada]
        exact hiN_notP
      have h2 := bmem a ha
      have h3 : dialFlowValue
          { c with nodeFlow := Function.update c.nodeFlow iN (if iN < net.numZones then net.demand origin iN else 0) } iN a
          = if c.nodeWeight iN = 0 then 0
            else (Function.update c.nodeFlow iN (if iN < net.numZones then net.demand origin iN else 0) iN) * (c.weight a / c.nodeWeight iN).toReal := rfl
      rw [h1, h2, h3, Function.update_same, ← hFnfiN]

theorem list_sum_coe (l : List ℕ) (f : ℕ → EReal)
    (h : ∀ a ∈ l, f a = (((f a).toReal : ℝ) : EReal)) :
    (l.map f).sum = (((l.map (fun a => (f a).toReal)).sum : ℝ) : EReal) := by
  induction l with
  | nil => simp
  | cons a t ih =>
    rw [List.map_cons, List.sum_cons, List.map_cons, List.sum_cons, EReal.coe_add,
      ih (fun x hx => h x (List.mem_cons_of_mem a hx)), ← h a (List.mem_cons_self a t)]

/-- Per-origin conservation of the Dial flows on a well-formed bush whose
weights are finite and consistent with the node weights, and whose
zero-weight nodes carry no demand: every non-origin node's inflow minus
outflow equals its demand, and the origin's outflow equals the total
demand over the other zones. -/
theorem dial_conservation (net : Network) (c : Bushes) (origin : ℕ) (B : Finset ℕ)
    (F : Bushes) (hFeq : F = computeFlows net c origin)
    (wf : BushWF net c origin B)
    (hfin : ∀ a ∈ B, ∃ r : ℝ, c.weight a = (r : EReal))
    (hsum : ∀ i ∈ (c.bushOrder origin).drop 1,
      c.nodeWeight i = ((c.bushReverseStar origin i).map c.weight).sum)
    (hzero : ∀ a ∈ B, c.nodeWeight ((net.arcs a).tail) = 0 → c.weight a = 0)
    (hdemz : ∀ i ∈ (c.bushOrder origin).drop 1, c.nodeWeight i = 0 →
      (if i < net.numZones then net.demand origin i else 0) = 0) :
    (∀ i ∈ (c.bushOrder origin).drop 1,
      ((c.bushReverseStar origin i).map F.flow).sum
        - ((c.bushForwardStar origin i).map F.flow).sum
      = (if i < net.numZones then net.demand origin i else 0))
    ∧ ((c.bushForwardStar origin origin).map F.flow).sum
        - ((c.bushReverseStar origin origin).map F.flow).sum
      = ∑ j ∈ (Finset.range net.numZones).erase origin, net.demand origin j := by
  obtain ⟨_, hD, hE⟩ := computeFlows_eval net c origin B wf
  rw [← hFeq] at hD hE
  have hdrop_ord : ∀ i ∈ (c.bushOrder origin).drop 1, i ∈ c.bushOrder origin :=
    fun i hi => List.mem_of_mem_drop hi
  have horigmemord : origin ∈ c.bushOrder origin := by
    rw [ord_eq_cons wf.ordHead]
    exact List.mem_cons_self _ _
  have hflow0 : ∀ a ∈ B, c.weight a = 0 → F.flow a = 0 := by
    intro a haB hw0
    have hhead_drop := wf.headInDrop haB
    have harev : a ∈ c.bushReverseStar origin ((net.arcs a).head) :=
      (wf.stars.revMem _ a).mpr ⟨haB, rfl⟩
    have h1 := hE _ (hdrop_ord _ hhead_drop) a harev
    by_cases hnw : c.nodeWeight ((net.arcs a).head) = 0
    · rw [h1, if_pos hnw]
    · rw [h1, if_neg hnw, hw0, EReal.zero_div, EReal.toReal_zero, mul_zero]
  have hfwd0 : ∀ i, c.nodeWeight i = 0 → ∀ a ∈ c.bushForwardStar origin i, F.flow a = 0 := by
    intro i hnw a ha
    obtain ⟨haB, htl⟩ := (wf.stars.fwdMem i a).mp ha
    refine hflow0 a haB (hzero a haB ?_)
    rw [htl]
    exact hnw
  have hrevflow : ∀ i ∈ (c.bushOrder origin).drop 1,
      ((c.bushReverseStar origin i).map F.flow).sum = F.nodeFlow i := by
    intro i hi
    by_cases hnw : c.nodeWeight i = 0
    · have hrz : ((c.bushReverseStar origin i).map F.flow).sum = 0 := by
        refine List.sum_eq_zero ?_
        intro x hx
        obtain ⟨a, ha, hax⟩ := List.mem_map.mp hx
        rw [← hax, hE i (hdrop_ord i hi) a ha, if_pos hnw]
      have hfz : ((c.bushForwardStar origin i).map F.flow).sum = 0 := by
        refine List.sum_eq_zero ?_
        intro x hx
        obtain ⟨a, ha, hax⟩ := List.mem_map.mp hx
        rw [← hax]
        exact hfwd0 i hnw a ha
      rw [hrz, hD i (hdrop_ord i hi), hfz, hdemz i hi hnw, add_zero]
    · have hfinrev : ∀ a ∈ c.bushReverseStar origin i,
          c.weight a = (((c.weight a).toReal : ℝ) : EReal) := by
        intro a ha
        obtain ⟨r, hr⟩ := hfin a ((wf.stars.revMem i a).mp ha).1
        rw [hr, EReal.toReal_coe]
      have hnwcoe : c.nodeWeight i
          = ((((c.bushReverseStar origin i).map (fun a => (c.weight a).toReal)).sum : ℝ) : EReal) := by
        rw [hsum i hi]
        exact list_sum_coe _ _ hfinrev
      have hS0 : ((c.bushReverseStar origin i).map (fun a => (c.weight a).toReal)).sum ≠ 0 := by
        intro hc
        rw [hnwcoe, hc] at hnw
        exact hnw (by norm_cast)
      have hterm : ∀ a ∈ c.bushReverseStar origin i,
          F.flow a = F.nodeFlow i * ((c.weight a).toReal
            / ((c.bushReverseStar origin i).map (fun a => (c.weight a).toReal)).sum) := by
        intro a ha
        rw [hE i (hdrop_ord i hi) a ha, if_neg hnw, hfinrev a ha, hnwcoe, ← EReal.coe_div,
          EReal.toReal_coe, EReal.toReal_coe]
      calc ((c.bushReverseStar origin i).map F.flow).sum
          = ((c.bushReverseStar origin i).map (fun a => F.nodeFlow i * ((c.weight a).toReal
              / ((c.bushReverseStar origin i).map (fun a => (c.weight a).toReal)).sum))).sum :=
            congrArg List.sum (List.map_congr_left hterm)
        _ = F.nodeFlow i * ((c.bushReverseStar origin i).map (fun a => (c.weight a).toReal
              / ((c.bushReverseStar origin i).map (fun a => (c.weight a).toReal)).sum)).sum :=
            List.sum_map_mul_left _ _ _
        _ = F.nodeFlow i * (((c.bushReverseStar origin i).map (fun a => (c.weight a).toReal)).sum
              * (((c.bushReverseStar origin i).map (fun a => (c.weight a).toReal)).sum)⁻¹) := by
            rw [show (fun a => (c.weight a).toReal
                / ((c.bushReverseStar origin i).map (fun a => (c.weight a).toReal)).sum)
              = (fun a => (c.weight a).toReal
                * (((c.bushReverseStar origin i).map (fun a => (c.weight a).toReal)).sum)⁻¹)
              from funext (fun a => div_eq_mul_inv _ _), List.sum_map_mul_right]
        _ = F.nodeFlow i := by
            rw [mul_inv_cancel₀ hS0, mul_one]
  have hcons1 : ∀ i ∈ (c.bushOrder origin).drop 1,
      ((c.bushReverseStar origin i).map F.flow).sum
        - ((c.bushForwardStar origin i).map F.flow).sum
      = (if i < net.numZones then net.demand origin i else 0) := by
    intro i hi
    rw [hrevflow i hi, hD i (hdrop_ord i hi)]
    ring
  refine ⟨hcons1, ?_⟩
  have hrev_origin : c.bushReverseStar origin origin = [] := by
    rw [List.eq_nil_iff_forall_not_mem]
    intro a ha
    obtain ⟨haB, hhd⟩ := (wf.stars.revMem origin a).mp ha
    have htopo := wf.topo a haB
    rw [hhd] at htopo
    have h0 : (c.bushOrder origin).indexOf origin = 0 := by
      rw [ord_eq_cons wf.ordHead, List.indexOf_cons_self]
    omega
  have horig_lt : origin < net.numNodes := by
    have h1 := horigmemord
    rw [wf.ordPerm.mem_iff, List.mem_range] at h1
    exact h1
  have hfibrev : ∑ i ∈ Finset.range net.numNodes,
      ((c.bushReverseStar origin i).map F.flow).sum = ∑ a ∈ B, F.flow a := by
    have hBeq : (Finset.range net.numNodes).biUnion
        (fun i => (c.bushReverseStar origin i).toFinset) = B := by
      ext a
      simp only [Finset.mem_biUnion, List.mem_toFinset, Finset.mem_range]
      constructor
      · rintro ⟨i, _, ha⟩
        exact ((wf.stars.revMem i a).mp ha).1
      · intro haB
        exact ⟨(net.arcs a).head, (wf.arcsValid a (wf.stars.bSub a haB)).2,
          (wf.stars.revMem _ a).mpr ⟨haB, rfl⟩⟩
    have hdisj : Set.PairwiseDisjoint (↑(Finset.range net.numNodes))
        (fun i => (c.bushReverseStar origin i).toFinset) := by
      intro x _ y _ hxy
      refine Finset.disjoint_left.mpr ?_
      intro a hax hay
      rw [List.mem_toFinset] at hax hay
      exact hxy (((wf.stars.revMem x a).mp hax).2.symm.trans ((wf.stars.revMem y a).mp hay).2)
    rw [← hBeq, Finset.sum_biUnion hdisj]
    refine Finset.sum_congr rfl ?_
    intro i _
    exact (List.sum_toFinset _ (wf.stars.revNodup i)).symm
  have hfibfwd : ∑ i ∈ Finset.range net.numNodes,
      ((c.bushForwardStar origin i).map F.flow).sum = ∑ a ∈ B, F.flow a := by
    have hBeq : (Finset.range net.numNodes).biUnion
        (fun i => (c.bushForwardStar origin i).toFinset) = B := by
      ext a
      simp only [Finset.mem_biUnion, List.mem_toFinset, Finset.mem_range]
      constructor
      · rintro ⟨i, _, ha⟩
        exact ((wf.stars.fwdMem i a).mp ha).1
      · intro haB
        exact ⟨(net.arcs a).tail, (wf.arcsValid a (wf.stars.bSub a haB)).1,
          (wf.stars.fwdMem _ a).mpr ⟨haB, rfl⟩⟩
    have hdisj : Set.PairwiseDisjoint (↑(Finset.range net.numNodes))
        (fun i => (c.bushForwardStar origin i).toFinset) := by
      intro x _ y _ hxy
      refine Finset.disjoint_left.mpr ?_
      intro a hax hay
      rw [List.mem_toFinset] at hax hay
      exact hxy (((wf.stars.fwdMem x a).mp hax).2.symm.trans ((wf.stars.fwdMem y a).mp hay).2)
    rw [← hBeq, Finset.sum_biUnion hdisj]
    refine Finset.sum_congr rfl ?_
    intro i _
    exact (List.sum_toFinset _ (wf.stars.fwdNodup i)).symm
  have hglobal : ∑ i ∈ Finset.range net.numNodes,
      (((c.bushReverseStar origin i).map F.flow).sum
        - ((c.bushForwardStar origin i).map F.flow).sum) = 0 := by
    rw [Finset.sum_sub_distrib, hfibrev, hfibfwd, sub_self]
  have hA := Finset.add_sum_erase (Finset.range net.numNodes)
    (fun i => ((c.bushReverseStar origin i).map F.flow).sum
      - ((c.bushForwardStar origin i).map F.flow).sum)
    (Finset.mem_range.mpr horig_lt)
  rw [hglobal] at hA
  have herase : ∑ i ∈ (Finset.range net.numNodes).erase origin,
      (((c.bushReverseStar origin i).map F.flow).sum
        - ((c.bushForwardStar origin i).map F.flow).sum)
      = ∑ i ∈ (Finset.range net.numNodes).erase origin,
          (if i < net.numZones then net.demand origin i else 0) := by
    refine Finset.sum_congr rfl ?_
    intro i hi
    obtain ⟨hne, hmem⟩ := Finset.mem_erase.mp hi
    have hiord : i ∈ c.bushOrder origin := by
      rw [wf.ordPerm.mem_iff]
      exact List.mem_range.mpr (Finset.mem_range.mp hmem)
    have hidrop : i ∈ (c.bushOrder origin).drop 1 := by
      rw [ord_eq_cons wf.ordHead] at hiord
      rcases List.mem_cons.mp hiord with h | h
      · exact absurd h hne
      · exact h
    exact hcons1 i hidrop
  have hdemeq : ∑ i ∈ (Finset.range net.numNodes).erase origin,
      (if i < net.numZones then net.demand origin i else 0)
      = ∑ j ∈ (Finset.range net.numZones).erase origin, net.demand origin j := by
    rw [← Finset.sum_filter]
    refine Finset.sum_congr ?_ (fun _ _ => rfl)
    ext j
    simp only [Finset.mem_filter, Finset.mem_erase, Finset.mem_range]
    have hZ := wf.zonesLe
    constructor
    · intro h
      exact ⟨h.1.1, h.2⟩
    · intro h
      exact ⟨⟨h.1, by omega⟩, h.2⟩
  rw [herase, hdemeq] at hA
  have hA2 : ((c.bushReverseStar origin origin).map F.flow).sum
      - ((c.bushForwardStar origin origin).map F.flow).sum
      + ∑ j ∈ (Finset.range net.numZones).erase origin, net.demand origin j = 0 := hA
  rw [hrev_origin, List.map_nil, List.sum_nil] at hA2
  rw [hrev_origin, List.map_nil, List.sum_nil]
  linarith

/-! ### Composition of the Dial pipeline for conservation -/

theorem BushWF.congr {net : Network} {b : Bushes} {origin : ℕ} {B : Finset ℕ}
    (wf : BushWF net b origin B) {b2 : Bushes}
    (hord : b2.bushOrder origin = b.bushOrder origin)
    (hfwd : b2.bushForwardStar origin = b.bushForwardStar origin)
    (hrev : b2.bushReverseStar origin = b.bushReverseStar origin) :
    BushWF net b2 origin B := by
  refine ⟨wf.arcsValid, wf.zonesLe, ?_, ?_, ?_, ?_⟩
  · rw [hfwd, hrev]
    exact wf.stars
  · rw [hord]
    exact wf.ordPerm
  · rw [hord]
    exact wf.ordHead
  · rw [hord]
    exact wf.topo

theorem foldl_min_top (f : ℕ → EReal) :
    ∀ l : List ℕ, (∀ a ∈ l, f a = ⊤) →
      l.foldl (fun acc a => min acc (f a)) (⊤ : EReal) = ⊤ := by
  intro l
  induction l with
  | nil => intro _; rfl
  | cons a t ih =>
    intro h
    rw [List.foldl_cons, h a (List.mem_cons_self a t), min_self]
    exact ih (fun x hx => h x (List.mem_cons_of_mem a hx))

theorem foldl_min_ne_top_exists (f : ℕ → EReal) (l : List ℕ)
    (h : l.foldl (fun acc a => min acc (f a)) (⊤ : EReal) ≠ ⊤) :
    ∃ a ∈ l, f a ≠ ⊤ := by
  by_contra hc
  push_neg at hc
  exact h (foldl_min_top f l hc)

/-- Likelihood of a bush arc after steps 0 and 1 of `dialFlows`: a real in
`[0, 1]`, and strictly positive when the arc's tail is reached. -/
theorem likelihood_bush_facts (net : Network) (b : Bushes) (origin : ℕ)
    (B : Finset ℕ) (theta : ℝ) (wf : BushWF net b origin B)
    (hbot : ∀ i, b.SPcost i ≠ ⊥) (htheta : 0 < theta) :
    ∀ a ∈ B,
      (∃ r : ℝ, 0 ≤ r ∧ r ≤ 1 ∧
        (computeLikelihoods net (bushShortestPath net b origin) theta).likelihood a
          = (r : EReal))
      ∧ ((bushShortestPath net b origin).SPcost ((net.arcs a).tail) ≠ ⊤ →
          0 < (computeLikelihoods net (bushShortestPath net b origin) theta).likelihood a) := by
  intro a haB
  have hija : a < net.numArcs := wf.stars.bSub a haB
  obtain ⟨_, hlike⟩ := computeLikelihoods_spec net (bushShortestPath net b origin) theta a hija
  by_cases htail : (bushShortestPath net b origin).SPcost ((net.arcs a).tail) = ⊤
  · refine ⟨⟨0, le_refl 0, zero_le_one, ?_⟩, fun hc => absurd htail hc⟩
    rw [hlike, likelihoodValue, if_pos htail]
    exact EReal.coe_zero.symm
  · have hnb := bushSP_ne_bot net b origin B wf hbot
    have hle := (bushSP_eval net b origin B wf).2.2.2 a haB
    obtain ⟨lt, hltc, _⟩ := exists_coe_of_le_coe (hnb ((net.arcs a).tail))
      (le_of_eq (EReal.coe_toReal htail (hnb _)).symm)
    have hlecand : (bushShortestPath net b origin).SPcost ((net.arcs a).head)
        ≤ ((lt + (net.arcs a).cost : ℝ) : EReal) := by
      rw [EReal.coe_add]
      rw [spCand, hltc] at hle
      exact hle
    obtain ⟨lh, hlhc, hlh_le⟩ := exists_coe_of_le_coe (hnb ((net.arcs a).head)) hlecand
    have hdelta : (bushShortestPath net b origin).SPcost ((net.arcs a).head)
        - (bushShortestPath net b origin).SPcost ((net.arcs a).tail)
        - ((net.arcs a).cost : EReal) = ((lh - lt - (net.arcs a).cost : ℝ) : EReal) := by
      rw [hlhc, hltc, ← EReal.coe_sub, ← EReal.coe_sub]
    have hform : (computeLikelihoods net (bushShortestPath net b origin) theta).likelihood a
        = ((Real.exp (theta * (lh - lt - (net.arcs a).cost)) : ℝ) : EReal) := by
      rw [hlike, likelihoodValue, if_neg htail, hdelta, ← EReal.coe_mul, expE_coe]
    have hdle : lh - lt - (net.arcs a).cost ≤ 0 := by linarith
    refine ⟨⟨Real.exp (theta * (lh - lt - (net.arcs a).cost)),
      le_of_lt (Real.exp_pos _), ?_, hform⟩, ?_⟩
    · exact Real.exp_le_one_iff.mpr
        (mul_nonpos_of_nonneg_of_nonpos (le_of_lt htheta) hdle)
    · intro _
      rw [hform, show (0 : EReal) = ((0 : ℝ) : EReal) from rfl, EReal.coe_lt_coe_iff]
      exact Real.exp_pos _

/-- Node weights computed by step 2 of `dialFlows` are nonnegative reals,
and strictly positive at reached nodes. -/
theorem computeWeights_nw_facts (net : Network) (b : Bushes) (origin : ℕ)
    (B : Finset ℕ) (theta : ℝ) (wf : BushWF net b origin B)
    (hbot : ∀ i, b.SPcost i ≠ ⊥) (htheta : 0 < theta)
    (CL : Bushes)
    (hCL : CL = computeLikelihoods net (bushShortestPath net b origin) theta)
    (wfCL : BushWF net CL origin B)
    (hCLord : CL.bushOrder origin = b.bushOrder origin)
    (hCLrev : CL.bushReverseStar origin = b.bushReverseStar origin) :
    ∀ j ∈ b.bushOrder origin,
      (∃ r : ℝ, 0 ≤ r ∧ (computeWeights net CL origin).nodeWeight j = (r : EReal))
      ∧ ((bushShortestPath net b origin).SPcost j ≠ ⊤ →
          0 < (computeWeights net CL origin).nodeWeight j) := by
  obtain ⟨⟨hWlike, _, _, _⟩, hWnw1, hWsum, hWprod⟩ := computeWeights_eval net CL origin B wfCL
  rw [hCLord] at hWsum
  have hWsum2 : ∀ i ∈ (b.bushOrder origin).drop 1,
      (computeWeights net CL origin).nodeWeight i
        = ((b.bushReverseStar origin i).map (computeWeights net CL origin).weight).sum := by
    intro i hi
    have h1 := hWsum i hi
    rw [hCLrev] at h1
    exact h1
  have hlf := likelihood_bush_facts net b origin B theta wf hbot htheta
  suffices h : ∀ n j, (b.bushOrder origin).indexOf j = n → j ∈ b.bushOrder origin →
      (∃ r : ℝ, 0 ≤ r ∧ (computeWeights net CL origin).nodeWeight j = (r : EReal))
      ∧ ((bushShortestPath net b origin).SPcost j ≠ ⊤ →
          0 < (computeWeights net CL origin).nodeWeight j) by
    exact fun j hj => h _ j rfl hj
  intro n
  induction n using Nat.strong_induction_on with
  | _ n ih =>
    intro j hjn hjmem
    rw [ord_eq_cons wf.ordHead] at hjmem
    rcases List.mem_cons.mp hjmem with hjo | hjd
    · subst hjo
      constructor
      · refine ⟨1, zero_le_one, ?_⟩
        rw [hWnw1]
        exact EReal.coe_one.symm
      · intro _
        rw [hWnw1, show (1 : EReal) = ((1 : ℝ) : EReal) from rfl,
          show (0 : EReal) = ((0 : ℝ) : EReal) from rfl, EReal.coe_lt_coe_iff]
        norm_num
    · have hjsum := hWsum2 j hjd
      have harc : ∀ a ∈ b.bushReverseStar origin j, ∃ w : ℝ, 0 ≤ w ∧
          (computeWeights net CL origin).weight a = (w : EReal) := by
        intro a ha
        obtain ⟨haB, hhd⟩ := (wf.stars.revMem j a).mp ha
        have htmem : (net.arcs a).tail ∈ b.bushOrder origin := by
          rw [wf.ordPerm.mem_iff]
          exact List.mem_range.mpr (wf.arcsValid a (wf.stars.bSub a haB)).1
        have htidx : (b.bushOrder origin).indexOf ((net.arcs a).tail) < n := by
          have h1 := wf.revIndexOf j a ha
          rw [hjn] at h1
          exact h1
        obtain ⟨⟨rt, hrt0, hrtc⟩, _⟩ := ih _ htidx _ rfl htmem
        obtain ⟨⟨rl, hrl0, _, hrlc⟩, _⟩ := hlf a haB
        refine ⟨rt * rl, mul_nonneg hrt0 hrl0, ?_⟩
        rw [hWprod a haB, hrtc, congrFun hWlike a, hCL, hrlc, ← EReal.coe_mul]
      constructor
      · have hfinrev : ∀ a ∈ b.bushReverseStar origin j,
            (computeWeights net CL origin).weight a
              = ((((computeWeights net CL origin).weight a).toReal : ℝ) : EReal) := by
          intro a ha
          obtain ⟨w, _, hw⟩ := harc a ha
          rw [hw, EReal.toReal_coe]
        refine ⟨((b.bushReverseStar origin j).map
            (fun a => ((computeWeights net CL origin).weight a).toReal)).sum, ?_, ?_⟩
        · refine List.sum_nonneg ?_
          intro x hx
          obtain ⟨a, ha, hax⟩ := List.mem_map.mp hx
          obtain ⟨w, hw0, hw⟩ := harc a ha
          rw [← hax, hw, EReal.toReal_coe]
          exact hw0
        · rw [hjsum]
          exact list_sum_coe _ _ hfinrev
      · intro hjtop
        have hfix := (bushSP_eval net b origin B wf).2.2.1 j hjd
        have hjne : ((b.bushReverseStar origin j).foldl
            (fun acc a => min acc (spCand net (bushShortestPath net b origin).SPcost a)) ⊤) ≠ ⊤ := by
          rw [← hfix]
          exact hjtop
        obtain ⟨a, ha, hcand⟩ := foldl_min_ne_top_exists _ _ hjne
        obtain ⟨haB, hhd⟩ := (wf.stars.revMem j a).mp ha
        have httop : (bushShortestPath net b origin).SPcost ((net.arcs a).tail) ≠ ⊤ := by
          intro hc
          rw [spCand, hc] at hcand
          exact hcand (EReal.top_add_coe _)
        have htmem : (net.arcs a).tail ∈ b.bushOrder origin := by
          rw [wf.ordPerm.mem_iff]
          exact List.mem_range.mpr (wf.arcsValid a (wf.stars.bSub a haB)).1
        have htidx : (b.bushOrder origin).indexOf ((net.arcs a).tail) < n := by
          have h1 := wf.revIndexOf j a ha
          rw [hjn] at h1
          exact h1
        obtain ⟨⟨rt, hrt0, hrtc⟩, hpos⟩ := ih _ htidx _ rfl htmem
        have hrtpos : (0 : ℝ) < rt := by
          have h1 := hpos httop
          rw [hrtc, show (0 : EReal) = ((0 : ℝ) : EReal) from rfl,
            EReal.coe_lt_coe_iff] at h1
          exact h1
        obtain ⟨⟨rl, hrl0, _, hrlc⟩, hlpos⟩ := hlf a haB
        have hrlpos : (0 : ℝ) < rl := by
          have h1 := hlpos httop
          rw [hrlc, show (0 : EReal) = ((0 : ℝ) : EReal) from rfl,
            EReal.coe_lt_coe_iff] at h1
          exact h1
        have hwpos : (0 : EReal) < (computeWeights net CL origin).weight a := by
          rw [hWprod a haB, hrtc, congrFun hWlike a, hCL, hrlc, ← EReal.coe_mul,
            show (0 : EReal) = ((0 : ℝ) : EReal) from rfl, EReal.coe_lt_coe_iff]
          exact mul_pos hrtpos hrlpos
        have hwle : (computeWeights net CL origin).weight a
            ≤ ((b.bushReverseStar origin j).map (computeWeights net CL origin).weight).sum := by
          refine List.single_le_sum ?_ _ (List.mem_map_of_mem _ ha)
          intro x hx
          obtain ⟨a2, ha2, hax⟩ := List.mem_map.mp hx
          obtain ⟨w, hw0, hw⟩ := harc a2 ha2
          rw [← hax, hw, show (0 : EReal) = ((0 : ℝ) : EReal) from rfl]
          exact EReal.coe_le_coe_iff.mpr hw0
        rw [hjsum]
        exact lt_of_lt_of_le hwpos hwle

/-- C2 (amended): after `dialFlows` for origin `r` over a well-formed bush
with junk-free labels, positive `theta`, and every in-demand zone reached
in the bush, the scratch flows conserve flow: at every non-origin node,
inflow minus outflow equals the node's demand (zero beyond the zones), and
at the origin, outflow minus inflow equals the total demand to the other
zones.  The original claim has no reachability proviso;
`C2_counterexample` exhibits its failure at an unreached in-demand zone. -/
theorem C2_dial_conservation (net : Network) (b : Bushes) (origin : ℕ)
    (B : Finset ℕ) (theta : ℝ) (CL CW : Bushes)
    (hCLd : CL = computeLikelihoods net (bushShortestPath net b origin) theta)
    (hCWd : CW = computeWeights net CL origin)
    (wf : BushWF net b origin B)
    (hbot : ∀ i, b.SPcost i ≠ ⊥) (htheta : 0 < theta)
    (hconn : ∀ j, j < net.numZones → net.demand origin j ≠ 0 →
      (bushShortestPath net b origin).SPcost j ≠ ⊤) :
    (∀ i ∈ (b.bushOrder origin).drop 1,
      ((b.bushReverseStar origin i).map (dialFlows net b origin theta).2.flow).sum
        - ((b.bushForwardStar origin i).map (dialFlows net b origin theta).2.flow).sum
      = (if i < net.numZones then net.demand origin i else 0))
    ∧ ((b.bushForwardStar origin origin).map (dialFlows net b origin theta).2.flow).sum
        - ((b.bushReverseStar origin origin).map (dialFlows net b origin theta).2.flow).sum
      = ∑ j ∈ (Finset.range net.numZones).erase origin, net.demand origin j := by
  obtain ⟨p1, p2, p3, _, _⟩ := computeLikelihoods_persistent net
    (bushShortestPath net b origin) theta
  obtain ⟨w1, w2, w3, _, _⟩ := computeWeights_persistent net CL origin
  have hCLord : CL.bushOrder origin = b.bushOrder origin := by
    rw [hCLd]
    exact congrFun p1 origin
  have hCLfwd : CL.bushForwardStar origin = b.bushForwardStar origin := by
    rw [hCLd]
    exact congrFun p2 origin
  have hCLrev : CL.bushReverseStar origin = b.bushReverseStar origin := by
    rw [hCLd]
    exact congrFun p3 origin
  have hCWord : CW.bushOrder origin = b.bushOrder origin := by
    rw [hCWd]
    exact (congrFun w1 origin).trans hCLord
  have hCWfwd : CW.bushForwardStar origin = b.bushForwardStar origin := by
    rw [hCWd]
    exact (congrFun w2 origin).trans hCLfwd
  have hCWrev : CW.bushReverseStar origin = b.bushReverseStar origin := by
    rw [hCWd]
    exact (congrFun w3 origin).trans hCLrev
  have wfCL : BushWF net CL origin B := wf.congr hCLord hCLfwd hCLrev
  have wfCW : BushWF net CW origin B := wf.congr hCWord hCWfwd hCWrev
  obtain ⟨⟨hWlike, _, _, _⟩, hWnw1, hWsum, hWprod⟩ := computeWeights_eval net CL origin B wfCL
  rw [← hCWd] at hWlike hWnw1 hWsum hWprod
  have hnwf := computeWeights_nw_facts net b origin B theta wf hbot htheta CL hCLd wfCL
    hCLord hCLrev
  rw [← hCWd] at hnwf
  have hlf := likelihood_bush_facts net b origin B theta wf hbot htheta
  rw [← hCLd] at hlf
  have hfinCW : ∀ a ∈ B, ∃ r : ℝ, CW.weight a = (r : EReal) := by
    intro a haB
    have htmem : (net.arcs a).tail ∈ b.bushOrder origin := by
      rw [wf.ordPerm.mem_iff]
      exact List.mem_range.mpr (wf.arcsValid a (wf.stars.bSub a haB)).1
    obtain ⟨⟨rt, _, hrtc⟩, _⟩ := hnwf _ htmem
    obtain ⟨⟨rl, _, _, hrlc⟩, _⟩ := hlf a haB
    refine ⟨rt * rl, ?_⟩
    rw [hWprod a haB, hrtc, congrFun hWlike a, hrlc, ← EReal.coe_mul]
  have hsumCW : ∀ i ∈ (CW.bushOrder origin).drop 1,
      CW.nodeWeight i = ((CW.bushReverseStar origin i).map CW.weight).sum := by
    intro i hi
    rw [hCWord] at hi
    have hi2 : i ∈ (CL.bushOrder origin).drop 1 := by
      rw [hCLord]
      exact hi
    have h1 := hWsum i hi2
    rw [congrFun hCLrev i] at h1
    rw [congrFun hCWrev i]
    exact h1
  have hzeroCW : ∀ a ∈ B, CW.nodeWeight ((net.arcs a).tail) = 0 → CW.weight a = 0 := by
    intro a haB h0
    rw [hWprod a haB, h0, zero_mul]
  have hdemzCW : ∀ i ∈ (CW.bushOrder origin).drop 1, CW.nodeWeight i = 0 →
      (if i < net.numZones then net.demand origin i else 0) = 0 := by
    intro i hi h0
    rw [hCWord] at hi
    by_cases hiZ : i < net.numZones
    · rw [if_pos hiZ]
      by_contra hd
      have htop := hconn i hiZ hd
      have hpos := (hnwf i (List.mem_of_mem_drop hi)).2 htop
      rw [h0] at hpos
      exact lt_irrefl 0 hpos
    · rw [if_neg hiZ]
  have hFeq : (dialFlows net b origin theta).2 = computeFlows net CW origin := by
    rw [hCWd, hCLd]
    rfl
  obtain ⟨hc1, hc2⟩ := dial_conservation net CW origin B (dialFlows net b origin theta).2
    hFeq wfCW hfinCW hsumCW hzeroCW hdemzCW
  constructor
  · intro i hi
    have hi2 : i ∈ (CW.bushOrder origin).drop 1 := by
      rw [hCWord]
      exact hi
    have h1 := hc1 i hi2
    rw [congrFun hCWrev i, congrFun hCWfwd i] at h1
    exact h1
  · have h2 := hc2
    rw [congrFun hCWrev origin, congrFun hCWfwd origin] at h2
    exact h2

/-- Well-formedness of the trivial bush of the one-node network. -/
theorem unitBushes_wf : BushWF net1 unitBushes 0 ∅ := by
  refine ⟨?_, le_refl _, ⟨?_, ?_, ?_, ?_, ?_⟩, ?_, rfl, ?_⟩
  · intro ij hij
    exact absurd hij (Nat.not_lt_zero ij)
  · intro a ha
    exact absurd ha (Finset.not_mem_empty a)
  · intro i a
    constructor
    · intro h
      exact absurd h (List.not_mem_nil a)
    · intro h
      exact absurd h.1 (Finset.not_mem_empty a)
  · intro i a
    constructor
    · intro h
      exact absurd h (List.not_mem_nil a)
    · intro h
      exact absurd h.1 (Finset.not_mem_empty a)
  · intro i
    exact List.nodup_nil
  · intro i
    exact List.nodup_nil
  · show List.Perm [0] (List.range net1.numNodes)
    rw [show List.range net1.numNodes = [0] by rw [show net1.numNodes = 1 from rfl]; rfl]
  · intro a ha
    exact absurd ha (Finset.not_mem_empty a)

/-- Witness for `C2_dial_conservation`: on the one-node network with its
trivial bush, every hypothesis holds and Dial conserves flow. -/
theorem C2_dial_conservation_witness :
    BushWF net1 unitBushes 0 ∅ ∧ (∀ i, unitBushes.SPcost i ≠ ⊥) ∧ (0 : ℝ) < 1 ∧
    ((∀ i ∈ (unitBushes.bushOrder 0).drop 1,
      ((unitBushes.bushReverseStar 0 i).map (dialFlows net1 unitBushes 0 1).2.flow).sum
        - ((unitBushes.bushForwardStar 0 i).map (dialFlows net1 unitBushes 0 1).2.flow).sum
      = (if i < net1.numZones then net1.demand 0 i else 0))
    ∧ ((unitBushes.bushForwardStar 0 0).map (dialFlows net1 unitBushes 0 1).2.flow).sum
        - ((unitBushes.bushReverseStar 0 0).map (dialFlows net1 unitBushes 0 1).2.flow).sum
      = ∑ j ∈ (Finset.range net1.numZones).erase 0, net1.demand 0 j) :=
  ⟨unitBushes_wf, fun _ => EReal.zero_ne_bot, one_pos,
    C2_dial_conservation net1 unitBushes 0 ∅ 1
      (computeLikelihoods net1 (bushShortestPath net1 unitBushes 0) 1)
      (computeWeights net1 (computeLikelihoods net1 (bushShortestPath net1 unitBushes 0) 1) 0)
      rfl rfl unitBushes_wf (fun _ => EReal.zero_ne_bot) one_pos
      (fun _ _ hd => absurd rfl hd)⟩

/-- Witness for `C7_likelihood_reset` on the one-node network. -/
theorem C7_likelihood_reset_witness :
    BushWF net1 unitBushes 0 ∅ ∧ (∀ i, unitBushes.SPcost i ≠ ⊥) ∧ (0 : ℝ) < 1 ∧
    (∀ ij, ij < net1.numArcs →
      ((computeLikelihoods net1 (bushShortestPath net1 unitBushes 0) 1).flow ij = 0) ∧
      ((computeLikelihoods net1 (bushShortestPath net1 unitBushes 0) 1).likelihood ij
        = (if (bushShortestPath net1 unitBushes 0).SPcost ((net1.arcs ij).tail) = ⊤ then 0
           else expE (((1 : ℝ) : EReal) *
             ((bushShortestPath net1 unitBushes 0).SPcost ((net1.arcs ij).head)
               - (bushShortestPath net1 unitBushes 0).SPcost ((net1.arcs ij).tail)
               - ((net1.arcs ij).cost : EReal))))) ∧
      ((bushShortestPath net1 unitBushes 0).SPcost ((net1.arcs ij).tail) = ⊤ →
        (computeLikelihoods net1 (bushShortestPath net1 unitBushes 0) 1).likelihood ij = 0) ∧
      ((computeLikelihoods net1 (bushShortestPath net1 unitBushes 0) 1).likelihood ij ≠ ⊥) ∧
      ((bushShortestPath net1 unitBushes 0).SPcost ((net1.arcs ij).tail) ≠ ⊤ →
        ((1 : ℝ) : EReal) * ((bushShortestPath net1 unitBushes 0).SPcost ((net1.arcs ij).head)
          - (bushShortestPath net1 unitBushes 0).SPcost ((net1.arcs ij).tail)
          - ((net1.arcs ij).cost : EReal)) ≠ ⊥)) :=
  ⟨unitBushes_wf, fun _ => EReal.zero_ne_bot, one_pos,
    C7_likelihood_reset net1 unitBushes 0 ∅ 1 unitBushes_wf
      (fun _ => EReal.zero_ne_bot) one_pos⟩

/-- Witness for `C8_likelihood_bush_bound` on the one-node network. -/
theorem C8_likelihood_bush_bound_witness :
    BushWF net1 unitBushes 0 ∅ ∧ (∀ i, unitBushes.SPcost i ≠ ⊥) ∧ (0 : ℝ) < 1 ∧
    (∀ a ∈ (∅ : Finset ℕ),
      (computeLikelihoods net1 (bushShortestPath net1 unitBushes 0) 1).likelihood a ≤ 1 ∧
      ((computeLikelihoods net1 (bushShortestPath net1 unitBushes 0) 1).likelihood a = 1 ↔
        ((bushShortestPath net1 unitBushes 0).SPcost ((net1.arcs a).tail) ≠ ⊤ ∧
          (bushShortestPath net1 unitBushes 0).SPcost ((net1.arcs a).head)
            = (bushShortestPath net1 unitBushes 0).SPcost ((net1.arcs a).tail)
              + ((net1.arcs a).cost : EReal))) ∧
      ((bushShortestPath net1 unitBushes 0).SPcost ((net1.arcs a).tail) ≠ ⊤ →
        0 < (computeLikelihoods net1 (bushShortestPath net1 unitBushes 0) 1).likelihood a ∧
        (computeLikelihoods net1 (bushShortestPath net1 unitBushes 0) 1).likelihood a ≤ 1)) :=
  ⟨unitBushes_wf, fun _ => EReal.zero_ne_bot, one_pos,
    C8_likelihood_bush_bound net1 unitBushes 0 ∅ 1 unitBushes_wf
      (fun _ => EReal.zero_ne_bot) one_pos
      (bushShortestPath net1 unitBushes 0).SPcost
      (computeLikelihoods net1 (bushShortestPath net1 unitBushes 0) 1).likelihood rfl rfl⟩

/-! ### Concrete evaluation of the pipeline on `net2` -/

theorem net2_arcs (ij : ℕ) : net2.arcs ij = mkArc 1 0 0 := rfl

theorem net2_numNodes : net2.numNodes = 2 := rfl

theorem net2_numArcs : net2.numArcs = 1 := rfl

theorem net2_numZones : net2.numZones = 2 := rfl

theorem net2_ftn : net2.firstThroughNode = 0 := rfl

theorem net2_demand_01 : net2.demand 0 1 = 5 := by
  show (if (0 : ℕ) = 0 ∧ (1 : ℕ) = 1 then (5 : ℝ) else 0) = 5
  norm_num

theorem nodeForwardStar_net2_0 : nodeForwardStar net2 0 = [] := by
  simp [nodeForwardStar, net2, mkArc, List.range_succ, List.filter]

theorem nodeForwardStar_net2_1 : nodeForwardStar net2 1 = [0] := by
  simp [nodeForwardStar, net2, mkArc, List.range_succ, List.filter]

theorem net2_sp0 : shortestPath net2 0 0 = ((0 : ℝ) : EReal)
    ∧ shortestPath net2 0 1 = (⊤ : EReal) := by
  rw [shortestPath, shortestPathState, net2_numNodes]
  rw [show (2 : ℕ) + 1 = 3 from rfl]
  rw [show (3 : ℕ) = 2 + 1 from rfl, dijkstraLoop]
  norm_num [findMinHeap_singleton, dijkstraRelax, nodeForwardStar_net2_0,
    nodeForwardStar_net2_1, net2_arcs, net2_numNodes, net2_numArcs, net2_ftn,
    mkArc_tail, mkArc_head, mkArc_cost,
    er_add_coe, Function.update_apply, Finset.erase_singleton]
  rw [show (2 : ℕ) = 1 + 1 from rfl, dijkstraLoop]
  norm_num [Function.update_apply]

theorem net2_sp1 : shortestPath net2 1 0 = ((1 : ℝ) : EReal)
    ∧ shortestPath net2 1 1 = ((0 : ℝ) : EReal) := by
  rw [shortestPath, shortestPathState, net2_numNodes]
  rw [show (2 : ℕ) + 1 = 3 from rfl]
  rw [show (3 : ℕ) = 2 + 1 from rfl, dijkstraLoop]
  norm_num [findMinHeap_singleton, dijkstraRelax, nodeForwardStar_net2_0,
    nodeForwardStar_net2_1, net2_arcs, net2_numNodes, net2_numArcs, net2_ftn,
    mkArc_tail, mkArc_head, mkArc_cost,
    er_add_coe, Function.update_apply, Finset.erase_singleton, er_one_lt_top]
  rw [show (2 : ℕ) = 1 + 1 from rfl, dijkstraLoop]
  norm_num [findMinHeap_singleton, dijkstraRelax, nodeForwardStar_net2_0,
    nodeForwardStar_net2_1, net2_arcs, net2_numNodes, net2_numArcs, net2_ftn,
    mkArc_tail, mkArc_head, mkArc_cost,
    er_add_coe, Function.update_apply, Finset.erase_singleton]
  rw [show (1 : ℕ) = 0 + 1 from rfl, dijkstraLoop]
  norm_num [Function.update_apply]

theorem bushInsert_net2_o0 :
    bushInsertArc net2 (shortestPath net2 0)
      (some { cells := [], fwdLists := fun _ => emptyAList,
              revLists := fun _ => emptyAList, numLinks := 0 }) 0
    = some { cells := [], fwdLists := fun _ => emptyAList,
             revLists := fun _ => emptyAList, numLinks := 0 } := by
  obtain ⟨h0, h1⟩ := net2_sp0
  have hnlt : ¬ shortestPath net2 0 1 < shortestPath net2 0 0 := by
    rw [h0, h1]
    exact not_lt.mpr le_top
  rw [bushInsertArc]
  simp only [Option.bind_eq_bind, Option.some_bind, net2_arcs, mkArc_tail, mkArc_head]
  rw [if_neg hnlt]

theorem buildBushLists_net2_0 :
    buildBushLists net2 (shortestPath net2 0)
    = some { cells := [], fwdLists := fun _ => emptyAList,
             revLists := fun _ => emptyAList, numLinks := 0 } := by
  rw [buildBushLists, net2_numArcs, show List.range 1 = [0] from rfl, List.foldl_cons,
    List.foldl_nil]
  exact bushInsert_net2_o0

theorem bushInsert_net2_o1 :
    bushInsertArc net2 (shortestPath net2 1)
      (some { cells := [], fwdLists := fun _ => emptyAList,
              revLists := fun _ => emptyAList, numLinks := 0 }) 0
    = some { cells := [⟨0, none, none⟩, ⟨0, none, none⟩],
             fwdLists := Function.update (fun _ => emptyAList) 1 ⟨some 0, some 0, 1⟩,
             revLists := Function.update (fun _ => emptyAList) 0 ⟨some 1, some 1, 1⟩,
             numLinks := 1 } := by
  obtain ⟨h0, h1⟩ := net2_sp1
  have hlt : shortestPath net2 1 1 < shortestPath net2 1 0 := by
    rw [h0, h1]
    exact_mod_cast (by norm_num : (0 : ℝ) < 1)
  rw [bushInsertArc]
  simp only [Option.bind_eq_bind, Option.some_bind, net2_arcs, mkArc_tail, mkArc_head]
  rw [if_pos hlt]
  simp only [insertArcList, emptyAList, Function.update_apply]
  norm_num

theorem buildBushLists_net2_1 :
    buildBushLists net2 (shortestPath net2 1)
    = some { cells := [⟨0, none, none⟩, ⟨0, none, none⟩],
             fwdLists := Function.update (fun _ => emptyAList) 1 ⟨some 0, some 0, 1⟩,
             revLists := Function.update (fun _ => emptyAList) 0 ⟨some 1, some 1, 1⟩,
             numLinks := 1 } := by
  rw [buildBushLists, net2_numArcs, show List.range 1 = [0] from rfl, List.foldl_cons,
    List.foldl_nil]
  exact bushInsert_net2_o1

theorem buildOriginBush_net2_0 :
    buildOriginBush net2 0
    = some { fwd := Function.update (Function.update (fun _ => []) 0 []) 1 [],
             rev := Function.update (Function.update (fun _ => []) 0 []) 1 [],
             ord := [0, 1], links := 0,
             paths := countBushPaths net2 0 [0, 1]
               (Function.update (Function.update (fun _ => []) 0 []) 1 []) } := by
  rw [buildOriginBush, buildBushLists_net2_0]
  rfl

theorem buildOriginBush_net2_1 :
    buildOriginBush net2 1
    = some { fwd := Function.update (Function.update (fun _ => []) 0 []) 1 [0],
             rev := Function.update (Function.update (fun _ => []) 0 [0]) 1 [],
             ord := [1, 0], links := 1,
             paths := countBushPaths net2 1 [1, 0]
               (Function.update (Function.update (fun _ => []) 0 [0]) 1 []) } := by
  rw [buildOriginBush, buildBushLists_net2_1]
  rfl

theorem clampInitialCosts_net2 : clampInitialCosts net2 = net2 := by
  refine clampInitialCosts_eq_of net2 ?_
  intro ij hij
  norm_num [net2_arcs, mkArc]

theorem initializeBushes_net2 :
    initializeBushes net2 = some (net2,
      { SPcost := shortestPath net2 1, flow := fun _ => 0, nodeFlow := fun _ => 0,
        weight := fun _ => 0, nodeWeight := fun _ => 0, likelihood := fun _ => 0,
        bushOrder := fun r => ((Function.update (Function.update (fun _ => defaultOriginBush) 0
          { fwd := Function.update (Function.update (fun _ => []) 0 []) 1 [],
            rev := Function.update (Function.update (fun _ => []) 0 []) 1 [],
            ord := [0, 1], links := 0,
            paths := countBushPaths net2 0 [0, 1]
              (Function.update (Function.update (fun _ => []) 0 []) 1 []) }) 1
          { fwd := Function.update (Function.update (fun _ => []) 0 []) 1 [0],
            rev := Function.update (Function.update (fun _ => []) 0 [0]) 1 [],
            ord := [1, 0], links := 1,
            paths := countBushPaths net2 1 [1, 0]
              (Function.update (Function.update (fun _ => []) 0 [0]) 1 []) }) r).ord,
        bushForwardStar := fun r => ((Function.update (Function.update (fun _ => defaultOriginBush) 0
          { fwd := Function.update (Function.update (fun _ => []) 0 []) 1 [],
            rev := Function.update (Function.update (fun _ => []) 0 []) 1 [],
            ord := [0, 1], links := 0,
            paths := countBushPaths net2 0 [0, 1]
              (Function.update (Function.update (fun _ => []) 0 []) 1 []) }) 1
          { fwd := Function.update (Function.update (fun _ => []) 0 []) 1 [0],
            rev := Function.update (Function.update (fun _ => []) 0 [0]) 1 [],
            ord := [1, 0], links := 1,
            paths := countBushPaths net2 1 [1, 0]
              (Function.update (Function.update (fun _ => []) 0 [0]) 1 []) }) r).fwd,
        bushReverseStar := fun r => ((Function.update (Function.update (fun _ => defaultOriginBush) 0
          { fwd := Function.update (Function.update (fun _ => []) 0 []) 1 [],
            rev := Function.update (Function.update (fun _ => []) 0 []) 1 [],
            ord := [0, 1], links := 0,
            paths := countBushPaths net2 0 [0, 1]
              (Function.update (Function.update (fun _ => []) 0 []) 1 []) }) 1
          { fwd := Function.update (Function.update (fun _ => []) 0 []) 1 [0],
            rev := Function.update (Function.update (fun _ => []) 0 [0]) 1 [],
            ord := [1, 0], links := 1,
            paths := countBushPaths net2 1 [1, 0]
              (Function.update (Function.update (fun _ => []) 0 [0]) 1 []) }) r).rev,
        numBushLinks := fun r => ((Function.update (Function.update (fun _ => defaultOriginBush) 0
          { fwd := Function.update (Function.update (fun _ => []) 0 []) 1 [],
            rev := Function.update (Function.update (fun _ => []) 0 []) 1 [],
            ord := [0, 1], links := 0,
            paths := countBushPaths net2 0 [0, 1]
              (Function.update (Function.update (fun _ => []) 0 []) 1 []) }) 1
          { fwd := Function.update (Function.update (fun _ => []) 0 []) 1 [0],
            rev := Function.update (Function.update (fun _ => []) 0 [0]) 1 [],
            ord := [1, 0], links := 1,
            paths := countBushPaths net2 1 [1, 0]
              (Function.update (Function.update (fun _ => []) 0 [0]) 1 []) }) r).links,
        numBushPaths := fun r => ((Function.update (Function.update (fun _ => defaultOriginBush) 0
          { fwd := Function.update (Function.update (fun _ => []) 0 []) 1 [],
            rev := Function.update (Function.update (fun _ => []) 0 []) 1 [],
            ord := [0, 1], links := 0,
            paths := countBushPaths net2 0 [0, 1]
              (Function.update (Function.update (fun _ => []) 0 []) 1 []) }) 1
          { fwd := Function.update (Function.update (fun _ => []) 0 []) 1 [0],
            rev := Function.update (Function.update (fun _ => []) 0 [0]) 1 [],
            ord := [1, 0], links := 1,
            paths := countBushPaths net2 1 [1, 0]
              (Function.update (Function.update (fun _ => []) 0 [0]) 1 []) }) r).paths }) := by
  simp only [initializeBushes, clampInitialCosts_net2]
  rw [show List.range net2.numZones = [0, 1] from rfl, List.foldl_cons, List.foldl_cons,
    List.foldl_nil]
  simp only [Option.bind_eq_bind, Option.some_bind]
  rw [buildOriginBush_net2_0]
  simp only [Option.some_bind]
  rw [buildOriginBush_net2_1]
  simp only [Option.some_bind]
  rfl

theorem dial_empty_star_defect (net : Network) (b : Bushes) (origin i : ℕ) (theta : ℝ)
    (hrev : b.bushReverseStar origin i = []) (hfwd : b.bushForwardStar origin i = []) :
    (((dialFlows net b origin theta).2.bushReverseStar origin i).map
        (dialFlows net b origin theta).2.flow).sum
      - (((dialFlows net b origin theta).2.bushForwardStar origin i).map
          (dialFlows net b origin theta).2.flow).sum = 0 := by
  obtain ⟨_, _, hf, hr, _, _⟩ := dialFlows_persistent net b origin theta
  rw [congrFun (congrFun hr origin) i, congrFun (congrFun hf origin) i, hrev, hfwd]
  simp

/-- C2, counterexample: on `net2`, whose only arc runs from node 1 to
node 0, the bush of origin 0 contains no arcs, so after Dial for origin 0
the inflow minus outflow at zone 1 is 0 even though `demand[0][1] = 5`:
the conservation equation of the claim fails at an unreached in-demand
zone. -/
theorem C2_counterexample :
    ((initializeBushes net2).map (fun ib =>
        (((dialFlows ib.1 ib.2 0 1).2.bushReverseStar 0 1).map
            (dialFlows ib.1 ib.2 0 1).2.flow).sum
          - (((dialFlows ib.1 ib.2 0 1).2.bushForwardStar 0 1).map
              (dialFlows ib.1 ib.2 0 1).2.flow).sum)
      = some 0)
    ∧ net2.demand 0 1 = 5 ∧ (0 : ℝ) ≠ 5 := by
  refine ⟨?_, net2_demand_01, by norm_num⟩
  rw [initializeBushes_net2, Option.map_some']
  exact congrArg some (dial_empty_star_defect net2 _ 0 1 1 rfl rfl)

/-! ### C5: correctness of the Kahn topological order -/

theorem take_append_le {l1 l2 : List ℕ} {p : ℕ} (h : p ≤ l1.length) :
    (l1 ++ l2).take p = l1.take p := by
  rw [List.take_append_eq_append_take, show p - l1.length = 0 by omega, List.take_zero,
    List.append_nil]

theorem indexOf_lt_of_mem_take {l : List ℕ} {x : ℕ} {p : ℕ} (h : x ∈ l.take p)
    (hp : p ≤ l.length) : l.indexOf x < p := by
  have h2 : l.indexOf x = (l.take p).indexOf x := by
    conv_lhs => rw [← List.take_append_drop p l]
    rw [List.indexOf_append_of_mem h]
  rw [h2]
  refine lt_of_lt_of_le (List.indexOf_lt_length.mpr h) ?_
  rw [List.length_take]
  omega

theorem filter_append_singleton_count (sel : ℕ → ℕ) (out : List ℕ) (i : ℕ) (hi : i ∉ out) :
    ∀ l : List ℕ,
      (l.filter (fun a => decide (sel a ∈ out ++ [i]))).length
        = (l.filter (fun a => decide (sel a ∈ out))).length
          + (l.filter (fun a => decide (sel a = i))).length := by
  intro l
  induction l with
  | nil => rfl
  | cons a t ih =>
    simp only [List.filter_cons]
    by_cases h1 : sel a ∈ out
    · have h2 : sel a ∈ out ++ [i] := List.mem_append.mpr (Or.inl h1)
      have h3 : sel a ≠ i := fun hc => hi (hc ▸ h1)
      rw [if_pos (by simpa using h2), if_pos (by simpa using h1), if_neg (by simpa using h3)]
      simp only [List.length_cons]
      omega
    · by_cases h4 : sel a = i
      · have h2 : sel a ∈ out ++ [i] := List.mem_append.mpr (Or.inr (by simp [h4]))
        rw [if_pos (by simpa using h2), if_neg (by simpa using h1), if_pos (by simpa using h4)]
        simp only [List.length_cons]
        omega
      · have h2 : sel a ∉ out ++ [i] := by
          intro hc
          rcases List.mem_append.mp hc with hc2 | hc2
          · exact h1 hc2
          · exact h4 (List.mem_singleton.mp hc2)
        rw [if_neg (by simpa using h2), if_neg (by simpa using h1), if_neg (by simpa using h4)]
        exact ih

theorem rev_fwd_filter_count (net : Network) (fwdStar revStar : ℕ → List ℕ) (B : Finset ℕ)
    (stars : StarsWF net fwdStar revStar B) (i j : ℕ) :
    ((revStar j).filter (fun a => decide ((net.arcs a).tail = i))).length
      = ((fwdStar i).filter (fun a => decide ((net.arcs a).head = j))).length := by
  classical
  have hn1 : ((revStar j).filter (fun a => decide ((net.arcs a).tail = i))).Nodup :=
    (stars.revNodup j).filter _
  have hn2 : ((fwdStar i).filter (fun a => decide ((net.arcs a).head = j))).Nodup :=
    (stars.fwdNodup i).filter _
  have h1 : ((revStar j).filter (fun a => decide ((net.arcs a).tail = i))).toFinset
      = B.filter (fun a => (net.arcs a).tail = i ∧ (net.arcs a).head = j) := by
    ext a
    simp only [List.mem_toFinset, List.mem_filter, Finset.mem_filter, decide_eq_true_eq]
    constructor
    · rintro ⟨ha, ht⟩
      obtain ⟨haB, hh⟩ := (stars.revMem j a).mp ha
      exact ⟨haB, ht, hh⟩
    · rintro ⟨haB, ht, hh⟩
      exact ⟨(stars.revMem j a).mpr ⟨haB, hh⟩, ht⟩
  have h2 : ((fwdStar i).filter (fun a => decide ((net.arcs a).head = j))).toFinset
      = B.filter (fun a => (net.arcs a).tail = i ∧ (net.arcs a).head = j) := by
    ext a
    simp only [List.mem_toFinset, List.mem_filter, Finset.mem_filter, decide_eq_true_eq]
    constructor
    · rintro ⟨ha, hh⟩
      obtain ⟨haB, ht⟩ := (stars.fwdMem i a).mp ha
      exact ⟨haB, ht, hh⟩
    · rintro ⟨haB, ht, hh⟩
      exact ⟨(stars.fwdMem i a).mpr ⟨haB, ht⟩, hh⟩
  have e1 : ((revStar j).filter (fun a => decide ((net.arcs a).tail = i))).toFinset.card
      = ((revStar j).filter (fun a => decide ((net.arcs a).tail = i))).length := by
    rw [List.card_toFinset, List.Nodup.dedup hn1]
  have e2 : ((fwdStar i).filter (fun a => decide ((net.arcs a).head = j))).toFinset.card
      = ((fwdStar i).filter (fun a => decide ((net.arcs a).head = j))).length := by
    rw [List.card_toFinset, List.Nodup.dedup hn2]
  rw [← e1, ← e2, h1, h2]

/-- One relaxation pass of the Kahn loop over the forward star of the node
being emitted: indegree accounting moves from the old emitted set to the
new one, and the queue keeps only zero-indegree unseen nodes. -/
theorem kahnRelax_fold (net : Network) (fwdStar revStar : ℕ → List ℕ) (B : Finset ℕ)
    (stars : StarsWF net fwdStar revStar B) (hAV : ArcsValid net)
    (hsl : ∀ a ∈ B, (net.arcs a).tail ≠ (net.arcs a).head)
    (i : ℕ) (out : List ℕ) (hiout : i ∉ out)
    (htopo : ∀ p (hp : p < (out ++ [i]).length),
      ∀ a ∈ revStar ((out ++ [i]).get ⟨p, hp⟩),
        (net.arcs a).tail ∈ (out ++ [i]).take p) :
    ∀ (lst : List ℕ) (indeg : ℕ → ℤ) (q : List ℕ),
      (∀ a ∈ lst, a ∈ B ∧ (net.arcs a).tail = i) →
      (∀ j, indeg j = ((revStar j).length : ℤ)
        - (((revStar j).filter (fun a => decide ((net.arcs a).tail ∈ out ++ [i]))).length : ℤ)
        + ((lst.filter (fun a => decide ((net.arcs a).head = j))).length : ℤ)) →
      (((out ++ [i]) ++ q).Nodup) →
      (∀ j ∈ q, j < net.numNodes) →
      (∀ j ∈ q, indeg j = 0) →
      (∀ j, (lst.foldl (kahnRelax net) (indeg, q)).1 j = ((revStar j).length : ℤ)
        - (((revStar j).filter (fun a => decide ((net.arcs a).tail ∈ out ++ [i]))).length : ℤ))
      ∧ (((out ++ [i]) ++ (lst.foldl (kahnRelax net) (indeg, q)).2).Nodup)
      ∧ (∀ j ∈ (lst.foldl (kahnRelax net) (indeg, q)).2, j < net.numNodes)
      ∧ (∀ j ∈ (lst.foldl (kahnRelax net) (indeg, q)).2,
          (lst.foldl (kahnRelax net) (indeg, q)).1 j = 0)
      ∧ q <+: (lst.foldl (kahnRelax net) (indeg, q)).2 := by
  intro lst
  induction lst with
  | nil =>
    intro indeg q hlst hacc hnd hqlt hq0
    refine ⟨?_, hnd, hqlt, hq0, List.prefix_refl q⟩
    intro j
    have h1 := hacc j
    simp only [List.filter_nil, List.length_nil, Nat.cast_zero, add_zero] at h1
    simpa only [List.foldl_nil] using h1
  | cons a ls ih =>
    intro indeg q hlst hacc hnd hqlt hq0
    obtain ⟨haB, htl⟩ := hlst a (List.mem_cons_self a ls)
    have hrelax : kahnRelax net (indeg, q) a
        = if indeg ((net.arcs a).head) - 1 = 0
          then (Function.update indeg ((net.arcs a).head) (indeg ((net.arcs a).head) - 1),
                q ++ [(net.arcs a).head])
          else (Function.update indeg ((net.arcs a).head) (indeg ((net.arcs a).head) - 1), q) := by
      rw [kahnRelax]
      simp only [Function.update_same]
    have hheadq : (net.arcs a).head ∉ q := by
      intro hin
      have h0 := hq0 _ hin
      have h1 := hacc ((net.arcs a).head)
      have hfle : (((revStar ((net.arcs a).head)).filter
          (fun a => decide ((net.arcs a).tail ∈ out ++ [i]))).length)
          ≤ (revStar ((net.arcs a).head)).length := List.length_filter_le _ _
      have hc1 : 0 < (((a :: ls).filter
          (fun x => decide ((net.arcs x).head = (net.arcs a).head))).length) := by
        have hmem : a ∈ (a :: ls).filter
            (fun x => decide ((net.arcs x).head = (net.arcs a).head)) :=
          List.mem_filter.mpr ⟨List.mem_cons_self a ls, by simp⟩
        exact List.length_pos.mpr (List.ne_nil_of_mem hmem)
      omega
    have hacc' : ∀ j, Function.update indeg ((net.arcs a).head)
          (indeg ((net.arcs a).head) - 1) j
        = ((revStar j).length : ℤ)
          - (((revStar j).filter (fun a => decide ((net.arcs a).tail ∈ out ++ [i]))).length : ℤ)
          + ((ls.filter (fun x => decide ((net.arcs x).head = j))).length : ℤ) := by
      intro j
      by_cases hj : j = (net.arcs a).head
      · rw [hj, Function.update_same]
        have h1 := hacc ((net.arcs a).head)
        have h2 : ((a :: ls).filter
              (fun x => decide ((net.arcs x).head = (net.arcs a).head))).length
            = (ls.filter (fun x => decide ((net.arcs x).head = (net.arcs a).head))).length
              + 1 := by
          simp [List.filter_cons]
        omega
      · rw [Function.update_noteq hj]
        have h1 := hacc j
        have h2 : ((a :: ls).filter (fun x => decide ((net.arcs x).head = j))).length
            = (ls.filter (fun x => decide ((net.arcs x).head = j))).length := by
          simp only [List.filter_cons]
          rw [if_neg (by simp only [decide_eq_true_eq]; exact fun hc => hj hc.symm)]
        omega
    rw [List.foldl_cons, hrelax]
    by_cases hz : indeg ((net.arcs a).head) - 1 = 0
    · rw [if_pos hz]
      have hheadout : (net.arcs a).head ∉ out ++ [i] := by
        intro hc
        rcases List.mem_append.mp hc with hc2 | hc2
        · have hplt : out.indexOf ((net.arcs a).head) < out.length :=
            List.indexOf_lt_length.mpr hc2
          have hplt2 : out.indexOf ((net.arcs a).head) < (out ++ [i]).length := by
            rw [List.length_append]
            omega
          have hget : (out ++ [i]).get ⟨out.indexOf ((net.arcs a).head), hplt2⟩
              = (net.arcs a).head := by
            rw [List.get_eq_getElem, List.getElem_append_left hplt]
            exact List.getElem_indexOf hplt
          have harev : a ∈ revStar ((net.arcs a).head) :=
            (stars.revMem _ a).mpr ⟨haB, rfl⟩
          have h5 := htopo _ hplt2 a (by rw [hget]; exact harev)
          rw [take_append_le (le_of_lt hplt)] at h5
          have h6 : (net.arcs a).tail ∈ out := List.mem_of_mem_take h5
          rw [htl] at h6
          exact hiout h6
        · have hhi : (net.arcs a).head = i := List.mem_singleton.mp hc2
          exact hsl a haB (by rw [htl, hhi])
      have hnd' : ((out ++ [i]) ++ (q ++ [(net.arcs a).head])).Nodup := by
        obtain ⟨hnd1, hnd2, hdisj⟩ := List.nodup_append.mp hnd
        refine List.nodup_append.mpr ⟨hnd1, ?_, ?_⟩
        · refine List.nodup_append.mpr ⟨hnd2, List.nodup_singleton _, ?_⟩
          intro x hx1 hx2
          rw [List.mem_singleton] at hx2
          subst hx2
          exact hheadq hx1
        · intro x hx1 hx2
          rcases List.mem_append.mp hx2 with hx3 | hx3
          · exact hdisj hx1 hx3
          · rw [List.mem_singleton] at hx3
            subst hx3
            exact hheadout hx1
      have hqlt' : ∀ j ∈ q ++ [(net.arcs a).head], j < net.numNodes := by
        intro j hj
        rcases List.mem_append.mp hj with hj2 | hj2
        · exact hqlt j hj2
        · rw [List.mem_singleton] at hj2
          subst hj2
          exact (hAV a (stars.bSub a haB)).2
      have hq0' : ∀ j ∈ q ++ [(net.arcs a).head],
          Function.update indeg ((net.arcs a).head) (indeg ((net.arcs a).head) - 1) j = 0 := by
        intro j hj
        rcases List.mem_append.mp hj with hj2 | hj2
        · have hne : j ≠ (net.arcs a).head := fun hc => hheadq (hc ▸ hj2)
          rw [Function.update_noteq hne]
          exact hq0 j hj2
        · rw [List.mem_singleton] at hj2
          subst hj2
          rw [Function.update_same]
          exact hz
      obtain ⟨D1, D2, D3, D4, D5⟩ := ih _ _ (fun x hx => hlst x (List.mem_cons_of_mem a hx))
        hacc' hnd' hqlt' hq0'
      exact ⟨D1, D2, D3, D4, (List.prefix_append q [(net.arcs a).head]).trans D5⟩
    · rw [if_neg hz]
      have hq0' : ∀ j ∈ q,
          Function.update indeg ((net.arcs a).head) (indeg ((net.arcs a).head) - 1) j = 0 := by
        intro j hj
        have hne : j ≠ (net.arcs a).head := fun hc => hheadq (hc ▸ hj)
        rw [Function.update_noteq hne]
        exact hq0 j hj
      exact ih _ _ (fun x hx => hlst x (List.mem_cons_of_mem a hx)) hacc' hnd hqlt hq0'

/-- The Kahn loop preserves its invariants and only ever extends the
emitted list: the result extends `out`, has no duplicates, contains only
node indices, and every emitted node's bush predecessors are emitted
strictly before it. -/
theorem kahnLoop_correct (net : Network) (fwdStar revStar : ℕ → List ℕ) (B : Finset ℕ)
    (stars : StarsWF net fwdStar revStar B) (hAV : ArcsValid net)
    (hsl : ∀ a ∈ B, (net.arcs a).tail ≠ (net.arcs a).head) :
    ∀ (fuel : ℕ) (indeg : ℕ → ℤ) (queue out : List ℕ),
      (∀ j, indeg j = ((revStar j).length : ℤ)
        - (((revStar j).filter (fun a => decide ((net.arcs a).tail ∈ out))).length : ℤ)) →
      ((out ++ queue).Nodup) →
      (∀ j ∈ queue, j < net.numNodes) →
      (∀ j ∈ out, j < net.numNodes) →
      (∀ j ∈ queue, indeg j = 0) →
      (∀ p (hp : p < out.length), ∀ a ∈ revStar (out.get ⟨p, hp⟩),
        (net.arcs a).tail ∈ out.take p) →
      (out <+: kahnLoop net fwdStar fuel indeg queue out)
      ∧ (kahnLoop net fwdStar fuel indeg queue out).Nodup
      ∧ (∀ j ∈ kahnLoop net fwdStar fuel indeg queue out, j < net.numNodes)
      ∧ (∀ p (hp : p < (kahnLoop net fwdStar fuel indeg queue out).length),
          ∀ a ∈ revStar ((kahnLoop net fwdStar fuel indeg queue out).get ⟨p, hp⟩),
            (net.arcs a).tail ∈ (kahnLoop net fwdStar fuel indeg queue out).take p) := by
  intro fuel
  induction fuel with
  | zero =>
    intro indeg queue out hacc hnd hqlt houtlt hq0 htopo
    exact ⟨List.prefix_refl out, (List.nodup_append.mp hnd).1, houtlt, htopo⟩
  | succ fuel ih =>
    intro indeg queue out hacc hnd hqlt houtlt hq0 htopo
    cases queue with
    | nil =>
      have hstep : kahnLoop net fwdStar (fuel + 1) indeg [] out = out := rfl
      rw [hstep]
      exact ⟨List.prefix_refl out, (List.nodup_append.mp hnd).1, houtlt, htopo⟩
    | cons i rest =>
      have hiout : i ∉ out := by
        intro hc
        exact (List.nodup_append.mp hnd).2.2 hc (List.mem_cons_self i rest)
      -- every predecessor of the dequeued node is already emitted
      have hall : ∀ a ∈ revStar i, (net.arcs a).tail ∈ out := by
        have h0 := hq0 i (List.mem_cons_self i rest)
        have h1 := hacc i
        have hle : (((revStar i).filter
            (fun a => decide ((net.arcs a).tail ∈ out))).length)
            ≤ (revStar i).length := List.length_filter_le _ _
        have hfl : (((revStar i).filter
            (fun a => decide ((net.arcs a).tail ∈ out))).length)
            = (revStar i).length := by omega
        have he : (revStar i).filter (fun a => decide ((net.arcs a).tail ∈ out))
            = revStar i := (List.filter_sublist _).eq_of_length hfl
        intro a ha
        have h2 := List.filter_eq_self.mp he a ha
        simpa using h2
      have htopo' : ∀ p (hp : p < (out ++ [i]).length),
          ∀ a ∈ revStar ((out ++ [i]).get ⟨p, hp⟩),
            (net.arcs a).tail ∈ (out ++ [i]).take p := by
        intro p hp a ha
        have hp2 : p < out.length + 1 := by
          rw [List.length_append, List.length_singleton] at hp
          exact hp
        by_cases hpl : p < out.length
        · have hget : (out ++ [i]).get ⟨p, hp⟩ = out.get ⟨p, hpl⟩ := by
            rw [List.get_eq_getElem, List.get_eq_getElem, List.getElem_append_left hpl]
          rw [take_append_le (le_of_lt hpl)]
          exact htopo p hpl a (by rw [← hget]; exact ha)
        · have hpe : p = out.length := by omega
          subst hpe
          have hget : (out ++ [i]).get ⟨out.length, hp⟩ = i := by
            rw [List.get_eq_getElem, List.getElem_concat_length]
            rfl
          rw [hget] at ha
          rw [take_append_le (le_refl out.length), List.take_length]
          exact hall a ha
      -- relaxation over the forward star of the dequeued node
      have hacc' : ∀ j, indeg j = ((revStar j).length : ℤ)
          - (((revStar j).filter
              (fun a => decide ((net.arcs a).tail ∈ out ++ [i]))).length : ℤ)
          + (((fwdStar i).filter
              (fun a => decide ((net.arcs a).head = j))).length : ℤ) := by
        intro j
        have h1 := hacc j
        have hfc : ((revStar j).filter
              (fun a => decide ((net.arcs a).tail ∈ out ++ [i]))).length
            = ((revStar j).filter (fun a => decide ((net.arcs a).tail ∈ out))).length
              + ((revStar j).filter (fun a => decide ((net.arcs a).tail = i))).length :=
          filter_append_singleton_count (fun a => (net.arcs a).tail) out i hiout (revStar j)
        have hrf := rev_fwd_filter_count net fwdStar revStar B stars i j
        omega
      have hnd' : ((out ++ [i]) ++ rest).Nodup := by
        rw [List.append_cons] at hnd
        exact hnd
      obtain ⟨D1, D2, D3, D4, D5⟩ := kahnRelax_fold net fwdStar revStar B stars hAV hsl
        i out hiout htopo' (fwdStar i) indeg rest
        (fun a ha => (stars.fwdMem i a).mp ha) hacc' hnd'
        (fun j hj => hqlt j (List.mem_cons_of_mem i hj))
        (fun j hj => hq0 j (List.mem_cons_of_mem i hj))
      have hstep : kahnLoop net fwdStar (fuel + 1) indeg (i :: rest) out
          = kahnLoop net fwdStar fuel
              ((fwdStar i).foldl (kahnRelax net) (indeg, rest)).1
              ((fwdStar i).foldl (kahnRelax net) (indeg, rest)).2 (out ++ [i]) := rfl
      rw [hstep]
      obtain ⟨R1, R2, R3, R4⟩ := ih _ _ _ D1 D2 D3
        (fun j hj => by
          rcases List.mem_append.mp hj with hj2 | hj2
          · exact houtlt j hj2
          · rw [List.mem_singleton] at hj2
            subst hj2
            exact hqlt j (List.mem_cons_self j rest))
        D4 htopo'
      exact ⟨(List.prefix_append out [i]).trans R1, R2, R3, R4⟩

/-- C5: for every origin `r`, when `bushTopologicalOrder` succeeds the
returned `bushOrder[r]` is a permutation of the node indices with
`bushOrder[r][0] = r`, and along every bush arc the tail's position is
strictly smaller than the head's position (an inverse topological order
of the acyclic bush).  The hypotheses state the structural facts the
caller establishes: well-formed star lists for the bush arc set `B`,
valid arc endpoints, no self loops, an origin with no bush predecessors,
and an indegree vector equal to the reverse-star sizes. -/
theorem C5_bush_topological_order (net : Network) (origin : ℕ)
    (fwdStar revStar : ℕ → List ℕ) (revSize : ℕ → ℤ) (B : Finset ℕ) (ord : List ℕ)
    (stars : StarsWF net fwdStar revStar B) (hAV : ArcsValid net)
    (horig : origin < net.numNodes)
    (hsl : ∀ a ∈ B, (net.arcs a).tail ≠ (net.arcs a).head)
    (hrevorigin : revStar origin = [])
    (hsize : ∀ i, revSize i = ((revStar i).length : ℤ))
    (hres : bushTopologicalOrder net origin fwdStar revSize = some ord) :
    ord.Perm (List.range net.numNodes)
    ∧ ord.head? = some origin
    ∧ ∀ a ∈ B, ord.indexOf ((net.arcs a).tail) < ord.indexOf ((net.arcs a).head) := by
  classical
  have hres2 : (if (kahnLoop net fwdStar (net.numNodes + net.numArcs + 2) revSize
        (origin :: (List.range net.numNodes).filter
          (fun i => decide (revSize i = 0 ∧ i ≠ origin))) []).length = net.numNodes
      then some (kahnLoop net fwdStar (net.numNodes + net.numArcs + 2) revSize
        (origin :: (List.range net.numNodes).filter
          (fun i => decide (revSize i = 0 ∧ i ≠ origin))) [])
      else none) = some ord := hres
  set tailq := (List.range net.numNodes).filter
    (fun i => decide (revSize i = 0 ∧ i ≠ origin)) with htailq
  have hndq : (origin :: tailq).Nodup := by
    refine List.nodup_cons.mpr ⟨?_, (List.nodup_range _).filter _⟩
    intro hmem
    rw [htailq] at hmem
    have h2 := List.of_mem_filter hmem
    simp only [decide_eq_true_eq] at h2
    exact h2.2 rfl
  have hqlt : ∀ j ∈ origin :: tailq, j < net.numNodes := by
    intro j hj
    rcases List.mem_cons.mp hj with hj2 | hj2
    · subst hj2
      exact horig
    · rw [htailq] at hj2
      exact List.mem_range.mp (List.mem_of_mem_filter hj2)
  have hq0 : ∀ j ∈ origin :: tailq, revSize j = 0 := by
    intro j hj
    rcases List.mem_cons.mp hj with hj2 | hj2
    · subst hj2
      rw [hsize, hrevorigin]
      simp
    · rw [htailq] at hj2
      have h2 := List.of_mem_filter hj2
      simp only [decide_eq_true_eq] at h2
      exact h2.1
  have htopo0 : ∀ p (hp : p < (([] : List ℕ) ++ [origin]).length),
      ∀ a ∈ revStar ((([] : List ℕ) ++ [origin]).get ⟨p, hp⟩),
        (net.arcs a).tail ∈ (([] : List ℕ) ++ [origin]).take p := by
    intro p hp a ha
    have hp1 : p = 0 := by
      simp only [List.nil_append, List.length_singleton] at hp
      omega
    subst hp1
    have hget : (([] : List ℕ) ++ [origin]).get ⟨0, hp⟩ = origin := rfl
    rw [hget, hrevorigin] at ha
    exact absurd ha (List.not_mem_nil a)
  have hacc0 : ∀ j, revSize j = ((revStar j).length : ℤ)
      - (((revStar j).filter
          (fun a => decide ((net.arcs a).tail ∈ ([] : List ℕ) ++ [origin]))).length : ℤ)
      + (((fwdStar origin).filter
          (fun a => decide ((net.arcs a).head = j))).length : ℤ) := by
    intro j
    have hfc : ((revStar j).filter
          (fun a => decide ((net.arcs a).tail ∈ ([] : List ℕ) ++ [origin]))).length
        = ((revStar j).filter
            (fun a => decide ((net.arcs a).tail ∈ ([] : List ℕ)))).length
          + ((revStar j).filter
              (fun a => decide ((net.arcs a).tail = origin))).length :=
      filter_append_singleton_count (fun a => (net.arcs a).tail) [] origin
        (List.not_mem_nil origin) (revStar j)
    have hz : ((revStar j).filter
        (fun a => decide ((net.arcs a).tail ∈ ([] : List ℕ)))).length = 0 := by
      simp
    have hrf := rev_fwd_filter_count net fwdStar revStar B stars origin j
    have h1 := hsize j
    omega
  have hnd0 : ((([] : List ℕ) ++ [origin]) ++ tailq).Nodup := hndq
  obtain ⟨D1, D2, D3, D4, D5⟩ := kahnRelax_fold net fwdStar revStar B stars hAV hsl
    origin [] (List.not_mem_nil origin) htopo0 (fwdStar origin) revSize tailq
    (fun a ha => (stars.fwdMem origin a).mp ha) hacc0 hnd0
    (fun j hj => hqlt j (List.mem_cons_of_mem origin hj))
    (fun j hj => hq0 j (List.mem_cons_of_mem origin hj))
  have D1' : ∀ j, ((fwdStar origin).foldl (kahnRelax net) (revSize, tailq)).1 j
      = ((revStar j).length : ℤ)
      - (((revStar j).filter
          (fun a => decide ((net.arcs a).tail ∈ ([origin] : List ℕ)))).length : ℤ) := D1
  have D2' : (([origin] : List ℕ)
      ++ ((fwdStar origin).foldl (kahnRelax net) (revSize, tailq)).2).Nodup := D2
  have htopo1 : ∀ p (hp : p < ([origin] : List ℕ).length),
      ∀ a ∈ revStar (([origin] : List ℕ).get ⟨p, hp⟩),
        (net.arcs a).tail ∈ ([origin] : List ℕ).take p := by
    intro p hp a ha
    have hp1 : p = 0 := by
      simp only [List.length_singleton] at hp
      omega
    subst hp1
    rw [show ([origin] : List ℕ).get ⟨0, hp⟩ = origin from rfl, hrevorigin] at ha
    exact absurd ha (List.not_mem_nil a)
  obtain ⟨R1, R2, R3, R4⟩ := kahnLoop_correct net fwdStar revStar B stars hAV hsl
    (net.numNodes + net.numArcs + 1)
    ((fwdStar origin).foldl (kahnRelax net) (revSize, tailq)).1
    ((fwdStar origin).foldl (kahnRelax net) (revSize, tailq)).2
    [origin] D1' D2' D3
    (fun j hj => by
      rw [List.mem_singleton] at hj
      subst hj
      exact horig)
    D4 htopo1
  have hstep : kahnLoop net fwdStar (net.numNodes + net.numArcs + 2) revSize
      (origin :: tailq) []
      = kahnLoop net fwdStar (net.numNodes + net.numArcs + 1)
          ((fwdStar origin).foldl (kahnRelax net) (revSize, tailq)).1
          ((fwdStar origin).foldl (kahnRelax net) (revSize, tailq)).2 [origin] := rfl
  rw [hstep] at hres2
  by_cases hlen : (kahnLoop net fwdStar (net.numNodes + net.numArcs + 1)
      ((fwdStar origin).foldl (kahnRelax net) (revSize, tailq)).1
      ((fwdStar origin).foldl (kahnRelax net) (revSize, tailq)).2 [origin]).length
      = net.numNodes
  · rw [if_pos hlen] at hres2
    have hord : kahnLoop net fwdStar (net.numNodes + net.numArcs + 1)
        ((fwdStar origin).foldl (kahnRelax net) (revSize, tailq)).1
        ((fwdStar origin).foldl (kahnRelax net) (revSize, tailq)).2 [origin] = ord :=
      Option.some_inj.mp hres2
    subst hord
    have hperm : (kahnLoop net fwdStar (net.numNodes + net.numArcs + 1)
        ((fwdStar origin).foldl (kahnRelax net) (revSize, tailq)).1
        ((fwdStar origin).foldl (kahnRelax net) (revSize, tailq)).2 [origin]).Perm
          (List.range net.numNodes) := by
      refine List.perm_of_nodup_nodup_toFinset_eq R2 (List.nodup_range _) ?_
      have hrt : (List.range net.numNodes).toFinset = Finset.range net.numNodes := by
        ext x
        simp [List.mem_toFinset, List.mem_range, Finset.mem_range]
      rw [hrt]
      refine Finset.eq_of_subset_of_card_le ?_ ?_
      · intro x hx
        rw [List.mem_toFinset] at hx
        exact Finset.mem_range.mpr (R3 x hx)
      · rw [Finset.card_range, List.card_toFinset, List.Nodup.dedup R2, hlen]
    refine ⟨hperm, ?_, ?_⟩
    · obtain ⟨t, ht⟩ := R1
      rw [← ht]
      rfl
    · intro a haB
      have hhlt : (net.arcs a).head < net.numNodes := (hAV a (stars.bSub a haB)).2
      have hhm : (net.arcs a).head ∈ kahnLoop net fwdStar (net.numNodes + net.numArcs + 1)
          ((fwdStar origin).foldl (kahnRelax net) (revSize, tailq)).1
          ((fwdStar origin).foldl (kahnRelax net) (revSize, tailq)).2 [origin] :=
        hperm.mem_iff.mpr (List.mem_range.mpr hhlt)
      have hplt := List.indexOf_lt_length.mpr hhm
      have harev : a ∈ revStar ((net.arcs a).head) :=
        (stars.revMem _ a).mpr ⟨haB, rfl⟩
      have hget : (kahnLoop net fwdStar (net.numNodes + net.numArcs + 1)
          ((fwdStar origin).foldl (kahnRelax net) (revSize, tailq)).1
          ((fwdStar origin).foldl (kahnRelax net) (revSize, tailq)).2 [origin]).get
            ⟨List.indexOf ((net.arcs a).head) _, hplt⟩ = (net.arcs a).head := by
        rw [List.get_eq_getElem]
        exact List.getElem_indexOf hplt
      have h5 := R4 _ hplt a (by rw [hget]; exact harev)
      exact indexOf_lt_of_mem_take h5 (le_of_lt hplt)
  · rw [if_neg hlen] at hres2
    exact absurd hres2 (by simp)

/-- Witness for C5: on the one-node network the topological order is
computed concretely as `[0]`, every hypothesis of the theorem holds, and
the conclusions evaluate. -/
theorem C5_bush_topological_order_witness :
    (0 < net1.numNodes
      ∧ bushTopologicalOrder net1 0 (fun _ => []) (fun _ => 0) = some [0])
    ∧ ([0] : List ℕ).Perm (List.range net1.numNodes)
      ∧ ([0] : List ℕ).head? = some 0
      ∧ ∀ a ∈ (∅ : Finset ℕ), ([0] : List ℕ).indexOf ((net1.arcs a).tail)
          < ([0] : List ℕ).indexOf ((net1.arcs a).head) := by
  refine ⟨⟨by decide, rfl⟩, ?_⟩
  exact C5_bush_topological_order net1 0 (fun _ => []) (fun _ => [])
    (fun _ => 0) ∅ [0] unitBushes_wf.stars unitBushes_wf.arcsValid (by decide)
    (fun a ha => absurd ha (Finset.not_mem_empty a)) rfl (fun _ => rfl) rfl

/-! ### C9: the centroid rule of the heap Dijkstra -/

theorem list_min_eq_inf (f : ℕ → EReal) :
    ∀ l : List ℕ, ((l.map f).foldr min ⊤) = l.toFinset.inf f := by
  intro l
  induction l with
  | nil => simp
  | cons a t ih =>
    rw [List.map_cons, List.foldr_cons, ih, List.toFinset_cons, Finset.inf_insert,
      inf_eq_min]

/-- The candidate minimum over the forward-star arcs of `c` into `k`, as
computed by the relaxation fold, is the `Finset` infimum over the arcs
`c → k` of the network. -/
theorem fwd_filter_min_eq_inf (net : Network) (c k : ℕ) (f : ℕ → EReal) :
    ((((nodeForwardStar net c).filter
        (fun a => decide ((net.arcs a).head = k))).map f).foldr min ⊤)
    = ((Finset.range net.numArcs).filter
        (fun a => (net.arcs a).head = k ∧ (net.arcs a).tail = c)).inf f := by
  rw [list_min_eq_inf]
  congr 1
  ext x
  simp only [List.mem_toFinset, List.mem_filter, nodeForwardStar, List.mem_range,
    decide_eq_true_eq, Finset.mem_filter, Finset.mem_range]
  tauto

/-- `findMinHeap` returns a pending node whose label is minimal among the
pending nodes. -/
theorem findMinHeap_spec (s : DijkstraState) (h : s.pending.Nonempty) :
    findMinHeap s ∈ s.pending
    ∧ ∀ k ∈ s.pending, s.valueFn (findMinHeap s) ≤ s.valueFn k := by
  rw [findMinHeap, dif_pos h]
  have hm := Finset.min'_mem (s.pending.filter
      (fun j => s.valueFn j = s.pending.inf s.valueFn))
    (by
      obtain ⟨j, hj, hmin⟩ := s.pending.exists_mem_eq_inf h s.valueFn
      exact ⟨j, Finset.mem_filter.mpr ⟨hj, hmin.symm⟩⟩)
  rw [Finset.mem_filter] at hm
  refine ⟨hm.1, ?_⟩
  intro k hk
  rw [hm.2]
  exact Finset.inf_le hk

/-- One expansion pass of Dijkstra over the forward star of the node `c`
just removed from the heap, given nonnegative arc costs: the expanded set
and the labels of expanded nodes are unchanged, pending labels stay at
least `c`'s label, centroids are never enqueued, unseen non-centroids
keep label `⊤`, and every node's final label is the minimum of its old
label and the candidate labels through `c`. -/
theorem dijkstraRelax_fold (net : Network) (origin c : ℕ)
    (hcost : ∀ a, a < net.numArcs → 0 ≤ (net.arcs a).cost)
    (E : Finset ℕ) (hcE : c ∈ E) :
    ∀ (lst : List ℕ) (t : DijkstraState),
      (∀ a ∈ lst, a < net.numArcs ∧ (net.arcs a).tail = c) →
      t.expanded = E →
      (∀ j ∈ E, t.valueFn j ≤ t.valueFn c) →
      (∀ k ∈ t.pending, t.valueFn c ≤ t.valueFn k) →
      (∀ j, j < net.firstThroughNode → j ≠ origin → j ∉ t.pending) →
      (∀ j, net.firstThroughNode ≤ j → j ≠ origin → j ∉ t.pending → j ∉ E →
        t.valueFn j = ⊤) →
      (lst.foldl (dijkstraRelax net c) t).expanded = E
      ∧ (∀ j ∈ E, (lst.foldl (dijkstraRelax net c) t).valueFn j = t.valueFn j)
      ∧ (∀ k ∈ (lst.foldl (dijkstraRelax net c) t).pending,
          t.valueFn c ≤ (lst.foldl (dijkstraRelax net c) t).valueFn k)
      ∧ (∀ j, j < net.firstThroughNode → j ≠ origin →
          j ∉ (lst.foldl (dijkstraRelax net c) t).pending)
      ∧ (∀ j, net.firstThroughNode ≤ j → j ≠ origin →
          j ∉ (lst.foldl (dijkstraRelax net c) t).pending → j ∉ E →
          (lst.foldl (dijkstraRelax net c) t).valueFn j = ⊤)
      ∧ (∀ k, (lst.foldl (dijkstraRelax net c) t).valueFn k
          = min (t.valueFn k)
            (((lst.filter (fun a => decide ((net.arcs a).head = k))).map
              (fun a => t.valueFn c + ((net.arcs a).cost : EReal))).foldr min ⊤)) := by
  intro lst
  induction lst with
  | nil =>
    intro t hlst hE hEle hpend hcent hfin
    refine ⟨hE, fun j _ => rfl, hpend, hcent, hfin, ?_⟩
    intro k
    simp only [List.filter_nil, List.map_nil, List.foldr_nil]
    exact (min_eq_left le_top).symm
  | cons a ls ih =>
    intro t hlst hE hEle hpend hcent hfin
    obtain ⟨haA, htl⟩ := hlst a (List.mem_cons_self a ls)
    have hlst' : ∀ x ∈ ls, x < net.numArcs ∧ (net.arcs x).tail = c :=
      fun x hx => hlst x (List.mem_cons_of_mem a hx)
    have htempge : t.valueFn c ≤ t.valueFn c + ((net.arcs a).cost : EReal) :=
      le_add_of_nonneg_right (by exact_mod_cast hcost a haA)
    rw [List.foldl_cons]
    by_cases hlt : t.valueFn c + ((net.arcs a).cost : EReal)
        < t.valueFn ((net.arcs a).head)
    · -- the label of the head strictly improves
      have hupd : (dijkstraRelax net c t a).valueFn
          = Function.update t.valueFn ((net.arcs a).head)
              (t.valueFn c + ((net.arcs a).cost : EReal)) := by
        by_cases hftn : (net.arcs a).head < net.firstThroughNode
        · simp only [dijkstraRelax, if_pos hlt, if_pos hftn]
        · by_cases hT : t.valueFn ((net.arcs a).head) = ⊤
          · simp only [dijkstraRelax, if_pos hlt, if_neg hftn, if_pos hT]
          · simp only [dijkstraRelax, if_pos hlt, if_neg hftn, if_neg hT]
      have hexp2 : (dijkstraRelax net c t a).expanded = t.expanded := by
        by_cases hftn : (net.arcs a).head < net.firstThroughNode
        · simp only [dijkstraRelax, if_pos hlt, if_pos hftn]
        · by_cases hT : t.valueFn ((net.arcs a).head) = ⊤
          · simp only [dijkstraRelax, if_pos hlt, if_neg hftn, if_pos hT]
          · simp only [dijkstraRelax, if_pos hlt, if_neg hftn, if_neg hT]
      have hpends : ((dijkstraRelax net c t a).pending = t.pending
            ∧ ((net.arcs a).head < net.firstThroughNode
                ∨ t.valueFn ((net.arcs a).head) ≠ ⊤))
          ∨ ((dijkstraRelax net c t a).pending
                = insert ((net.arcs a).head) t.pending
              ∧ net.firstThroughNode ≤ (net.arcs a).head
              ∧ t.valueFn ((net.arcs a).head) = ⊤) := by
        by_cases hftn : (net.arcs a).head < net.firstThroughNode
        · left
          refine ⟨?_, Or.inl hftn⟩
          simp only [dijkstraRelax, if_pos hlt, if_pos hftn]
        · by_cases hT : t.valueFn ((net.arcs a).head) = ⊤
          · right
            refine ⟨?_, not_lt.mp hftn, hT⟩
            simp only [dijkstraRelax, if_pos hlt, if_neg hftn, if_pos hT]
          · left
            refine ⟨?_, Or.inr hT⟩
            simp only [dijkstraRelax, if_pos hlt, if_neg hftn, if_neg hT]
      have hheadE : (net.arcs a).head ∉ E := by
        intro hmem
        exact absurd hlt (not_lt.mpr (le_trans (hEle _ hmem) htempge))
      have hne_c : (net.arcs a).head ≠ c := fun hc => hheadE (hc ▸ hcE)
      have hc' : (dijkstraRelax net c t a).valueFn c = t.valueFn c := by
        rw [hupd, Function.update_noteq (fun hc => hne_c hc.symm)]
      have hE' : (dijkstraRelax net c t a).expanded = E := hexp2.trans hE
      have hEle' : ∀ j ∈ E, (dijkstraRelax net c t a).valueFn j
          ≤ (dijkstraRelax net c t a).valueFn c := by
        intro j hj
        have hjne : j ≠ (net.arcs a).head := fun hc => hheadE (hc ▸ hj)
        rw [hc', hupd, Function.update_noteq hjne]
        exact hEle j hj
      have hpendsub : t.pending ⊆ (dijkstraRelax net c t a).pending := by
        rcases hpends with ⟨hpeq, _⟩ | ⟨hpeq, _, _⟩
        · rw [hpeq]
        · rw [hpeq]
          exact Finset.subset_insert _ _
      have hpend' : ∀ k ∈ (dijkstraRelax net c t a).pending,
          (dijkstraRelax net c t a).valueFn c ≤ (dijkstraRelax net c t a).valueFn k := by
        intro k hk
        rw [hc']
        have hcase : k = (net.arcs a).head ∨ k ∈ t.pending := by
          rcases hpends with ⟨hpeq, _⟩ | ⟨hpeq, _, _⟩
          · exact Or.inr (hpeq ▸ hk)
          · rw [hpeq] at hk
            exact (Finset.mem_insert.mp hk)
        rcases hcase with hkh | hkp
        · subst hkh
          rw [hupd, Function.update_same]
          exact htempge
        · by_cases hkh : k = (net.arcs a).head
          · subst hkh
            rw [hupd, Function.update_same]
            exact htempge
          · rw [hupd, Function.update_noteq hkh]
            exact hpend k hkp
      have hcent' : ∀ j, j < net.firstThroughNode → j ≠ origin →
          j ∉ (dijkstraRelax net c t a).pending := by
        intro j hj ho hmem
        rcases hpends with ⟨hpeq, _⟩ | ⟨hpeq, hge, _⟩
        · exact hcent j hj ho (hpeq ▸ hmem)
        · rw [hpeq] at hmem
          rcases Finset.mem_insert.mp hmem with hjh | hjp
          · subst hjh
            exact absurd hj (not_lt.mpr hge)
          · exact hcent j hj ho hjp
      have hfin' : ∀ j, net.firstThroughNode ≤ j → j ≠ origin →
          j ∉ (dijkstraRelax net c t a).pending → j ∉ E →
          (dijkstraRelax net c t a).valueFn j = ⊤ := by
        intro j hj ho hpj hEj
        by_cases hjh : j = (net.arcs a).head
        · rcases hpends with ⟨hpeq, hinfo⟩ | ⟨hpeq, _, _⟩
          · have hjp : j ∉ t.pending := fun hc => hpj (hpeq ▸ hc)
            have hft := hfin j hj ho hjp hEj
            rcases hinfo with hflt | hfne
            · exact absurd hflt (not_lt.mpr (hjh ▸ hj))
            · exact absurd (hjh ▸ hft) hfne
          · refine absurd ?_ hpj
            rw [hpeq, hjh]
            exact Finset.mem_insert_self _ _
        · rw [hupd, Function.update_noteq hjh]
          exact hfin j hj ho (fun hc => hpj (hpendsub hc)) hEj
      obtain ⟨D1, D2, D3, D4, D5, D7⟩ := ih (dijkstraRelax net c t a)
        hlst' hE' hEle' hpend' hcent' hfin'
      refine ⟨D1, ?_, ?_, D4, D5, ?_⟩
      · intro j hj
        have hjne : j ≠ (net.arcs a).head := fun hc => hheadE (hc ▸ hj)
        rw [D2 j hj, hupd, Function.update_noteq hjne]
      · intro k hk
        have h3 := D3 k hk
        rw [hc'] at h3
        exact h3
      · intro k
        have h7 := D7 k
        rw [hc'] at h7
        by_cases hk : (net.arcs a).head = k
        · subst hk
          rw [List.filter_cons, if_pos (by simp), List.map_cons, List.foldr_cons]
          rw [h7, hupd, Function.update_same]
          rw [← min_assoc, min_eq_right (le_of_lt hlt)]
        · rw [List.filter_cons, if_neg (by simpa using hk)]
          rw [h7, hupd, Function.update_noteq (fun hc => hk hc.symm)]
    · -- no improvement: the relaxation is the identity
      have hstep : dijkstraRelax net c t a = t := by
        rw [dijkstraRelax]
        exact if_neg hlt
      rw [hstep]
      obtain ⟨D1, D2, D3, D4, D5, D7⟩ := ih t hlst' hE hEle hpend hcent hfin
      refine ⟨D1, D2, D3, D4, D5, ?_⟩
      intro k
      by_cases hk : (net.arcs a).head = k
      · subst hk
        rw [List.filter_cons, if_pos (by simp), List.map_cons, List.foldr_cons]
        rw [D7 ((net.arcs a).head)]
        rw [← min_assoc, min_eq_left (not_lt.mp hlt)]
      · rw [List.filter_cons, if_neg (by simpa using hk)]
        exact D7 k

/-- The Dijkstra loop preserves the centroid invariants: expanded labels
never exceed pending labels, non-origin centroids are never enqueued or
expanded, unseen non-centroids keep label `⊤`, and every non-origin
centroid's label is the infimum of the single-arc relaxed values over its
incoming arcs with expanded tails. -/
theorem dijkstraLoop_invariant (net : Network) (origin : ℕ)
    (hcost : ∀ a, a < net.numArcs → 0 ≤ (net.arcs a).cost) :
    ∀ (fuel : ℕ) (s : DijkstraState),
      (∀ j ∈ s.expanded, ∀ k ∈ s.pending, s.valueFn j ≤ s.valueFn k) →
      (∀ j, j < net.firstThroughNode → j ≠ origin →
        j ∉ s.pending ∧ j ∉ s.expanded) →
      (∀ j, net.firstThroughNode ≤ j → j ≠ origin → j ∉ s.pending →
        j ∉ s.expanded → s.valueFn j = ⊤) →
      (∀ k, k < net.firstThroughNode → k ≠ origin →
        s.valueFn k = ((Finset.range net.numArcs).filter
          (fun a => (net.arcs a).head = k ∧ (net.arcs a).tail ∈ s.expanded)).inf
          (fun a => s.valueFn ((net.arcs a).tail) + ((net.arcs a).cost : EReal))) →
      (∀ j ∈ (dijkstraLoop net fuel s).expanded, ∀ k ∈ (dijkstraLoop net fuel s).pending,
        (dijkstraLoop net fuel s).valueFn j ≤ (dijkstraLoop net fuel s).valueFn k)
      ∧ (∀ j, j < net.firstThroughNode → j ≠ origin →
          j ∉ (dijkstraLoop net fuel s).pending ∧ j ∉ (dijkstraLoop net fuel s).expanded)
      ∧ (∀ j, net.firstThroughNode ≤ j → j ≠ origin →
          j ∉ (dijkstraLoop net fuel s).pending → j ∉ (dijkstraLoop net fuel s).expanded →
          (dijkstraLoop net fuel s).valueFn j = ⊤)
      ∧ (∀ k, k < net.firstThroughNode → k ≠ origin →
          (dijkstraLoop net fuel s).valueFn k = ((Finset.range net.numArcs).filter
            (fun a => (net.arcs a).head = k
              ∧ (net.arcs a).tail ∈ (dijkstraLoop net fuel s).expanded)).inf
            (fun a => (dijkstraLoop net fuel s).valueFn ((net.arcs a).tail)
              + ((net.arcs a).cost : EReal))) := by
  intro fuel
  induction fuel with
  | zero =>
    intro s hJ1 hJ2 hJ3 hJ4
    exact ⟨hJ1, hJ2, hJ3, hJ4⟩
  | succ fuel ih =>
    intro s hJ1 hJ2 hJ3 hJ4
    by_cases hne : s.pending.Nonempty
    · obtain ⟨hcmem, hcmin⟩ := findMinHeap_spec s hne
      have hstep : dijkstraLoop net (fuel + 1) s
          = dijkstraLoop net fuel
            ((nodeForwardStar net (findMinHeap s)).foldl
              (dijkstraRelax net (findMinHeap s))
              { s with pending := s.pending.erase (findMinHeap s),
                       expanded := insert (findMinHeap s) s.expanded }) := by
        rw [dijkstraLoop, if_pos hne]
      rw [hstep]
      -- invariants for the state after the heap deletion
      have hlstOK : ∀ a ∈ nodeForwardStar net (findMinHeap s),
          a < net.numArcs ∧ (net.arcs a).tail = findMinHeap s := by
        intro a ha
        have h2 := List.mem_filter.mp ha
        refine ⟨List.mem_range.mp h2.1, ?_⟩
        simpa using h2.2
      have hproj : ∀ x, ({ s with pending := s.pending.erase (findMinHeap s), expanded := insert (findMinHeap s) s.expanded } : DijkstraState).valueFn x = s.valueFn x := fun _ => rfl
      have hEle0 : ∀ j ∈ insert (findMinHeap s) s.expanded,
          s.valueFn j ≤ s.valueFn (findMinHeap s) := by
        intro j hj
        rcases Finset.mem_insert.mp hj with hj2 | hj2
        · subst hj2
          exact le_refl _
        · exact hJ1 j hj2 (findMinHeap s) hcmem
      have hpend0 : ∀ k ∈ s.pending.erase (findMinHeap s),
          s.valueFn (findMinHeap s) ≤ s.valueFn k :=
        fun k hk => hcmin k (Finset.mem_of_mem_erase hk)
      have hcent0 : ∀ j, j < net.firstThroughNode → j ≠ origin →
          j ∉ s.pending.erase (findMinHeap s) :=
        fun j hj ho hmem => (hJ2 j hj ho).1 (Finset.mem_of_mem_erase hmem)
      have hfin0 : ∀ j, net.firstThroughNode ≤ j → j ≠ origin →
          j ∉ s.pending.erase (findMinHeap s) → j ∉ insert (findMinHeap s) s.expanded →
          s.valueFn j = ⊤ := by
        intro j hj ho hpj hej
        have hjc : j ≠ findMinHeap s := fun hc => hej (hc ▸ Finset.mem_insert_self _ _)
        have hjp : j ∉ s.pending := fun hc =>
          hpj (Finset.mem_erase.mpr ⟨hjc, hc⟩)
        exact hJ3 j hj ho hjp (fun hc => hej (Finset.mem_insert_of_mem hc))
      obtain ⟨C1, C2, C3, C4, C5, C7⟩ := dijkstraRelax_fold net origin (findMinHeap s)
        hcost (insert (findMinHeap s) s.expanded) (Finset.mem_insert_self _ _)
        (nodeForwardStar net (findMinHeap s))
        { s with pending := s.pending.erase (findMinHeap s),
                 expanded := insert (findMinHeap s) s.expanded }
        hlstOK rfl hEle0 hpend0 hcent0 hfin0
      refine ih _ ?_ ?_ ?_ ?_
      · -- J1 for the relaxed state
        intro j hj k hk
        rw [C1] at hj
        have hvj := C2 j hj
        rw [hproj] at hvj
        have h3 := C3 k hk
        rw [hproj] at h3
        rw [hvj]
        refine le_trans ?_ h3
        rcases Finset.mem_insert.mp hj with hj2 | hj2
        · exact le_of_eq (by rw [hj2])
        · exact hJ1 j hj2 (findMinHeap s) hcmem
      · -- J2
        intro j hj ho
        refine ⟨C4 j hj ho, ?_⟩
        rw [C1]
        intro hmem
        rcases Finset.mem_insert.mp hmem with hj2 | hj2
        · exact (hJ2 j hj ho).1 (hj2 ▸ hcmem)
        · exact (hJ2 j hj ho).2 hj2
      · -- J3
        intro j hj ho hpj hej
        rw [C1] at hej
        exact C5 j hj ho hpj hej
      · -- J4
        intro k hk ho
        rw [C7 k]
        simp only [hproj]
        rw [fwd_filter_min_eq_inf]
        rw [hJ4 k hk ho]
        rw [C1]
        -- split the arc set by whether the tail was expanded before
        have hsplit : (Finset.range net.numArcs).filter
            (fun a => (net.arcs a).head = k
              ∧ (net.arcs a).tail ∈ insert (findMinHeap s) s.expanded)
            = ((Finset.range net.numArcs).filter
                (fun a => (net.arcs a).head = k ∧ (net.arcs a).tail ∈ s.expanded))
              ∪ ((Finset.range net.numArcs).filter
                (fun a => (net.arcs a).head = k ∧ (net.arcs a).tail = findMinHeap s)) := by
          ext x
          simp only [Finset.mem_filter, Finset.mem_union, Finset.mem_range,
            Finset.mem_insert]
          tauto
        rw [hsplit, Finset.inf_union, inf_eq_min]
        congr 1
        · refine Finset.inf_congr rfl ?_
          intro x hx
          obtain ⟨hxr, hxh, hxt⟩ := Finset.mem_filter.mp hx
          rw [C2 ((net.arcs x).tail) (Finset.mem_insert_of_mem hxt), hproj]
        · refine Finset.inf_congr rfl ?_
          intro x hx
          obtain ⟨hxr, hxh, hxt⟩ := Finset.mem_filter.mp hx
          rw [C2 ((net.arcs x).tail) (by rw [hxt]; exact Finset.mem_insert_self _ _)]
          rw [hproj, hxt]
    · have hstep : dijkstraLoop net (fuel + 1) s = s := by
        rw [dijkstraLoop, if_neg hne]
      rw [hstep]
      exact ⟨hJ1, hJ2, hJ3, hJ4⟩

/-- C9: with nonnegative arc costs, after `shortestPath` from `origin` no
node below `firstThroughNode` other than the origin was ever enqueued or
expanded (so no shortest path of length at least two passes through a
centroid), and the label of every non-origin centroid equals the minimum
over its incoming arcs of (label of the tail + arc cost) taken over
expanded tails. -/
theorem C9_centroid_non_transit (net : Network) (origin : ℕ)
    (hcost : ∀ a, a < net.numArcs → 0 ≤ (net.arcs a).cost) :
    (∀ j, j < net.firstThroughNode → j ≠ origin →
      j ∉ (shortestPathState net origin).pending
      ∧ j ∉ (shortestPathState net origin).expanded)
    ∧ ∀ k, k < net.firstThroughNode → k ≠ origin →
      shortestPath net origin k
        = ((Finset.range net.numArcs).filter
            (fun a => (net.arcs a).head = k
              ∧ (net.arcs a).tail ∈ (shortestPathState net origin).expanded)).inf
          (fun a => shortestPath net origin ((net.arcs a).tail)
            + ((net.arcs a).cost : EReal)) := by
  have hJ1 : ∀ j ∈ (∅ : Finset ℕ), ∀ k ∈ ({origin} : Finset ℕ),
      Function.update (fun _ => (⊤ : EReal)) origin 0 j
        ≤ Function.update (fun _ => (⊤ : EReal)) origin 0 k :=
    fun j hj => absurd hj (Finset.not_mem_empty j)
  have hJ2 : ∀ j, j < net.firstThroughNode → j ≠ origin →
      j ∉ ({origin} : Finset ℕ) ∧ j ∉ (∅ : Finset ℕ) :=
    fun j _ ho => ⟨fun hc => ho (Finset.mem_singleton.mp hc), Finset.not_mem_empty j⟩
  have hJ3 : ∀ j, net.firstThroughNode ≤ j → j ≠ origin → j ∉ ({origin} : Finset ℕ) →
      j ∉ (∅ : Finset ℕ) → Function.update (fun _ => (⊤ : EReal)) origin 0 j = ⊤ :=
    fun j _ ho _ _ => Function.update_noteq ho _ _
  have hJ4 : ∀ k, k < net.firstThroughNode → k ≠ origin →
      Function.update (fun _ => (⊤ : EReal)) origin 0 k
        = ((Finset.range net.numArcs).filter
            (fun a => (net.arcs a).head = k ∧ (net.arcs a).tail ∈ (∅ : Finset ℕ))).inf
          (fun a => Function.update (fun _ => (⊤ : EReal)) origin 0 ((net.arcs a).tail)
            + ((net.arcs a).cost : EReal)) := by
    intro k hk ho
    rw [Function.update_noteq ho]
    have hempty : (Finset.range net.numArcs).filter
        (fun a => (net.arcs a).head = k ∧ (net.arcs a).tail ∈ (∅ : Finset ℕ)) = ∅ :=
      Finset.filter_false_of_mem (fun x _ hp => absurd hp.2 (Finset.not_mem_empty _))
    rw [hempty, Finset.inf_empty]
  obtain ⟨R1, R2, R3, R4⟩ := dijkstraLoop_invariant net origin hcost (net.numNodes + 1)
    { valueFn := Function.update (fun _ => (⊤ : EReal)) origin 0, pending := {origin}, expanded := (∅ : Finset ℕ) }
    hJ1 hJ2 hJ3 hJ4
  exact ⟨R2, R4⟩

/-- Witness for C9: the two-node network `net2` has nonnegative arc
costs, so the theorem applies to it at origin 1 concretely. -/
theorem C9_centroid_non_transit_witness :
    (∀ a, a < net2.numArcs → 0 ≤ (net2.arcs a).cost)
    ∧ ((∀ j, j < net2.firstThroughNode → j ≠ 1 →
          j ∉ (shortestPathState net2 1).pending
          ∧ j ∉ (shortestPathState net2 1).expanded)
      ∧ ∀ k, k < net2.firstThroughNode → k ≠ 1 →
          shortestPath net2 1 k
            = ((Finset.range net2.numArcs).filter
                (fun a => (net2.arcs a).head = k
                  ∧ (net2.arcs a).tail ∈ (shortestPathState net2 1).expanded)).inf
              (fun a => shortestPath net2 1 ((net2.arcs a).tail)
                + ((net2.arcs a).cost : EReal))) := by
  have h : ∀ a, a < net2.numArcs → 0 ≤ (net2.arcs a).cost := by
    intro a ha
    rw [net2_arcs]
    norm_num [mkArc]
  exact ⟨h, C9_centroid_non_transit net2 1 h⟩

/-! ### Concrete evaluation of the pipeline on `netPar` -/

theorem netPar_arcs0 : netPar.arcs 0 = mkArc 0 1 0 := rfl

theorem netPar_arcs1 : netPar.arcs 1 = mkArc 0 1 2 := rfl

theorem netPar_numNodes : netPar.numNodes = 2 := rfl

theorem netPar_numArcs : netPar.numArcs = 2 := rfl

theorem netPar_numZones : netPar.numZones = 2 := rfl

theorem netPar_ftn : netPar.firstThroughNode = 0 := rfl

theorem netPar_demand_01 : netPar.demand 0 1 = 1000 := by
  show (if (0 : ℕ) = 0 ∧ (1 : ℕ) = 1 then (1000 : ℝ) else 0) = 1000
  norm_num

theorem netPar_demand_00 : netPar.demand 0 0 = 0 := by
  show (if (0 : ℕ) = 0 ∧ (0 : ℕ) = 1 then (1000 : ℝ) else 0) = 0
  norm_num

theorem netPar_demand_1 (s : ℕ) : netPar.demand 1 s = 0 := by
  show (if (1 : ℕ) = 0 ∧ s = 1 then (1000 : ℝ) else 0) = 0
  norm_num

theorem nodeForwardStar_netPar_0 : nodeForwardStar netPar 0 = [0, 1] := by
  simp [nodeForwardStar, netPar, mkArc, List.range_succ, List.filter]

theorem nodeForwardStar_netPar_1 : nodeForwardStar netPar 1 = [] := by
  simp [nodeForwardStar, netPar, mkArc, List.range_succ, List.filter]

theorem netPar_sp0 : shortestPath netPar 0 0 = ((0 : ℝ) : EReal)
    ∧ shortestPath netPar 0 1 = ((1 : ℝ) : EReal) := by
  rw [shortestPath, shortestPathState, netPar_numNodes]
  rw [show (2 : ℕ) + 1 = 3 from rfl]
  rw [show (3 : ℕ) = 2 + 1 from rfl, dijkstraLoop]
  norm_num [findMinHeap_singleton, dijkstraRelax, nodeForwardStar_netPar_0,
    nodeForwardStar_netPar_1, netPar_arcs0, netPar_arcs1, netPar_numNodes,
    netPar_numArcs, netPar_ftn, mkArc_tail, mkArc_head, mkArc_cost,
    er_add_coe, Function.update_apply, Finset.erase_singleton, EReal.coe_lt_coe_iff,
    er_one_lt_top]
  rw [show (2 : ℕ) = 1 + 1 from rfl, dijkstraLoop]
  norm_num [findMinHeap_singleton, dijkstraRelax, nodeForwardStar_netPar_0,
    nodeForwardStar_netPar_1, Function.update_apply, Finset.erase_singleton]
  rw [show (1 : ℕ) = 0 + 1 from rfl, dijkstraLoop]
  norm_num [Function.update_apply]

theorem netPar_sp1 : shortestPath netPar 1 0 = (⊤ : EReal)
    ∧ shortestPath netPar 1 1 = ((0 : ℝ) : EReal) := by
  rw [shortestPath, shortestPathState, netPar_numNodes]
  rw [show (2 : ℕ) + 1 = 3 from rfl]
  rw [show (3 : ℕ) = 2 + 1 from rfl, dijkstraLoop]
  norm_num [findMinHeap_singleton, dijkstraRelax, nodeForwardStar_netPar_0,
    nodeForwardStar_netPar_1, Function.update_apply, Finset.erase_singleton]
  rw [show (2 : ℕ) = 1 + 1 from rfl, dijkstraLoop]
  norm_num [Function.update_apply]

theorem bushInsert_netPar0_a0 :
    bushInsertArc netPar (shortestPath netPar 0)
      (some { cells := [], fwdLists := fun _ => emptyAList,
              revLists := fun _ => emptyAList, numLinks := 0 }) 0
    = some { cells := [⟨0, none, none⟩, ⟨0, none, none⟩],
             fwdLists := Function.update (fun _ => emptyAList) 0 ⟨some 0, some 0, 1⟩,
             revLists := Function.update (fun _ => emptyAList) 1 ⟨some 1, some 1, 1⟩,
             numLinks := 1 } := by
  obtain ⟨h0, h1⟩ := netPar_sp0
  have hlt : shortestPath netPar 0 0 < shortestPath netPar 0 1 := by
    rw [h0, h1]
    exact_mod_cast (by norm_num : (0 : ℝ) < 1)
  rw [bushInsertArc]
  simp only [Option.bind_eq_bind, Option.some_bind, netPar_arcs0, mkArc_tail, mkArc_head]
  rw [if_pos hlt]
  simp only [insertArcList, emptyAList, Function.update_apply]
  norm_num

theorem bushInsert_netPar0_a1 :
    bushInsertArc netPar (shortestPath netPar 0)
      (some { cells := [⟨0, none, none⟩, ⟨0, none, none⟩],
              fwdLists := Function.update (fun _ => emptyAList) 0 ⟨some 0, some 0, 1⟩,
              revLists := Function.update (fun _ => emptyAList) 1 ⟨some 1, some 1, 1⟩,
              numLinks := 1 }) 1
    = some { cells := [⟨0, none, some 2⟩, ⟨0, some 3, none⟩, ⟨1, some 0, none⟩,
                       ⟨1, none, some 1⟩],
             fwdLists := Function.update (Function.update (fun _ => emptyAList) 0
               ⟨some 0, some 0, 1⟩) 0 ⟨some 0, some 2, 2⟩,
             revLists := Function.update (Function.update (fun _ => emptyAList) 1
               ⟨some 1, some 1, 1⟩) 1 ⟨some 3, some 1, 2⟩,
             numLinks := 2 } := by
  obtain ⟨h0, h1⟩ := netPar_sp0
  have hlt : shortestPath netPar 0 0 < shortestPath netPar 0 1 := by
    rw [h0, h1]
    exact_mod_cast (by norm_num : (0 : ℝ) < 1)
  rw [bushInsertArc]
  simp only [Option.bind_eq_bind, Option.some_bind, netPar_arcs1, mkArc_tail, mkArc_head]
  rw [if_pos hlt]
  simp only [insertArcList, emptyAList, Function.update_apply]
  norm_num
  simp

theorem buildBushLists_netPar_0 :
    buildBushLists netPar (shortestPath netPar 0)
    = some { cells := [⟨0, none, some 2⟩, ⟨0, some 3, none⟩, ⟨1, some 0, none⟩,
                       ⟨1, none, some 1⟩],
             fwdLists := Function.update (Function.update (fun _ => emptyAList) 0
               ⟨some 0, some 0, 1⟩) 0 ⟨some 0, some 2, 2⟩,
             revLists := Function.update (Function.update (fun _ => emptyAList) 1
               ⟨some 1, some 1, 1⟩) 1 ⟨some 3, some 1, 2⟩,
             numLinks := 2 } := by
  rw [buildBushLists, netPar_numArcs, show List.range 2 = [0, 1] from rfl,
    List.foldl_cons, List.foldl_cons, List.foldl_nil]
  rw [bushInsert_netPar0_a0, bushInsert_netPar0_a1]

theorem bushInsert_netPar1_skip (st : BushBuildState) (ij : ℕ) (hij : ij < 2) :
    bushInsertArc netPar (shortestPath netPar 1) (some st) ij = some st := by
  obtain ⟨h0, h1⟩ := netPar_sp1
  have hnlt : ¬ shortestPath netPar 1 ((netPar.arcs ij).tail)
      < shortestPath netPar 1 ((netPar.arcs ij).head) := by
    interval_cases ij
    · rw [netPar_arcs0, mkArc_tail, mkArc_head, h0]
      exact not_top_lt
    · rw [netPar_arcs1, mkArc_tail, mkArc_head, h0]
      exact not_top_lt
  rw [bushInsertArc]
  simp only [Option.bind_eq_bind, Option.some_bind]
  rw [if_neg hnlt]

theorem buildBushLists_netPar_1 :
    buildBushLists netPar (shortestPath netPar 1)
    = some { cells := [], fwdLists := fun _ => emptyAList,
             revLists := fun _ => emptyAList, numLinks := 0 } := by
  rw [buildBushLists, netPar_numArcs, show List.range 2 = [0, 1] from rfl,
    List.foldl_cons, List.foldl_cons, List.foldl_nil]
  rw [bushInsert_netPar1_skip _ 0 (by norm_num), bushInsert_netPar1_skip _ 1 (by norm_num)]

theorem buildOriginBush_netPar_0 : buildOriginBush netPar 0 = some OB0par := by
  rw [buildOriginBush, buildBushLists_netPar_0]
  rfl

theorem buildOriginBush_netPar_1 : buildOriginBush netPar 1 = some OB1par := by
  rw [buildOriginBush, buildBushLists_netPar_1]
  rfl

theorem clampInitialCosts_netPar : clampInitialCosts netPar = netPar := by
  refine clampInitialCosts_eq_of netPar ?_
  intro ij hij
  rw [netPar_numArcs] at hij
  interval_cases ij
  · norm_num [netPar_arcs0, mkArc]
  · norm_num [netPar_arcs1, mkArc]

theorem initializeBushes_netPar : initializeBushes netPar = some (netPar, bushesPar) := by
  simp only [initializeBushes, clampInitialCosts_netPar]
  rw [show List.range netPar.numZones = [0, 1] from rfl, List.foldl_cons, List.foldl_cons,
    List.foldl_nil]
  simp only [Option.bind_eq_bind, Option.some_bind]
  rw [buildOriginBush_netPar_0]
  simp only [Option.some_bind]
  rw [buildOriginBush_netPar_1]
  simp only [Option.some_bind]
  rfl

theorem er_div_coe (x y : ℝ) : ((x : EReal) / (y : EReal)) = ((x / y : ℝ) : EReal) := by
  rw [div_eq_mul_inv, ← EReal.coe_inv, ← EReal.coe_mul, ← div_eq_mul_inv]

theorem er_sub_coe (x y : ℝ) : ((x : EReal) - (y : EReal)) = ((x - y : ℝ) : EReal) := by
  rw [sub_eq_add_neg, ← EReal.coe_neg, er_add_coe, ← sub_eq_add_neg]

/-- Star lists of the two-parallel-arc bush shape are well formed for the
bush arc set `{0, 1}`. -/
theorem starsWF_par (net : Network) (hna : net.numArcs = 2)
    (h0t : (net.arcs 0).tail = 0) (h0h : (net.arcs 0).head = 1)
    (h1t : (net.arcs 1).tail = 0) (h1h : (net.arcs 1).head = 1) :
    StarsWF net fwd0Par rev0Par ({0, 1} : Finset ℕ) := by
  have hf0 : fwd0Par 0 = [0, 1] := rfl
  have hf1 : fwd0Par 1 = [] := rfl
  have hr0 : rev0Par 0 = [] := rfl
  have hr1 : rev0Par 1 = [1, 0] := rfl
  have hfo : ∀ i, i ≠ 0 → i ≠ 1 → fwd0Par i = [] := by
    intro i hi0 hi1
    rw [fwd0Par, Function.update_noteq hi1, Function.update_noteq hi0]
  have hro : ∀ i, i ≠ 0 → i ≠ 1 → rev0Par i = [] := by
    intro i hi0 hi1
    rw [rev0Par, Function.update_noteq hi1, Function.update_noteq hi0]
  have hmem : ∀ a, a ∈ ({0, 1} : Finset ℕ) ↔ a = 0 ∨ a = 1 := by
    intro a
    rw [Finset.mem_insert, Finset.mem_singleton]
  refine ⟨?_, ?_, ?_, ?_, ?_⟩
  · intro a ha
    rw [hna]
    rcases (hmem a).mp ha with h | h <;> omega
  · intro i a
    constructor
    · intro ha
      by_cases hi0 : i = 0
      · subst hi0
        rw [hf0] at ha
        rcases List.mem_cons.mp ha with h | h
        · subst h
          exact ⟨(hmem 0).mpr (Or.inl rfl), h0t⟩
        · rw [List.mem_singleton] at h
          subst h
          exact ⟨(hmem 1).mpr (Or.inr rfl), h1t⟩
      · by_cases hi1 : i = 1
        · subst hi1
          rw [hf1] at ha
          exact absurd ha (List.not_mem_nil a)
        · rw [hfo i hi0 hi1] at ha
          exact absurd ha (List.not_mem_nil a)
    · rintro ⟨haB, hta⟩
      rcases (hmem a).mp haB with h | h
      · subst h
        rw [h0t] at hta
        rw [← hta, hf0]
        norm_num
      · subst h
        rw [h1t] at hta
        rw [← hta, hf0]
        norm_num
  · intro i a
    constructor
    · intro ha
      by_cases hi1 : i = 1
      · subst hi1
        rw [hr1] at ha
        rcases List.mem_cons.mp ha with h | h
        · subst h
          exact ⟨(hmem 1).mpr (Or.inr rfl), h1h⟩
        · rw [List.mem_singleton] at h
          subst h
          exact ⟨(hmem 0).mpr (Or.inl rfl), h0h⟩
      · by_cases hi0 : i = 0
        · subst hi0
          rw [hr0] at ha
          exact absurd ha (List.not_mem_nil a)
        · rw [hro i hi0 hi1] at ha
          exact absurd ha (List.not_mem_nil a)
    · rintro ⟨haB, hha⟩
      rcases (hmem a).mp haB with h | h
      · subst h
        rw [h0h] at hha
        rw [← hha, hr1]
        norm_num
      · subst h
        rw [h1h] at hha
        rw [← hha, hr1]
        norm_num
  · intro i
    by_cases hi0 : i = 0
    · subst hi0
      rw [hf0]
      decide
    · by_cases hi1 : i = 1
      · subst hi1
        rw [hf1]
        exact List.nodup_nil
      · rw [hfo i hi0 hi1]
        exact List.nodup_nil
  · intro i
    by_cases hi1 : i = 1
    · subst hi1
      rw [hr1]
      decide
    · by_cases hi0 : i = 0
      · subst hi0
        rw [hr0]
        exact List.nodup_nil
      · rw [hro i hi0 hi1]
        exact List.nodup_nil

/-- Full bush well-formedness of the two-parallel-arc shape at origin 0. -/
theorem netParShape_wf (net : Network) (b : Bushes)
    (hnn : net.numNodes = 2) (hnz : net.numZones = 2) (hna : net.numArcs = 2)
    (h0t : (net.arcs 0).tail = 0) (h0h : (net.arcs 0).head = 1)
    (h1t : (net.arcs 1).tail = 0) (h1h : (net.arcs 1).head = 1)
    (hord : b.bushOrder 0 = [0, 1])
    (hfwd : b.bushForwardStar 0 = fwd0Par)
    (hrev : b.bushReverseStar 0 = rev0Par) :
    BushWF net b 0 ({0, 1} : Finset ℕ) := by
  refine ⟨?_, ?_, ?_, ?_, ?_, ?_⟩
  · intro ij hij
    rw [hna] at hij
    interval_cases ij
    · rw [h0t, h0h, hnn]
      exact ⟨by norm_num, by norm_num⟩
    · rw [h1t, h1h, hnn]
      exact ⟨by norm_num, by norm_num⟩
  · rw [hnz, hnn]
  · rw [hfwd, hrev]
    exact starsWF_par net hna h0t h0h h1t h1h
  · rw [hord, hnn]
    decide
  · rw [hord]
    rfl
  · intro a haB
    rw [hord]
    rcases Finset.mem_insert.mp haB with h | h
    · subst h
      rw [h0t, h0h]
      decide
    · rw [Finset.mem_singleton] at h
      subst h
      rw [h1t, h1h]
      decide

/-- Dial loading of the two-parallel-arc shape at origin 0 with unit cost
on arc 0 and cost `C ≥ 1` on arc 1 and `theta = 1`: the 1000 units of
demand split between the arcs in proportion `1 : exp(1 - C)`. -/
theorem dial_par_flow (net : Network) (b : Bushes) (C : ℝ) (hC : 1 ≤ C)
    (hnn : net.numNodes = 2) (hnz : net.numZones = 2) (hna : net.numArcs = 2)
    (h0t : (net.arcs 0).tail = 0) (h0h : (net.arcs 0).head = 1)
    (h1t : (net.arcs 1).tail = 0) (h1h : (net.arcs 1).head = 1)
    (hc0 : (net.arcs 0).cost = 1) (hc1 : (net.arcs 1).cost = C)
    (hdem1 : net.demand 0 1 = 1000)
    (hord : b.bushOrder 0 = [0, 1])
    (hfwd : b.bushForwardStar 0 = fwd0Par)
    (hrev : b.bushReverseStar 0 = rev0Par) :
    (dialFlows net b 0 1).2.flow 0 = 1000 * (1 / (Real.exp (1 - C) + 1))
    ∧ (dialFlows net b 0 1).2.flow 1
        = 1000 * (Real.exp (1 - C) / (Real.exp (1 - C) + 1)) := by
  have hrev1app : b.bushReverseStar 0 1 = [1, 0] := by
    rw [hrev]
    rfl
  have hordd : (b.bushOrder 0).drop 1 = [1] := by
    rw [hord]
    rfl
  -- Phase 1: bush shortest-path labels
  have hspfold : (bushShortestPath net b 0).SPcost
      = ([1] : List ℕ).foldl
          (fun L i => (b.bushReverseStar 0 i).foldl (fun M a => Function.update M i
              (min (M i) (M ((net.arcs a).tail) + ((net.arcs a).cost : EReal))))
            (Function.update L i ⊤))
          (Function.update b.SPcost 0 0) := by
    have h : (bushShortestPath net b 0).SPcost
        = ((b.bushOrder 0).drop 1).foldl
            (fun L i => (b.bushReverseStar 0 i).foldl (fun M a => Function.update M i
                (min (M i) (M ((net.arcs a).tail) + ((net.arcs a).cost : EReal))))
              (Function.update L i ⊤))
            (Function.update b.SPcost 0 0) := rfl
    rw [h, hordd]
  have htails : tailsEarlier net (b.bushReverseStar 0) [1] := by
    refine ⟨?_, trivial⟩
    intro a ha
    rw [hrev1app] at ha
    rcases List.mem_cons.mp ha with h | h
    · subst h
      rw [h1t]
      decide
    · rw [List.mem_singleton] at h
      subst h
      rw [h0t]
      decide
  obtain ⟨hun, hat⟩ := spFold_correct net (b.bushReverseStar 0) [1]
    (Function.update b.SPcost 0 0) (by decide) htails
  have hsp0 : (bushShortestPath net b 0).SPcost 0 = ((0 : ℝ) : EReal) := by
    rw [hspfold, hun 0 (by decide), Function.update_same]
    exact EReal.coe_zero.symm
  have hsp1 : (bushShortestPath net b 0).SPcost 1 = ((1 : ℝ) : EReal) := by
    rw [hspfold, hat 1 (by decide), hrev1app, List.foldl_cons, List.foldl_cons,
      List.foldl_nil, spCand, spCand, h1t, h0t, hc1, hc0,
      hun 0 (by decide), Function.update_same, zero_add, zero_add,
      min_eq_right (le_top : (C : EReal) ≤ ⊤),
      min_eq_right (by exact_mod_cast hC : ((1 : ℝ) : EReal) ≤ (C : EReal))]
  -- Phase 2: likelihoods
  have hlik0 : (computeLikelihoods net (bushShortestPath net b 0) 1).likelihood 0
      = ((1 : ℝ) : EReal) := by
    obtain ⟨_, hl⟩ := computeLikelihoods_spec net (bushShortestPath net b 0) 1 0
      (by rw [hna]; norm_num)
    rw [hl, likelihoodValue, h0t, h0h, hsp0, hsp1, hc0]
    rw [if_neg (EReal.coe_ne_top 0)]
    rw [er_sub_coe, er_sub_coe, ← EReal.coe_mul]
    rw [show (1 : ℝ) * (1 - 0 - 1) = 0 by norm_num]
    rw [expE_coe, Real.exp_zero]
  have hlik1 : (computeLikelihoods net (bushShortestPath net b 0) 1).likelihood 1
      = ((Real.exp (1 - C) : ℝ) : EReal) := by
    obtain ⟨_, hl⟩ := computeLikelihoods_spec net (bushShortestPath net b 0) 1 1
      (by rw [hna]; norm_num)
    rw [hl, likelihoodValue, h1t, h1h, hsp0, hsp1, hc1]
    rw [if_neg (EReal.coe_ne_top 0)]
    rw [er_sub_coe, er_sub_coe, ← EReal.coe_mul]
    rw [show (1 : ℝ) * (1 - 0 - C) = 1 - C by ring]
    rw [expE_coe]
  -- persistent bush structure after phases 1 and 2
  obtain ⟨hp1o, hp1f, hp1r, _, _⟩ := bushShortestPath_persistent net b 0
  obtain ⟨hp2o, hp2f, hp2r, _, _⟩ :=
    computeLikelihoods_persistent net (bushShortestPath net b 0) 1
  have hb2ord : (computeLikelihoods net (bushShortestPath net b 0) 1).bushOrder 0
      = [0, 1] := by rw [congrFun hp2o 0, congrFun hp1o 0, hord]
  have hb2fwd : (computeLikelihoods net (bushShortestPath net b 0) 1).bushForwardStar 0
      = fwd0Par := by rw [congrFun hp2f 0, congrFun hp1f 0, hfwd]
  have hb2rev : (computeLikelihoods net (bushShortestPath net b 0) 1).bushReverseStar 0
      = rev0Par := by rw [congrFun hp2r 0, congrFun hp1r 0, hrev]
  have wf2 : BushWF net (computeLikelihoods net (bushShortestPath net b 0) 1) 0
      ({0, 1} : Finset ℕ) :=
    netParShape_wf net _ hnn hnz hna h0t h0h h1t h1h hb2ord hb2fwd hb2rev
  -- Phase 3: weights
  obtain ⟨⟨hWlik, _, _, _⟩, hWnw0, hWsum, hWprod⟩ :=
    computeWeights_eval net (computeLikelihoods net (bushShortestPath net b 0) 1) 0
      ({0, 1} : Finset ℕ) wf2
  have hw0 : (computeWeights net (computeLikelihoods net (bushShortestPath net b 0) 1)
      0).weight 0 = ((1 : ℝ) : EReal) := by
    rw [hWprod 0 (by decide), h0t, hWnw0, congrFun hWlik 0, hlik0, one_mul]
  have hw1 : (computeWeights net (computeLikelihoods net (bushShortestPath net b 0) 1)
      0).weight 1 = ((Real.exp (1 - C) : ℝ) : EReal) := by
    rw [hWprod 1 (by decide), h1t, hWnw0, congrFun hWlik 1, hlik1, one_mul]
  have hnw1 : (computeWeights net (computeLikelihoods net (bushShortestPath net b 0) 1)
      0).nodeWeight 1 = ((Real.exp (1 - C) + 1 : ℝ) : EReal) := by
    have hmem : (1 : ℕ) ∈ ((computeLikelihoods net (bushShortestPath net b 0)
        1).bushOrder 0).drop 1 := by
      rw [hb2ord]
      decide
    rw [hWsum 1 hmem, hb2rev, show rev0Par 1 = [1, 0] from rfl, List.map_cons,
      List.map_cons, List.map_nil, List.sum_cons, List.sum_cons, List.sum_nil,
      hw1, hw0, add_zero, er_add_coe]
  -- persistent structure after phase 3
  obtain ⟨hp3o, hp3f, hp3r, _, _⟩ := computeWeights_persistent net
    (computeLikelihoods net (bushShortestPath net b 0) 1) 0
  have hb3ord : (computeWeights net (computeLikelihoods net (bushShortestPath net b 0) 1)
      0).bushOrder 0 = [0, 1] := by rw [congrFun hp3o 0, hb2ord]
  have hb3fwd : (computeWeights net (computeLikelihoods net (bushShortestPath net b 0) 1)
      0).bushForwardStar 0 = fwd0Par := by rw [congrFun hp3f 0, hb2fwd]
  have hb3rev : (computeWeights net (computeLikelihoods net (bushShortestPath net b 0) 1)
      0).bushReverseStar 0 = rev0Par := by rw [congrFun hp3r 0, hb2rev]
  have wf3 : BushWF net (computeWeights net (computeLikelihoods net
      (bushShortestPath net b 0) 1) 0) 0 ({0, 1} : Finset ℕ) :=
    netParShape_wf net _ hnn hnz hna h0t h0h h1t h1h hb3ord hb3fwd hb3rev
  -- Phase 4: flows
  obtain ⟨_, hFnfl, hFflow⟩ :=
    computeFlows_eval net (computeWeights net (computeLikelihoods net
      (bushShortestPath net b 0) 1) 0) 0 ({0, 1} : Finset ℕ) wf3
  have hmem1 : (1 : ℕ) ∈ (computeWeights net (computeLikelihoods net
      (bushShortestPath net b 0) 1) 0).bushOrder 0 := by
    rw [hb3ord]
    decide
  have hmemr : ∀ a, a ∈ [1, 0] → a ∈ (computeWeights net (computeLikelihoods net
      (bushShortestPath net b 0) 1) 0).bushReverseStar 0 1 := by
    intro a ha
    rw [hb3rev]
    exact ha
  have hnf1 : (computeFlows net (computeWeights net (computeLikelihoods net
      (bushShortestPath net b 0) 1) 0) 0).nodeFlow 1 = 1000 := by
    rw [hFnfl 1 hmem1, hb3fwd, show fwd0Par 1 = [] from rfl, List.map_nil,
      List.sum_nil, add_zero, if_pos (by rw [hnz]; norm_num), hdem1]
  have hexp_pos : (0 : ℝ) < Real.exp (1 - C) + 1 := by positivity
  have hnwne : ¬ (computeWeights net (computeLikelihoods net (bushShortestPath net b 0)
      1) 0).nodeWeight 1 = 0 := by
    rw [hnw1]
    intro hcon
    rw [show (0 : EReal) = ((0 : ℝ) : EReal) from EReal.coe_zero.symm,
      EReal.coe_eq_coe_iff] at hcon
    exact (ne_of_gt hexp_pos) hcon
  have hfl1 : (computeFlows net (computeWeights net (computeLikelihoods net
      (bushShortestPath net b 0) 1) 0) 0).flow 1
      = 1000 * (Real.exp (1 - C) / (Real.exp (1 - C) + 1)) := by
    rw [hFflow 1 hmem1 1 (hmemr 1 (by decide)), if_neg hnwne, hnf1, hw1, hnw1,
      er_div_coe, EReal.toReal_coe]
  have hfl0 : (computeFlows net (computeWeights net (computeLikelihoods net
      (bushShortestPath net b 0) 1) 0) 0).flow 0
      = 1000 * (1 / (Real.exp (1 - C) + 1)) := by
    rw [hFflow 1 hmem1 0 (hmemr 0 (by decide)), if_neg hnwne, hnf1, hw0, hnw1,
      er_div_coe, EReal.toReal_coe]
  exact ⟨hfl0, hfl1⟩

/-- `computeWeights` never writes the scratch flow array. -/
theorem computeWeights_flow_frame (net : Network) (c : Bushes) (origin : ℕ) :
    (computeWeights net c origin).flow = c.flow := by
  rw [computeWeights]
  apply foldl_field_eq2
  · intro a x
    exact foldl_field_eq2 (fun a2 x2 => rfl) (foldl_field_eq2 (fun a2 x2 => rfl) rfl)
  · exact foldl_field_eq2 (fun a2 x2 => rfl) rfl

/-- On the two-node shape whose origin-1 bush has no arcs, `computeFlows`
writes no arc flow at all. -/
theorem computeFlows_empty_rev_flow (net : Network) (c : Bushes)
    (hnn : net.numNodes = 2)
    (hord1 : c.bushOrder 1 = [1, 0])
    (hrev10 : c.bushReverseStar 1 0 = []) (hrev11 : c.bushReverseStar 1 1 = [])
    (hfwd11 : c.bushForwardStar 1 1 = []) :
    (computeFlows net c 1).flow = c.flow := by
  norm_num [computeFlows, hord1, hrev10, hrev11, hfwd11, hnn,
    List.foldl_cons, List.foldl_nil]

/-- Dial loading at origin 1 on the shape with an empty origin-1 bush:
every arc flow is left at the zero written by the likelihood reset. -/
theorem dial_par_o1_flow (net : Network) (c : Bushes)
    (hnn : net.numNodes = 2) (hna : net.numArcs = 2)
    (hord1 : c.bushOrder 1 = [1, 0])
    (hrev10 : c.bushReverseStar 1 0 = []) (hrev11 : c.bushReverseStar 1 1 = [])
    (hfwd11 : c.bushForwardStar 1 1 = []) :
    ∀ ij, ij < 2 → (dialFlows net c 1 1).2.flow ij = 0 := by
  intro ij hij
  obtain ⟨hp1o, hp1f, hp1r, _, _⟩ := bushShortestPath_persistent net c 1
  obtain ⟨hp2o, hp2f, hp2r, _, _⟩ :=
    computeLikelihoods_persistent net (bushShortestPath net c 1) 1
  obtain ⟨hp3o, hp3f, hp3r, _, _⟩ := computeWeights_persistent net
    (computeLikelihoods net (bushShortestPath net c 1) 1) 1
  have h1 : (dialFlows net c 1 1).2 = computeFlows net (computeWeights net
      (computeLikelihoods net (bushShortestPath net c 1) 1) 1) 1 := rfl
  rw [h1, computeFlows_empty_rev_flow net _ hnn
    (by rw [congrFun hp3o 1, congrFun hp2o 1, congrFun hp1o 1, hord1])
    (by rw [congrFun (congrFun hp3r 1) 0, congrFun (congrFun hp2r 1) 0,
      congrFun (congrFun hp1r 1) 0, hrev10])
    (by rw [congrFun (congrFun hp3r 1) 1, congrFun (congrFun hp2r 1) 1,
      congrFun (congrFun hp1r 1) 1, hrev11])
    (by rw [congrFun (congrFun hp3f 1) 1, congrFun (congrFun hp2f 1) 1,
      congrFun (congrFun hp1f 1) 1, hfwd11])]
  rw [computeWeights_flow_frame]
  exact (computeLikelihoods_spec net (bushShortestPath net c 1) 1 ij
    (by rw [hna]; exact hij)).1

/-- Target vector computed by `calculateTarget` on the two-parallel-arc
shape with unit cost on arc 0, cost `C` on arc 1 and `theta = 1`: the
origin-0 loading is the only contribution. -/
theorem calcTarget_par (net : Network) (b : Bushes) (C : ℝ) (hC : 1 ≤ C)
    (hnn : net.numNodes = 2) (hnz : net.numZones = 2) (hna : net.numArcs = 2)
    (h0t : (net.arcs 0).tail = 0) (h0h : (net.arcs 0).head = 1)
    (h1t : (net.arcs 1).tail = 0) (h1h : (net.arcs 1).head = 1)
    (hc0 : (net.arcs 0).cost = 1) (hc1 : (net.arcs 1).cost = C)
    (hdem1 : net.demand 0 1 = 1000)
    (hord : b.bushOrder 0 = [0, 1])
    (hfwd : b.bushForwardStar 0 = fwd0Par)
    (hrev : b.bushReverseStar 0 = rev0Par)
    (hord1 : b.bushOrder 1 = [1, 0])
    (hrev10 : b.bushReverseStar 1 0 = []) (hrev11 : b.bushReverseStar 1 1 = [])
    (hfwd11 : b.bushForwardStar 1 1 = []) :
    (calculateTarget net b 1).1 0 = 1000 * (1 / (Real.exp (1 - C) + 1))
    ∧ (calculateTarget net b 1).1 1
        = 1000 * (Real.exp (1 - C) / (Real.exp (1 - C) + 1))
    ∧ (calculateTarget net b 1).2.1 = net := by
  obtain ⟨hfl0, hfl1⟩ := dial_par_flow net b C hC hnn hnz hna h0t h0h h1t h1h
    hc0 hc1 hdem1 hord hfwd hrev
  obtain ⟨_, hdo, hdf, hdr, _, _⟩ := dialFlows_persistent net b 0 1
  have ho1flow := dial_par_o1_flow net (dialFlows net b 0 1).2 hnn hna
    (by rw [congrFun hdo 1, hord1])
    (by rw [congrFun (congrFun hdr 1) 0, hrev10])
    (by rw [congrFun (congrFun hdr 1) 1, hrev11])
    (by rw [congrFun (congrFun hdf 1) 1, hfwd11])
  have hrange : List.range net.numZones = [0, 1] := by
    rw [hnz]
    rfl
  have hd1 : ∀ (X : Network) (Y : Bushes) (r : ℕ), (dialFlows X Y r (1 : ℝ)).1 = X :=
    fun X Y r => rfl
  rw [calculateTarget, hrange, List.foldl_cons, List.foldl_cons, List.foldl_nil]
  simp only [hd1, hna]
  norm_num
  exact ⟨by rw [hfl0, ho1flow 0 (by norm_num)]; ring,
    by rw [hfl1, ho1flow 1 (by norm_num)]; ring⟩

/-- The initial stochastic loading on `netPar` splits the 1000 units of
demand evenly over the two equal-cost parallel arcs. -/
theorem TPar0 : (calculateTarget netPar bushesPar 1).1 0 = 500 := by
  have h := (calcTarget_par netPar bushesPar 1 (le_refl 1) rfl rfl rfl rfl rfl rfl rfl
    rfl rfl netPar_demand_01 rfl rfl rfl rfl rfl rfl rfl).1
  rw [h, show (1 : ℝ) - 1 = 0 by norm_num, Real.exp_zero]
  norm_num

theorem TPar1 : (calculateTarget netPar bushesPar 1).1 1 = 500 := by
  have h := (calcTarget_par netPar bushesPar 1 (le_refl 1) rfl rfl rfl rfl rfl rfl rfl
    rfl rfl netPar_demand_01 rfl rfl rfl rfl rfl rfl rfl).2.1
  rw [h, show (1 : ℝ) - 1 = 0 by norm_num, Real.exp_zero]
  norm_num

theorem initializeSolution_netPar :
    initializeSolution netPar 1
    = some (NIPar, B1Par,
        ((List.range netPar.numZones).map bushesPar.numBushLinks).sum,
        ((List.range netPar.numZones).map bushesPar.numBushPaths).sum) := by
  rw [initializeSolution, initializeBushes_netPar]
  simp only [Option.bind_eq_bind, Option.some_bind]
  rfl

theorem U_cost0 : ((updateLinkCosts NIPar).arcs 0).cost = 1 := by
  show linearBPRcost { mkArc 0 1 0 with flow := (calculateTarget netPar bushesPar 1).1 0 } = 1
  rw [linearBPRcost]
  norm_num [mkArc]

theorem U_cost1 : ((updateLinkCosts NIPar).arcs 1).cost = 1001 := by
  show linearBPRcost { mkArc 0 1 2 with flow := (calculateTarget netPar bushesPar 1).1 1 } = 1001
  rw [linearBPRcost]
  show (mkArc 0 1 2).fixedCost + (mkArc 0 1 2).freeFlowTime
      * (1 + (mkArc 0 1 2).alpha * (calculateTarget netPar bushesPar 1).1 1
        / (mkArc 0 1 2).capacity) = 1001
  rw [TPar1]
  norm_num [mkArc]

theorem U_flow0 : ((updateLinkCosts NIPar).arcs 0).flow = 500 := TPar0

theorem U_flow1 : ((updateLinkCosts NIPar).arcs 1).flow = 500 := TPar1

theorem B1Par_frame : B1Par.bushOrder = bushesPar.bushOrder
    ∧ B1Par.bushForwardStar = bushesPar.bushForwardStar
    ∧ B1Par.bushReverseStar = bushesPar.bushReverseStar := by
  obtain ⟨_, h1, h2, h3, _, _⟩ := calcTarget_fold_frame 1 (List.range netPar.numZones)
    (fun _ => 0) netPar bushesPar
  exact ⟨h1, h2, h3⟩

/-- The target recomputed after the first cost update differs from the
loaded flows by `500 (1 - e^{-1000}) / (1 + e^{-1000})` per arc on
average. -/
theorem avgDiff_netPar :
    avgFlowDiff (calculateTarget (updateLinkCosts NIPar) B1Par 1).2.1
      (calculateTarget (updateLinkCosts NIPar) B1Par 1).1
    = 500 * (1 - Real.exp (-1000)) / (1 + Real.exp (-1000)) := by
  obtain ⟨hB1o, hB1f, hB1r⟩ := B1Par_frame
  obtain ⟨hT0, hT1, hTnet⟩ := calcTarget_par (updateLinkCosts NIPar) B1Par 1001
    (by norm_num) rfl rfl rfl rfl rfl rfl rfl U_cost0 U_cost1 netPar_demand_01
    (by rw [congrFun hB1o 0]; rfl)
    (by rw [congrFun hB1f 0]; rfl)
    (by rw [congrFun hB1r 0]; rfl)
    (by rw [congrFun hB1o 1]; rfl)
    (by rw [congrFun (congrFun hB1r 1) 0]; rfl)
    (by rw [congrFun (congrFun hB1r 1) 1]; rfl)
    (by rw [congrFun (congrFun hB1f 1) 1]; rfl)
  rw [hTnet, avgFlowDiff]
  rw [show (updateLinkCosts NIPar).numArcs = 2 from rfl]
  rw [show List.range 2 = [0, 1] from rfl]
  rw [List.map_cons, List.map_cons, List.map_nil, List.sum_cons, List.sum_cons,
    List.sum_nil, U_flow0, U_flow1, hT0, hT1]
  rw [show (1 : ℝ) - 1001 = -1000 by norm_num]
  have hq0 : 0 < Real.exp (-1000) := Real.exp_pos _
  have hq1 : Real.exp (-1000) < 1 := by
    rw [Real.exp_lt_one_iff]
    norm_num
  have hd : 0 < Real.exp (-1000) + 1 := by linarith
  have hA : |500 - 1000 * (1 / (Real.exp (-1000) + 1))|
      = (1000 * (1 / (Real.exp (-1000) + 1)) - 500) := by
    rw [abs_sub_comm]
    rw [abs_of_nonneg (by rw [sub_nonneg, mul_one_div, le_div_iff₀ hd]; nlinarith)]
  have hB : |500 - 1000 * (Real.exp (-1000) / (Real.exp (-1000) + 1))|
      = 500 - 1000 * (Real.exp (-1000) / (Real.exp (-1000) + 1)) := by
    rw [abs_of_nonneg (by rw [sub_nonneg, ← mul_div_assoc, div_le_iff₀ hd]; nlinarith)]
  rw [hA, hB]
  field_simp
  ring

/-- C3, counterexample: on `netPar` with `theta = 1`, `lambda = 1/2` and an
initialization that already consumed 4000 s of wall clock, `SUE_MSA` hits
the 3600 s time cap at iteration 0 while the average flow difference is
`500 (1 - e^{-1000}) / (1 + e^{-1000})`, far above the tolerance `1e-3` —
yet it exits with the converged flag `true`, not `false` as the claim
states. -/
theorem C3_counterexample :
    ((SUE_MSA netPar 1 (1/2) 4000 (fun _ => 0)).map
        (fun res => (res.2.2.1, res.2.2.2))) = some (0, true)
    ∧ ((initializeSolution netPar 1).map
        (fun is => avgFlowDiff (calculateTarget (updateLinkCosts is.1) is.2.1 1).2.1
          (calculateTarget (updateLinkCosts is.1) is.2.1 1).1))
        = some (500 * (1 - Real.exp (-1000)) / (1 + Real.exp (-1000)))
    ∧ (1e-3 : ℝ) ≤ 500 * (1 - Real.exp (-1000)) / (1 + Real.exp (-1000))
    ∧ (3600 : ℝ) < 4000 + (fun _ : ℕ => (0 : ℝ)) 0 := by
  have hstop : msaStop (4000 + (fun _ : ℕ => (0 : ℝ)) 0) 0
      (avgFlowDiff (calculateTarget (updateLinkCosts NIPar) B1Par 1).2.1
        (calculateTarget (updateLinkCosts NIPar) B1Par 1).1) := by
    rw [msaStop]
    left
    norm_num
  refine ⟨?_, ?_, ?_, by norm_num⟩
  · rw [SUE_MSA, initializeSolution_netPar]
    simp only [Option.bind_eq_bind, Option.some_bind, Option.map_some']
    rw [sueLoop, if_pos hstop]
  · rw [initializeSolution_netPar, Option.map_some']
    exact congrArg some avgDiff_netPar
  · have hq0 : 0 < Real.exp (-1000) := Real.exp_pos _
    have hqh : Real.exp (-1000) ≤ 1 / 2 := by
      rw [Real.exp_neg]
      rw [show (1 : ℝ) / 2 = 2⁻¹ by norm_num]
      refine inv_le_inv_of_le (by norm_num) ?_
      have h1 : (1000 : ℝ) + 1 ≤ Real.exp 1000 := Real.add_one_le_exp 1000
      linarith
    have hden : (0 : ℝ) < 1 + Real.exp (-1000) := by linarith
    rw [le_div_iff₀ hden]
    nlinarith

/-- Witness for `C3_converged_flag`: on `net2` at the iteration cap the
loop exits at once with flag `true` and untouched flows, and the complete
`SUE_MSA` run on `netPar` ends with flag `true`. -/
theorem C3_converged_flag_witness :
    (sueLoop 1 (1/2) (fun _ => 0) net2 emptyBushes 100 0).2.2.2 = true
    ∧ ((sueLoop 1 (1/2) (fun _ => 0) net2 emptyBushes 100 0).2.2.1 = 100
      ∧ ∀ ij, ((sueLoop 1 (1/2) (fun _ => 0) net2 emptyBushes 100 0).1.arcs ij).flow
          = (net2.arcs ij).flow)
    ∧ (sueLoop 1 (1/2) (fun _ => 0) NIPar B1Par 0 4000).2.2.2 = true := by
  have hm : msaStop (0 + (fun _ : ℕ => (0 : ℝ)) 100) 100
      (avgFlowDiff (calculateTarget (updateLinkCosts net2) emptyBushes 1).2.1
        (calculateTarget (updateLinkCosts net2) emptyBushes 1).1) := by
    rw [msaStop]
    right
    left
    norm_num
  have hres : SUE_MSA netPar 1 (1/2) 4000 (fun _ => 0)
      = some (sueLoop 1 (1/2) (fun _ => 0) NIPar B1Par 0 4000) := by
    rw [SUE_MSA, initializeSolution_netPar]
    simp only [Option.bind_eq_bind, Option.some_bind]
  exact ⟨(C3_converged_flag 1 (1/2) (fun _ => 0) net2 emptyBushes 100 0).1,
    (C3_converged_flag 1 (1/2) (fun _ => 0) net2 emptyBushes 100 0).2.1 hm,
    (C3_converged_flag 1 (1/2) (fun _ => 0) net2 emptyBushes 100 0).2.2 netPar 4000 _ hres⟩

/-- C1: the claim is false of the code — the reverse-star insertion of
`initializeBushes` does not append at the tail of `reverseStar[r][j]` in
arc-ID order.  The source (bush.c:62) passes the tail of the head node's
forward star as the insertion position.  On `net3` (arc 0 runs 1 → 2,
arc 1 runs 0 → 1) that position is a node of a different list and the
insertion dereferences null, modelled as `none`.  On `netPar` (two
parallel arcs 0 → 1) the position is null although the reverse star is
nonempty, so the second arc is prepended and the reverse star of node 1
comes out `[1, 0]` — descending, not the ascending arc-ID order the
claim states. -/
theorem C1_reverse_star_insertion :
    initializeBushes net3 = none
    ∧ ((initializeBushes netPar).map (fun ib => ib.2.bushReverseStar 0 1)) = some [1, 0]
    ∧ ([1, 0] : List ℕ) ≠ [0, 1] := by
  refine ⟨initializeBushes_net3, ?_, by decide⟩
  rw [initializeBushes_netPar, Option.map_some']
  rfl

end TapSue

